import Mathlib

/-!
# curveDNA: `BasePair` and `Sequence`

A shallow embedding of `src/BasePair.cpp` and `src/Sequence.cpp`.

* `float` values are elements of a field `R` (exact arithmetic); the
  transcendental library functions (`cos`, `sin`, `acos`, `inversesqrt`) and the
  constant `half_pi` are taken as the parameter `GlmFuncs R`.
* `glm::vec3`, `glm::vec4` and `glm::mat4` are records; a `mat4` is stored by
  columns as in GLM, so that `m[c][r]` of the source is row `r` of column `c`.
* `std::vector<BasePair>` is a `List`; an access `_bps[k]` outside the vector
  has no defined behaviour and is modelled by `none`.
* `size_t` arithmetic is modulo `2 ^ 64`; `int` values are integers.
* An object declared without initialiser holds the content of its storage,
  which is a parameter of the function that declares it.
* `BasePair.h`, `Sequence.h` and `ParameterMap.h` are not among the sources: the
  members and the accessors they declare are modelled from the specification,
  and the parameter table is a function from keys to `Params`.
-/

namespace curveDNA

/-! ## GLM vectors and matrices -/

/-- The scalar library functions used through GLM, and the constant
`glm::half_pi<float>()`. -/
structure GlmFuncs (R : Type) where
  cos : R → R
  sin : R → R
  acos : R → R
  inversesqrt : R → R
  half_pi : R

/-- The laws of the scalar functions that the exact results rely on. -/
structure GlmFuncs.Lawful {R : Type} [Field R] (G : GlmFuncs R) : Prop where
  inversesqrt_one : G.inversesqrt 1 = 1
  cos_sq_add_sin_sq : ∀ a : R, G.cos a * G.cos a + G.sin a * G.sin a = 1

/-- `glm::vec3`. -/
@[ext]
structure vec3 (R : Type) where
  x : R
  y : R
  z : R
deriving DecidableEq, Repr

/-- `glm::vec4`. -/
@[ext]
structure vec4 (R : Type) where
  x : R
  y : R
  z : R
  w : R
deriving DecidableEq, Repr

/-- `glm::mat4`, stored by columns: `c0` is `m[0]`, ..., `c3` is `m[3]`. -/
@[ext]
structure mat4 (R : Type) where
  c0 : vec4 R
  c1 : vec4 R
  c2 : vec4 R
  c3 : vec4 R
deriving DecidableEq, Repr

section Glm

variable {R : Type} [Field R]

/-- `vec3 + vec3`. -/
def vec3.add (a b : vec3 R) : vec3 R := ⟨a.x + b.x, a.y + b.y, a.z + b.z⟩

/-- `vec3 - vec3`. -/
def vec3.sub (a b : vec3 R) : vec3 R := ⟨a.x - b.x, a.y - b.y, a.z - b.z⟩

/-- `scalar * vec3`. -/
def vec3.smul (s : R) (v : vec3 R) : vec3 R := ⟨s * v.x, s * v.y, s * v.z⟩

/-- `vec3 * scalar`. -/
def vec3.muls (v : vec3 R) (s : R) : vec3 R := ⟨v.x * s, v.y * s, v.z * s⟩

/-- `vec3 / scalar`. -/
def vec3.divs (v : vec3 R) (s : R) : vec3 R := ⟨v.x / s, v.y / s, v.z / s⟩

/-- `vec4 + vec4`. -/
def vec4.add (a b : vec4 R) : vec4 R := ⟨a.x + b.x, a.y + b.y, a.z + b.z, a.w + b.w⟩

/-- `vec4 - vec4`. -/
def vec4.sub (a b : vec4 R) : vec4 R := ⟨a.x - b.x, a.y - b.y, a.z - b.z, a.w - b.w⟩

/-- `vec4 * vec4`, component-wise. -/
def vec4.mul (a b : vec4 R) : vec4 R := ⟨a.x * b.x, a.y * b.y, a.z * b.z, a.w * b.w⟩

/-- `vec4 * scalar`. -/
def vec4.muls (v : vec4 R) (s : R) : vec4 R := ⟨v.x * s, v.y * s, v.z * s, v.w * s⟩

/-- `glm::vec3(v)` for a `vec4`: the first three components. -/
def vec4.xyz (v : vec4 R) : vec3 R := ⟨v.x, v.y, v.z⟩

/-- `glm::mat4(1.0f)`: the identity matrix. -/
def mat4.identity : mat4 R :=
  ⟨⟨1, 0, 0, 0⟩, ⟨0, 1, 0, 0⟩, ⟨0, 0, 1, 0⟩, ⟨0, 0, 0, 1⟩⟩

/-- `mat4 * vec4` as GLM computes it:
`(m[0] * v[0] + m[1] * v[1]) + (m[2] * v[2] + m[3] * v[3])`. -/
def mat4.mulVec (m : mat4 R) (v : vec4 R) : vec4 R :=
  ((m.c0.muls v.x).add (m.c1.muls v.y)).add ((m.c2.muls v.z).add (m.c3.muls v.w))

/-- `mat4 * mat4` as GLM computes it: column `j` of the result is
`A[0] * B[j][0] + A[1] * B[j][1] + A[2] * B[j][2] + A[3] * B[j][3]`. -/
def mat4.mul (a b : mat4 R) : mat4 R :=
  let col (bj : vec4 R) : vec4 R :=
    (((a.c0.muls bj.x).add (a.c1.muls bj.y)).add (a.c2.muls bj.z)).add (a.c3.muls bj.w)
  ⟨col b.c0, col b.c1, col b.c2, col b.c3⟩

/-- `mat4 * scalar`. -/
def mat4.muls (m : mat4 R) (s : R) : mat4 R :=
  ⟨m.c0.muls s, m.c1.muls s, m.c2.muls s, m.c3.muls s⟩

/-- `glm::dot` of two `vec3`, in exact arithmetic; `glm_dot_f32` is the same
with every `float` operation rounded. -/
def glm_dot (a b : vec3 R) : R := a.x * b.x + a.y * b.y + a.z * b.z

/-- `glm::normalize(v)`: `v * inversesqrt(dot(v, v))`. -/
def glm_normalize (G : GlmFuncs R) (v : vec3 R) : vec3 R :=
  v.muls (G.inversesqrt (glm_dot v v))

/-- `glm::translate(m, v)`: a copy of `m` whose last column is
`m[0] * v[0] + m[1] * v[1] + m[2] * v[2] + m[3]`. -/
def glm_translate (m : mat4 R) (v : vec3 R) : mat4 R :=
  { m with c3 := (((m.c0.muls v.x).add (m.c1.muls v.y)).add (m.c2.muls v.z)).add m.c3 }

/-- `glm::rotate(m, angle, v)`: the first three columns of `m` are combined with
the entries of the axis-angle rotation, the last column is kept. -/
def glm_rotate (G : GlmFuncs R) (m : mat4 R) (angle : R) (v : vec3 R) : mat4 R :=
  let a := angle
  let c := G.cos a
  let s := G.sin a
  let axis := glm_normalize G v
  let temp := vec3.smul (1 - c) axis
  let r00 := c + temp.x * axis.x
  let r01 := temp.x * axis.y + s * axis.z
  let r02 := temp.x * axis.z - s * axis.y
  let r10 := temp.y * axis.x - s * axis.z
  let r11 := c + temp.y * axis.y
  let r12 := temp.y * axis.z + s * axis.x
  let r20 := temp.z * axis.x + s * axis.y
  let r21 := temp.z * axis.y - s * axis.x
  let r22 := c + temp.z * axis.z
  { c0 := ((m.c0.muls r00).add (m.c1.muls r01)).add (m.c2.muls r02)
    c1 := ((m.c0.muls r10).add (m.c1.muls r11)).add (m.c2.muls r12)
    c2 := ((m.c0.muls r20).add (m.c1.muls r21)).add (m.c2.muls r22)
    c3 := m.c3 }

/-- The local `Inverse` of `glm::inverse(m)` for a `mat4`, before it is scaled:
the cofactor matrix built from the eighteen 2x2 minors `Coef00 .. Coef23`. -/
def glm_inverse_cofactors (m : mat4 R) : mat4 R :=
  let coef00 := m.c2.z * m.c3.w - m.c3.z * m.c2.w
  let coef02 := m.c1.z * m.c3.w - m.c3.z * m.c1.w
  let coef03 := m.c1.z * m.c2.w - m.c2.z * m.c1.w
  let coef04 := m.c2.y * m.c3.w - m.c3.y * m.c2.w
  let coef06 := m.c1.y * m.c3.w - m.c3.y * m.c1.w
  let coef07 := m.c1.y * m.c2.w - m.c2.y * m.c1.w
  let coef08 := m.c2.y * m.c3.z - m.c3.y * m.c2.z
  let coef10 := m.c1.y * m.c3.z - m.c3.y * m.c1.z
  let coef11 := m.c1.y * m.c2.z - m.c2.y * m.c1.z
  let coef12 := m.c2.x * m.c3.w - m.c3.x * m.c2.w
  let coef14 := m.c1.x * m.c3.w - m.c3.x * m.c1.w
  let coef15 := m.c1.x * m.c2.w - m.c2.x * m.c1.w
  let coef16 := m.c2.x * m.c3.z - m.c3.x * m.c2.z
  let coef18 := m.c1.x * m.c3.z - m.c3.x * m.c1.z
  let coef19 := m.c1.x * m.c2.z - m.c2.x * m.c1.z
  let coef20 := m.c2.x * m.c3.y - m.c3.x * m.c2.y
  let coef22 := m.c1.x * m.c3.y - m.c3.x * m.c1.y
  let coef23 := m.c1.x * m.c2.y - m.c2.x * m.c1.y
  let fac0 : vec4 R := ⟨coef00, coef00, coef02, coef03⟩
  let fac1 : vec4 R := ⟨coef04, coef04, coef06, coef07⟩
  let fac2 : vec4 R := ⟨coef08, coef08, coef10, coef11⟩
  let fac3 : vec4 R := ⟨coef12, coef12, coef14, coef15⟩
  let fac4 : vec4 R := ⟨coef16, coef16, coef18, coef19⟩
  let fac5 : vec4 R := ⟨coef20, coef20, coef22, coef23⟩
  let v0 : vec4 R := ⟨m.c1.x, m.c0.x, m.c0.x, m.c0.x⟩
  let v1 : vec4 R := ⟨m.c1.y, m.c0.y, m.c0.y, m.c0.y⟩
  let v2 : vec4 R := ⟨m.c1.z, m.c0.z, m.c0.z, m.c0.z⟩
  let v3 : vec4 R := ⟨m.c1.w, m.c0.w, m.c0.w, m.c0.w⟩
  let inv0 := ((v1.mul fac0).sub (v2.mul fac1)).add (v3.mul fac2)
  let inv1 := ((v0.mul fac0).sub (v2.mul fac3)).add (v3.mul fac4)
  let inv2 := ((v0.mul fac1).sub (v1.mul fac3)).add (v3.mul fac5)
  let inv3 := ((v0.mul fac2).sub (v1.mul fac4)).add (v2.mul fac5)
  let signA : vec4 R := ⟨1, -1, 1, -1⟩
  let signB : vec4 R := ⟨-1, 1, -1, 1⟩
  ⟨inv0.mul signA, inv1.mul signB, inv2.mul signA, inv3.mul signB⟩

/-- The local `Dot1` of `glm::inverse(m)`: the determinant, computed as the
first column of `m` against the first row of the cofactor matrix. -/
def glm_inverse_dot1 (m : mat4 R) : R :=
  let inverse := glm_inverse_cofactors m
  let row0 : vec4 R := ⟨inverse.c0.x, inverse.c1.x, inverse.c2.x, inverse.c3.x⟩
  let dot0 := m.c0.mul row0
  (dot0.x + dot0.y) + (dot0.z + dot0.w)

/-- `glm::inverse(m)` for a `mat4`: the cofactor matrix times `1 / Dot1`. -/
def glm_inverse (m : mat4 R) : mat4 R :=
  let oneOverDeterminant := 1 / glm_inverse_dot1 m
  (glm_inverse_cofactors m).muls oneOverDeterminant

end Glm

/-! ## `BasePair` -/

/-- Modelled from the spec: `Params` of `ParameterMap.h`, which is not among the
sources: the four scalars rise-per-residue, twist, wedge and direction of a
dinucleotide step. -/
structure Params (R : Type) where
  rise_per_residue : R
  twist : R
  wedge : R
  direction : R
deriving DecidableEq, Repr

/-- Modelled from the spec: the members of `BasePair`, declared in `BasePair.h`,
which is not among the sources. They are the members that `BasePair.cpp` writes
and those behind the accessors that `Sequence.cpp` calls: the step transform
and its inverse, the three body-fixed points and their global positions, the
local normal, the average normal, and the two angles, which hold the unset
sentinel `BasePair::UNINITIALISED_ANGLE` (`none`) until `set_curvature` or
`set_bending` stores a value. -/
structure BasePair (R : Type) where
  _trasf_matrix : mat4 R
  _inv_trasf_matrix : mat4 R
  _base_centre : vec4 R
  _base_phosphate_53 : vec4 R
  _base_phosphate_35 : vec4 R
  _centre : vec4 R
  _phosphate_53 : vec4 R
  _phosphate_35 : vec4 R
  _normal : vec3 R
  _avg_normal : vec3 R
  _curvature : Option R
  _bending : Option R
deriving DecidableEq, Repr

section BasePairOps

variable {R : Type} [Field R]

/-- `BasePair::BasePair()`. The initialiser list writes the step matrix and the
three body-fixed points; the other members are not written by the constructor
and keep the content `u` of the storage, except that both angles start as the
unset sentinel (the specification: unset until their passes run). -/
def BasePair.new (u : BasePair R) : BasePair R :=
  { u with
    _trasf_matrix := mat4.identity
    _base_centre := ⟨0, 0, 0, 1⟩
    _base_phosphate_53 := ⟨-0.0975688, 0.9258795, 0.18, 1⟩
    _base_phosphate_35 := ⟨-0.0975688, -0.9258795, 0.18, 1⟩
    _curvature := none
    _bending := none }

/-- `BasePair::init_trasf_matrix`. -/
def BasePair.init_trasf_matrix (G : GlmFuncs R) (self : BasePair R)
    (base_step_params : Params R) : BasePair R :=
  let m0 := self._trasf_matrix
  let m1 := glm_translate m0 ⟨0, 0, base_step_params.rise_per_residue / 2⟩
  let m2 := glm_rotate G m1 (base_step_params.twist / 2) ⟨0, 0, 1⟩
  let m3 := glm_rotate G m2 (base_step_params.direction - G.half_pi) ⟨0, 0, 1⟩
  let m4 := glm_rotate G m3 (-base_step_params.wedge) ⟨1, 0, 0⟩
  let m5 := glm_rotate G m4 (G.half_pi - base_step_params.direction) ⟨0, 0, 1⟩
  let m6 := glm_rotate G m5 (base_step_params.twist / 2) ⟨0, 0, 1⟩
  let m7 := glm_translate m6 ⟨0, 0, base_step_params.rise_per_residue / 2⟩
  { self with _trasf_matrix := m7, _inv_trasf_matrix := glm_inverse m7 }

/-- `BasePair::set_sites`. -/
def BasePair.set_sites (self : BasePair R) (rot_matrix : mat4 R) : BasePair R :=
  { self with
    _centre := rot_matrix.mulVec self._base_centre
    _phosphate_53 := rot_matrix.mulVec self._base_phosphate_53
    _phosphate_35 := rot_matrix.mulVec self._base_phosphate_35 }

/-- Modelled from the spec: the accessor `BasePair::centre()` of `BasePair.h`:
the global centre as a `vec3`. -/
def BasePair.centre (self : BasePair R) : vec3 R := self._centre.xyz

/-- Modelled from the spec: the accessor `BasePair::phosphate_53()` of `BasePair.h`:
the global position of the first phosphate point as a `vec3`. -/
def BasePair.phosphate_53 (self : BasePair R) : vec3 R := self._phosphate_53.xyz

/-- Modelled from the spec: the accessor `BasePair::phosphate_35()` of `BasePair.h`:
the global position of the second phosphate point as a `vec3`. -/
def BasePair.phosphate_35 (self : BasePair R) : vec3 R := self._phosphate_35.xyz

/-- Modelled from the spec: the accessor `BasePair::inv_trasf_matrix()` of `BasePair.h`:
the cached inverse step transform. -/
def BasePair.inv_trasf_matrix (self : BasePair R) : mat4 R := self._inv_trasf_matrix

/-- Modelled from the spec: the accessor `BasePair::normal()` of `BasePair.h`:
the local normal. -/
def BasePair.normal (self : BasePair R) : vec3 R := self._normal

/-- Modelled from the spec: the accessor `BasePair::avg_normal()` of `BasePair.h`:
the average normal. -/
def BasePair.avg_normal (self : BasePair R) : vec3 R := self._avg_normal

/-- Modelled from the spec: the setter `BasePair::set_avg_normal` of `BasePair.h`:
stores the average normal. -/
def BasePair.set_avg_normal (self : BasePair R) (v : vec3 R) : BasePair R :=
  { self with _avg_normal := v }

/-- Modelled from the spec: the setter `BasePair::set_curvature` of `BasePair.h`:
stores the curvature angle. -/
def BasePair.set_curvature (self : BasePair R) (a : R) : BasePair R :=
  { self with _curvature := some a }

/-- Modelled from the spec: the setter `BasePair::set_bending` of `BasePair.h`:
stores the bending angle. -/
def BasePair.set_bending (self : BasePair R) (a : R) : BasePair R :=
  { self with _bending := some a }

/-! ### The seven operations of the step transform, as matrices -/

/-- The homogeneous matrix of the translation by `d` along z. -/
def spec_translate_z (d : R) : mat4 R :=
  ⟨⟨1, 0, 0, 0⟩, ⟨0, 1, 0, 0⟩, ⟨0, 0, 1, 0⟩, ⟨0, 0, d, 1⟩⟩

/-- The homogeneous matrix of the rotation by the angle `a` about z. -/
def spec_rotate_z (G : GlmFuncs R) (a : R) : mat4 R :=
  ⟨⟨G.cos a, G.sin a, 0, 0⟩, ⟨-G.sin a, G.cos a, 0, 0⟩, ⟨0, 0, 1, 0⟩, ⟨0, 0, 0, 1⟩⟩

/-- The homogeneous matrix of the rotation by the angle `a` about x. -/
def spec_rotate_x (G : GlmFuncs R) (a : R) : mat4 R :=
  ⟨⟨1, 0, 0, 0⟩, ⟨0, G.cos a, G.sin a, 0⟩, ⟨0, -G.sin a, G.cos a, 0⟩, ⟨0, 0, 0, 1⟩⟩

/-- The seven operations of the step transform in the order in which the
specification lists them. -/
def spec_step_operations (G : GlmFuncs R) (p : Params R) : List (mat4 R) :=
  [ spec_translate_z (p.rise_per_residue / 2),
    spec_rotate_z G (p.twist / 2),
    spec_rotate_z G (p.direction - G.half_pi),
    spec_rotate_x G (-p.wedge),
    spec_rotate_z G (G.half_pi - p.direction),
    spec_rotate_z G (p.twist / 2),
    spec_translate_z (p.rise_per_residue / 2) ]

/-- The in-order matrix product of a list of transforms, starting from the
identity: `[a, b, c]` gives `((1 * a) * b) * c`. -/
def mat4.prod (l : List (mat4 R)) : mat4 R := l.foldl mat4.mul mat4.identity

end BasePairOps

/-! ## `Sequence` -/

/-- Modelled from the spec: the members of `Sequence`, declared in `Sequence.h`,
which is not among the sources: those that `Sequence.cpp` reads and writes. -/
structure Sequence (R : Type) where
  _filename : String
  _perfect_length : R
  _bps : List (BasePair R)
  _bounding_box : vec3 R
  _empty : Bool
deriving DecidableEq, Repr

/-- The variables of the reading loop of `Sequence::init`, with two ghost
lists: the keys passed to `params[...]` and the characters reported on `cerr`,
both in order. `c` is the storage of the loop-local `char c`. -/
structure ReadState (R : Type) where
  c : Char
  last_c : Int
  _bps : List (BasePair R)
  _perfect_length : R
  lookups : List String
  warnings : List Char
deriving DecidableEq, Repr

/-- The variables of the placement loop of `Sequence::init`; `placed` holds the
base pairs already visited, in order. -/
structure PlaceState (R : Type) where
  placed : List (BasePair R)
  inv_trasf_matrix : mat4 R
  min_coords : vec3 R
  max_coords : vec3 R
deriving DecidableEq, Repr

/-- `toupper` in the "C" locale. -/
def toupper (c : Char) : Char :=
  if 'a'.toNat ≤ c.toNat ∧ c.toNat ≤ 'z'.toNat then Char.ofNat (c.toNat - 32) else c

/-- `isspace` in the "C" locale: space, `\t`, `\n`, `\v`, `\f`, `\r`. -/
def isspace (c : Char) : Bool :=
  c.toNat = 32 || (9 ≤ c.toNat && c.toNat ≤ 13)

/-- `Sequence::_is_valid`. -/
def _is_valid (c : Char) : Bool :=
  c == 'A' || c == 'C' || c == 'G' || c == 'T'

/-- The conversion of an `int` to `size_t`: reduction modulo `2 ^ 64`. -/
def size_t_of_int (z : Int) : Nat := (z % 2 ^ 64).toNat

/-- `_bps[k]` for an `int` expression `k`: the index is converted to `size_t`;
`none` when it is outside the vector. -/
def vec_at {α : Type} (v : List α) (k : Int) : Option α := v[size_t_of_int k]?

/-- An update of `_bps[k]` in place for an `int` expression `k`; `none` when
the index is outside the vector. -/
def vec_modify {α : Type} (v : List α) (k : Int) (f : α → α) : Option (List α) :=
  if size_t_of_int k < v.length then some (v.modify f (size_t_of_int k)) else none

/-- The loop `for(int i = start; i < bound; i++)` where `bound` is a `size_t`:
`i` is converted to `size_t` in each comparison. The loop variable grows by one
per iteration, so `bound + 1` units of `fuel` are never used up; `none` is a
body without defined behaviour (or no fuel). -/
def for_size_t {σ : Type} (bound : Nat) (body : Int → σ → Option σ) :
    Nat → Int → σ → Option σ
  | 0, _, _ => none
  | fuel + 1, i, s =>
    if size_t_of_int i < bound then
      (body i s).bind (for_size_t bound body fuel (i + 1))
    else some s

/-- The values of `j` in `for(int j = lo; j <= hi; j++)`. -/
def int_range_incl (lo hi : Int) : List Int :=
  (List.range (hi + 1 - lo).toNat).map (fun (k : Nat) => lo + (k : Int))

section SequenceOps

variable {R : Type} [LinearOrderedField R]

/-- `glm::min(x, y)`: `(y < x) ? y : x`. -/
def glm_min (x y : R) : R := if y < x then y else x

/-- `glm::max(x, y)`: `(x < y) ? y : x`. -/
def glm_max (x y : R) : R := if x < y then y else x

/-- `Sequence::Sequence()`: the perfect length is zero and the vector is empty;
the other members keep the content `u` of the storage. -/
def Sequence.new (u : Sequence R) : Sequence R :=
  { u with _filename := "", _perfect_length := 0, _bps := [] }

/-- The body of the reading loop of `Sequence::init` once `seq.get(c)` has
returned, with the character (if any was read) in `st.c`. -/
def Sequence.init_body (G : GlmFuncs R) (params : String → Params R) (u : BasePair R)
    (st : ReadState R) : ReadState R :=
  let c := st.c
  let upper_c := toupper c
  if _is_valid upper_c then
    let st1 :=
      if st.last_c ≠ -1 then
        let base_step := String.mk [Char.ofNat st.last_c.toNat, upper_c]
        let base_step_params := params base_step
        let new_bp := (BasePair.new u).init_trasf_matrix G base_step_params
        { st with
          _bps := st._bps ++ [new_bp]
          _perfect_length := st._perfect_length + base_step_params.rise_per_residue
          lookups := st.lookups ++ [base_step] }
      else st
    { st1 with last_c := (upper_c.toNat : Int) }
  else if !isspace c then
    { st with warnings := st.warnings ++ [c] }
  else st

/-- The reading loop `while(seq.good()) { char c; seq.get(c); ... }` over the
characters left in the file. While a character is left, `get` stores it in `c`
and the stream stays good. At the end of the file the stream is still good, so
the body runs once more: `get` fails, sets the end-of-file and fail bits and
leaves `c` unmodified, and the body works on the content of the storage of
`c`; the loop then ends. -/
def Sequence.init_read (G : GlmFuncs R) (params : String → Params R) (u : BasePair R) :
    ReadState R → List Char → ReadState R
  | st, [] => Sequence.init_body G params u st
  | st, ch :: rest =>
    Sequence.init_read G params u (Sequence.init_body G params u { st with c := ch }) rest

/-- The body of the placement loop `for(auto &bp : _bps)` of `Sequence::init`. -/
def Sequence.init_place_body (st : PlaceState R) (bp : BasePair R) : PlaceState R :=
  let bp := bp.set_sites st.inv_trasf_matrix
  let centre := bp.centre
  { placed := st.placed ++ [bp]
    min_coords := ⟨glm_min st.min_coords.x centre.x, glm_min st.min_coords.y centre.y,
      glm_min st.min_coords.z centre.z⟩
    max_coords := ⟨glm_max st.max_coords.x centre.x, glm_max st.max_coords.y centre.y,
      glm_max st.max_coords.z centre.z⟩
    inv_trasf_matrix := st.inv_trasf_matrix.mul bp.inv_trasf_matrix }

/-- The state of the placement loop before its first iteration. -/
def Sequence.init_place_start : PlaceState R :=
  { placed := []
    inv_trasf_matrix := mat4.identity
    min_coords := ⟨1e10, 1e10, 1e10⟩
    max_coords := ⟨-1e10, -1e10, -1e10⟩ }

/-- `Sequence::init`. `file` is the content of the file `filename`, `none` when
it cannot be read; `params` is the parameter table; `u` is the storage content
of a `BasePair` before its constructor runs and `c0` that of the loop-local
`c`. The thrown strings are the errors. -/
def Sequence.init (G : GlmFuncs R) (self : Sequence R) (filename : String)
    (file : Option (List Char)) (params : String → Params R) (u : BasePair R) (c0 : Char) :
    Except String (Sequence R) :=
  match file with
  | none => Except.error ("File '" ++ filename ++ "' is unreadable")
  | some content =>
    let st := Sequence.init_read G params u
      { c := c0, last_c := -1, _bps := self._bps, _perfect_length := 0,
        lookups := [], warnings := [] } content
    if st._bps.length = 0 then
      Except.error ("File '" ++ filename ++ "' does not contain a meaningful sequence")
    else
      let pl := st._bps.foldl Sequence.init_place_body Sequence.init_place_start
      Except.ok
        { _filename := filename
          _perfect_length := st._perfect_length
          _bps := pl.placed
          _bounding_box := pl.max_coords.sub pl.min_coords
          _empty := false }

/-- The keys that `Sequence::init` passes to `params[...]`, in order. -/
def Sequence.init_lookups (G : GlmFuncs R) (self : Sequence R)
    (content : List Char) (params : String → Params R) (u : BasePair R) (c0 : Char) :
    List String :=
  (Sequence.init_read G params u
    { c := c0, last_c := -1, _bps := self._bps, _perfect_length := 0,
      lookups := [], warnings := [] } content).lookups

/-- The body of the loop of `Sequence::compute_bending` for the index `i`. -/
def Sequence.compute_bending_body (G : GlmFuncs R) (bracket : Int) (i : Int)
    (bps : List (BasePair R)) : Option (List (BasePair R)) :=
  (vec_at bps (i - bracket)).bind fun bp_before =>
  (vec_at bps (i + bracket)).bind fun bp_after =>
  let bending_angle := G.acos (glm_dot bp_before.normal bp_after.normal)
  vec_modify bps i (fun bp => bp.set_bending bending_angle)

/-- `Sequence::compute_bending`; `none` when a step outside the vector is
accessed. -/
def Sequence.compute_bending (G : GlmFuncs R) (self : Sequence R) (bracket : Int) :
    Option (Sequence R) :=
  if self._bps.length < size_t_of_int (2 * bracket) then some self
  else
    let bound := size_t_of_int ((self._bps.length : Int) - bracket)
    (for_size_t bound (Sequence.compute_bending_body G bracket) (bound + 1) bracket
      self._bps).map fun bps => { self with _bps := bps }

/-- The inner loop of the first pass of `Sequence::compute_curvature`: the
weighted sum of the normals around `bp`. -/
def Sequence.avg_normal_sum (normal_bracket : Int) (bps : List (BasePair R)) (bp : Int) :
    Option (vec3 R) :=
  (int_range_incl (-normal_bracket) normal_bracket).foldlM
    (fun (avg_normal : vec3 R) (j : Int) =>
      (vec_at bps (bp + j)).map fun b =>
        let factor : R := if |j| = normal_bracket then 0.5 else 1
        avg_normal.add (vec3.smul factor b.normal))
    ⟨0, 0, 0⟩

/-- The body of the first loop of `Sequence::compute_curvature`. -/
def Sequence.compute_curvature_body1 (normal_bracket : Int) (bp : Int)
    (bps : List (BasePair R)) : Option (List (BasePair R)) :=
  (Sequence.avg_normal_sum normal_bracket bps bp).bind fun avg_normal =>
  let avg_normal := avg_normal.divs (((2 * normal_bracket : Int) : R))
  vec_modify bps bp (fun b => b.set_avg_normal avg_normal)

/-- The body of the second loop of `Sequence::compute_curvature`. -/
def Sequence.compute_curvature_body2 (G : GlmFuncs R) (bracket : Int) (bp : Int)
    (bps : List (BasePair R)) : Option (List (BasePair R)) :=
  (vec_at bps (bp - bracket)).bind fun bp_before =>
  (vec_at bps (bp + bracket)).bind fun bp_after =>
  let curvature := G.acos (glm_dot bp_before.avg_normal bp_after.avg_normal)
  vec_modify bps bp (fun b => b.set_curvature curvature)

/-- `Sequence::compute_curvature`; `none` when a step outside the vector is
accessed. -/
def Sequence.compute_curvature (G : GlmFuncs R) (self : Sequence R) (bracket : Int) :
    Option (Sequence R) :=
  if self._bps.length < size_t_of_int (2 * bracket) then some self
  else
    let normal_bracket : Int := 5
    let bound1 := size_t_of_int ((self._bps.length : Int) - normal_bracket)
    let bound2 := size_t_of_int ((self._bps.length : Int) - (bracket + normal_bracket))
    (for_size_t bound1 (Sequence.compute_curvature_body1 normal_bracket) (bound1 + 1)
      normal_bracket self._bps).bind fun bps1 =>
    (for_size_t bound2 (Sequence.compute_curvature_body2 G bracket) (bound2 + 1)
      (bracket + normal_bracket) bps1).map fun bps2 => { self with _bps := bps2 }

end SequenceOps

end curveDNA

/-! ## The reading loop of `Sequence::init`, in the words of the specification -/

namespace curveDNA

/-- The sequence of valid bases of a character stream: every character is
upper-cased and the characters A, C, G, T are kept. -/
def valid_bases (content : List Char) : List Char := (content.map toupper).filter _is_valid

/-- The dinucleotide codes of the adjacent pairs of a list of bases. -/
def adjacent_pairs : List Char → List String
  | x :: y :: rest => String.mk [x, y] :: adjacent_pairs (y :: rest)
  | _ => []

/-- The value of `last_c` that stands for the last valid base read. -/
def last_c_code (prev : Option Char) : Int :=
  match prev with
  | none => -1
  | some p => (p.toNat : Int)

/-- One pass of the reading loop in which `get` reads the character `ch`. -/
def Sequence.init_process {R : Type} [LinearOrderedField R] (G : GlmFuncs R) (params : String → Params R) (u : BasePair R)
    (st : ReadState R) (ch : Char) : ReadState R :=
  Sequence.init_body G params u { st with c := ch }

end curveDNA

/-! ## The placement loop of `Sequence::init`, in the words of the specification -/

namespace curveDNA

/-- The accumulated transform `A_i` before step `i`: the in-order product
`inv_0 * inv_1 * ... * inv_{i-1}` of the inverse step transforms of the steps
before `i`, the identity for `i = 0`. -/
def accumulated_transform {R : Type} [Field R] (bps : List (BasePair R)) (i : Nat) : mat4 R :=
  mat4.prod ((bps.take i).map BasePair.inv_trasf_matrix)

/-- The steps of `bps` placed one after the other, the first with the
transform `a`, each next one with the transform of the one before times the
inverse step transform of the one before. -/
def place_from {R : Type} [Field R] (a : mat4 R) : List (BasePair R) → List (BasePair R)
  | [] => []
  | bp :: rest => bp.set_sites a :: place_from (a.mul bp.inv_trasf_matrix) rest

/-- The value `e` is the extent of the non-empty list `xs`: its greatest
element minus its least element. -/
def is_extent {R : Type} [LinearOrderedField R] (xs : List R) (e : R) : Prop :=
  ∃ lo ∈ xs, ∃ hi ∈ xs, (∀ v ∈ xs, lo ≤ v ∧ v ≤ hi) ∧ e = hi - lo

end curveDNA

/-! ## The result of `Sequence::init` in closed form -/

namespace curveDNA

/-- The keys that the reading loop forms on a file `content`: the adjacent
pairs of the valid bases of the file followed by the character that the loop
works on after the failed `get`, which is the last character of the file (`c0`
for an empty file). -/
def init_keys (content : List Char) (c0 : Char) : List String :=
  adjacent_pairs (valid_bases (content ++ [content.getLast?.getD c0]))

/-- The steps that the reading loop builds for a list of keys. -/
def init_built {R : Type} [Field R] (G : GlmFuncs R) (params : String → Params R)
    (u : BasePair R) (keys : List String) : List (BasePair R) :=
  keys.map fun key => (BasePair.new u).init_trasf_matrix G (params key)

/-- A file with lower-case letters, a blank, an invalid character and a final
newline; its valid bases are A, C, G, T. -/
def sample_content : List Char := ['a', 'C', ' ', 'x', 'g', 'T', '\n']

end curveDNA

/-! ## In-place passes over the steps, in closed form -/

namespace curveDNA

/-- The result of a pass that rewrites in place every index in `[lo, hi)`. -/
def pass_result {α : Type} (upd : Nat → α → α) (lo hi : Nat) (orig : List α) : List α :=
  orig.mapIdx fun k x => if lo ≤ k ∧ k < hi then upd k x else x

end curveDNA

/-! ## `compute_bending` in the words of the specification -/

namespace curveDNA

/-- `local_normal[k]`: the normal of step `k` (the zero vector outside the
list). -/
def normal_at {R : Type} [Field R] (bps : List (BasePair R)) (k : Nat) : vec3 R :=
  ((bps[k]?).map BasePair.normal).getD ⟨0, 0, 0⟩

/-- The bending angle of step `i` for the bracket `b`:
`arccos(dot(local_normal[i - b], local_normal[i + b]))`. -/
def bending_value {R : Type} [Field R] (G : GlmFuncs R) (bps : List (BasePair R))
    (b i : Nat) : R :=
  G.acos (glm_dot (normal_at bps (i - b)) (normal_at bps (i + b)))

/-- The update of step `i` by `compute_bending` with the bracket `b`. -/
def bending_update {R : Type} [Field R] (G : GlmFuncs R) (bps : List (BasePair R))
    (b : Nat) (i : Nat) (bp : BasePair R) : BasePair R :=
  bp.set_bending (bending_value G bps b i)

end curveDNA

/-! ## `compute_curvature` in the words of the specification -/

namespace curveDNA

/-- `avg_normal[k]`: the average normal of step `k` (the zero vector outside
the list). -/
def avg_normal_at {R : Type} [Field R] (bps : List (BasePair R)) (k : Nat) : vec3 R :=
  ((bps[k]?).map BasePair.avg_normal).getD ⟨0, 0, 0⟩

/-- The windowed average of the normals around step `i`: the sum over the
offsets `j` from `-normal_bracket` to `normal_bracket` of
`factor * local_normal[i + j]`, with the factor `0.5` at both ends and `1`
elsewhere, divided by `2 * normal_bracket`. -/
def avg_normal_value {R : Type} [LinearOrderedField R] (bps : List (BasePair R))
    (normal_bracket : Int) (i : Nat) : vec3 R :=
  ((int_range_incl (-normal_bracket) normal_bracket).foldl
    (fun (acc : vec3 R) (j : Int) =>
      acc.add (vec3.smul (if |j| = normal_bracket then 0.5 else 1)
        (normal_at bps ((i : Int) + j).toNat)))
    ⟨0, 0, 0⟩).divs (((2 * normal_bracket : Int) : R))

/-- The update of step `i` by the first pass of `compute_curvature`. -/
def avg_normal_update {R : Type} [LinearOrderedField R] (bps : List (BasePair R))
    (i : Nat) (bp : BasePair R) : BasePair R :=
  bp.set_avg_normal (avg_normal_value bps 5 i)

/-- The curvature of step `i` for the bracket `b`:
`arccos(dot(avg_normal[i - b], avg_normal[i + b]))`. -/
def curvature_value {R : Type} [Field R] (G : GlmFuncs R) (bps : List (BasePair R))
    (b i : Nat) : R :=
  G.acos (glm_dot (avg_normal_at bps (i - b)) (avg_normal_at bps (i + b)))

/-- The update of step `i` by the second pass of `compute_curvature`. -/
def curvature_update {R : Type} [Field R] (G : GlmFuncs R) (bps : List (BasePair R))
    (b : Nat) (i : Nat) (bp : BasePair R) : BasePair R :=
  bp.set_curvature (curvature_value G bps b i)

end curveDNA

/-! ## Reports: `print_mgl` and `print_ee` -/

namespace curveDNA

/-- A line of the `.mgl` file, kept as the values streamed into it: the header
`.Box:<x>,<y>,<z>` or a point record `<x> <y> <z> @ <r> C[<color>]`. -/
inductive MglLine (R : Type) where
  | box (x y z : R)
  | point (x y z r : R) (color : String)
deriving DecidableEq, Repr

/-- The characters of a line, for a text form `fmt` of the numbers (what
`operator<<` writes for a `float` or a `double`). -/
def MglLine.text {R : Type} (fmt : R → String) : MglLine R → String
  | MglLine.box x y z => ".Box:" ++ fmt x ++ "," ++ fmt y ++ "," ++ fmt z ++ "\n"
  | MglLine.point x y z r color =>
    fmt x ++ " " ++ fmt y ++ " " ++ fmt z ++ " @ " ++ fmt r ++ " C[" ++ color ++ "]" ++ "\n"

section Reports

variable {R : Type} [LinearOrderedField R]

/-- `Sequence::_get_mgl_line`. -/
def Sequence._get_mgl_line (v : vec3 R) (r : R) (color : String) : MglLine R :=
  MglLine.point v.x v.y v.z r color

/-- The body of the loop `for(auto bp : _bps)` of `Sequence::print_mgl`: three
lines are streamed into `out`. -/
def Sequence.print_mgl_body (out : List (MglLine R)) (bp : BasePair R) : List (MglLine R) :=
  ((out ++ [Sequence._get_mgl_line bp.centre 0.15 "blue"]) ++
    [Sequence._get_mgl_line bp.phosphate_35 0.4 "red"]) ++
    [Sequence._get_mgl_line bp.phosphate_53 0.4 "red"]

/-- `Sequence::print_mgl`: the name of the file and the lines written to it. -/
def Sequence.print_mgl (self : Sequence R) : String × List (MglLine R) :=
  (self._filename ++ ".mgl",
    self._bps.foldl Sequence.print_mgl_body
      [MglLine.box (1.5 * self._bounding_box.x) (1.5 * self._bounding_box.y)
        (1.5 * self._bounding_box.z)])

end Reports

end curveDNA

/-! ## Sample step parameters and step lists -/

namespace curveDNA

/-- Step parameters with a quarter-turn wedge in the rational scalar functions:
no rise, no twist, wedge -1 and direction 2. -/
def sample_wedge_params : Params ℚ := ⟨0, 0, -1, 2⟩

end curveDNA

/-! ## Screws about z, in the words of the specification -/

namespace curveDNA

end curveDNA

/-! ## `float` arithmetic with rounding

The exact model above computes in a field. The definitions of this section
compute as the machine does: every `float` operation returns the IEEE binary32
value nearest to the exact result. -/

namespace curveDNA

/-- The number of binary digits of `n`, by halving at most `fuel` times. -/
def bit_length_aux : Nat → Nat → Nat
  | 0, _ => 0
  | fuel + 1, n => if n = 0 then 0 else bit_length_aux fuel (n / 2) + 1

/-- The number of binary digits of `n`. -/
def bit_length (n : Nat) : Nat := bit_length_aux n n

/-- The exponent of the leading bit of the positive rational `a / b`: the
integer `e` with `2 ^ e <= a / b < 2 ^ (e + 1)`. -/
def f32_exponent (a b : Nat) : Int :=
  let d : Int := (bit_length a : Int) - (bit_length b : Int)
  if d < 0 then
    if b ≤ a * 2 ^ (-d).toNat then d else d - 1
  else
    if b * 2 ^ d.toNat ≤ a then d else d - 1

/-- The integer nearest to `p / r`, a tie going to the even one. -/
def round_half_even (p r : Nat) : Nat :=
  let f := p / r
  let rem := p % r
  if 2 * rem < r then f
  else if r < 2 * rem then f + 1
  else if f % 2 = 0 then f else f + 1

/-- The `float` nearest to a rational: IEEE binary32 with 24 significant bits,
round to nearest, ties to even, subnormal below `2 ^ -126`. Results beyond the
largest finite `float` are not modelled. -/
def f32_round (q : ℚ) : ℚ :=
  if q = 0 then 0
  else
    let a := q.num.natAbs
    let b := q.den
    let u : Int := max (f32_exponent a b - 23) (-149)
    let n : Nat :=
      if u < 0 then round_half_even (a * 2 ^ (-u).toNat) b
      else round_half_even a (b * 2 ^ u.toNat)
    let r : ℚ :=
      if u < 0 then (n : ℚ) / ((2 ^ (-u).toNat : Nat) : ℚ)
      else ((n * 2 ^ u.toNat : Nat) : ℚ)
    if q < 0 then -r else r

/-- The product of two `float`. -/
def f32_mul (a b : ℚ) : ℚ := f32_round (a * b)

/-- The sum of two `float`. -/
def f32_add (a b : ℚ) : ℚ := f32_round (a + b)

/-- The quotient of two `float`. -/
def f32_div (a b : ℚ) : ℚ := f32_round (a / b)

/-- `glm::dot` of two `vec3` of `float`: the three products, then
`tmp.x + tmp.y + tmp.z`, each operation rounded. -/
def glm_dot_f32 (a b : vec3 ℚ) : ℚ :=
  f32_add (f32_add (f32_mul a.x b.x) (f32_mul a.y b.y)) (f32_mul a.z b.z)

/-- The product `v * s` of a `vec3` of `float` and a `float`. -/
def vec3.muls_f32 (v : vec3 ℚ) (s : ℚ) : vec3 ℚ :=
  ⟨f32_mul v.x s, f32_mul v.y s, f32_mul v.z s⟩

/-- The argument that the body of the loop of `Sequence::compute_bending` passes
to `glm::acos` for the index `i`, computed in `float` arithmetic:
`glm::dot(_bps[i - bracket].normal(), _bps[i + bracket].normal())`. -/
def Sequence.compute_bending_dot_f32 (bracket : Int) (i : Int) (bps : List (BasePair ℚ)) :
    Option ℚ :=
  (vec_at bps (i - bracket)).bind fun bp_before =>
  (vec_at bps (i + bracket)).bind fun bp_after =>
  some (glm_dot_f32 bp_before.normal bp_after.normal)

end curveDNA

/-! ## Sample inputs over the rationals -/

namespace curveDNA

/-- Scalar functions over the rationals: the tangent half-angle form of the
circle, `cos a = (1 - a²) / (1 + a²)` and `sin a = 2 a / (1 + a²)`, which
satisfies `cos² + sin² = 1`. -/
def GlmFuncs.rational : GlmFuncs ℚ where
  cos := fun a => (1 - a * a) / (1 + a * a)
  sin := fun a => 2 * a / (1 + a * a)
  acos := fun x => 1 - x
  inversesqrt := fun x => 1 / x
  half_pi := 1

/-- A parameter table over the rationals: the twist depends on the first base
of the key. -/
def sample_params : String → Params ℚ :=
  fun key => ⟨3.4, if key.front = 'A' then 0.5 else 0.25, 0.125, 0.75⟩

/-- A storage content for a `BasePair`. -/
def sample_storage : BasePair ℚ :=
  { _trasf_matrix := mat4.identity
    _inv_trasf_matrix := mat4.identity
    _base_centre := ⟨0, 0, 0, 0⟩
    _base_phosphate_53 := ⟨0, 0, 0, 0⟩
    _base_phosphate_35 := ⟨0, 0, 0, 0⟩
    _centre := ⟨0, 0, 0, 0⟩
    _phosphate_53 := ⟨0, 0, 0, 0⟩
    _phosphate_35 := ⟨0, 0, 0, 0⟩
    _normal := ⟨0, 0, 1⟩
    _avg_normal := ⟨0, 0, 0⟩
    _curvature := some 7
    _bending := some 7 }

/-- A storage content for a `Sequence`. -/
def sample_sequence_storage : Sequence ℚ :=
  { _filename := "x", _perfect_length := 5, _bps := [sample_storage],
    _bounding_box := ⟨1, 1, 1⟩, _empty := true }

/-- Five steps with unset angles and different normals. -/
def sample_steps : Sequence ℚ :=
  { _filename := "sample", _perfect_length := 17, _bounding_box := ⟨1, 1, 1⟩, _empty := false
    _bps := (List.range 5).map fun k =>
      { BasePair.new sample_storage with _normal := ⟨k, 1, 0⟩ } }

end curveDNA

/-! ## Sample step lists with unit normals -/

namespace curveDNA

/-- Thirteen steps with unset angles whose normals are unit vectors: `(0, 0, 1)`
at the even indices and `(3/5, 4/5, 0)` at the odd ones. -/
def sample_unit_steps : Sequence ℚ :=
  { _filename := "sample", _perfect_length := 17, _bounding_box := ⟨1, 1, 1⟩, _empty := false
    _bps := (List.range 13).map fun k =>
      { BasePair.new sample_storage with
        _normal := if k % 2 = 0 then ⟨0, 0, 1⟩ else ⟨0.6, 0.8, 0⟩ } }

/-- Ten steps with unset angles. -/
def sample_ten_steps : Sequence ℚ :=
  { _filename := "sample", _perfect_length := 17, _bounding_box := ⟨1, 1, 1⟩, _empty := false
    _bps := List.replicate 10 (BasePair.new sample_storage) }

end curveDNA

/-! ## Sample inputs for straight sequences -/

namespace curveDNA

end curveDNA

/-! ## Sample inputs in `float` arithmetic -/

namespace curveDNA

/-- The `float` nearest to the square root of 17. -/
def sample_float_sqrt17 : ℚ := 8646779 / 2 ^ 21

/-- The `float` vector `(0.242535636, 0, 0.970142543)`, which is
`glm::normalize(glm::vec3(1, 0, 4))`. -/
def sample_float_normal : vec3 ℚ := ⟨16276291 / 2 ^ 26, 0, 16276291 / 2 ^ 24⟩

/-- One step whose normal is `sample_float_normal`. -/
def sample_float_step : Sequence ℚ :=
  { _filename := "sample", _perfect_length := 17, _bounding_box := ⟨1, 1, 1⟩, _empty := false
    _bps := [{ BasePair.new sample_storage with _normal := sample_float_normal }] }

end curveDNA

/-! ## Matrix algebra of the GLM operations -/

namespace curveDNA

section GlmTheorems

variable {R : Type} [Field R]

theorem mat4.mul_muls (a b : mat4 R) (s : R) : a.mul (b.muls s) = (a.mul b).muls s := by
  rcases a with ⟨⟨a00, a01, a02, a03⟩, ⟨a10, a11, a12, a13⟩, ⟨a20, a21, a22, a23⟩,
    ⟨a30, a31, a32, a33⟩⟩
  rcases b with ⟨⟨b00, b01, b02, b03⟩, ⟨b10, b11, b12, b13⟩, ⟨b20, b21, b22, b23⟩,
    ⟨b30, b31, b32, b33⟩⟩
  simp only [mat4.mul, mat4.muls, vec4.add, vec4.muls, mat4.mk.injEq, vec4.mk.injEq]
  refine ⟨⟨?_, ?_, ?_, ?_⟩, ⟨?_, ?_, ?_, ?_⟩, ⟨?_, ?_, ?_, ?_⟩, ⟨?_, ?_, ?_, ?_⟩⟩ <;> ring

theorem mat4.muls_mul (a b : mat4 R) (s : R) : (a.muls s).mul b = (a.mul b).muls s := by
  rcases a with ⟨⟨a00, a01, a02, a03⟩, ⟨a10, a11, a12, a13⟩, ⟨a20, a21, a22, a23⟩,
    ⟨a30, a31, a32, a33⟩⟩
  rcases b with ⟨⟨b00, b01, b02, b03⟩, ⟨b10, b11, b12, b13⟩, ⟨b20, b21, b22, b23⟩,
    ⟨b30, b31, b32, b33⟩⟩
  simp only [mat4.mul, mat4.muls, vec4.add, vec4.muls, mat4.mk.injEq, vec4.mk.injEq]
  refine ⟨⟨?_, ?_, ?_, ?_⟩, ⟨?_, ?_, ?_, ?_⟩, ⟨?_, ?_, ?_, ?_⟩, ⟨?_, ?_, ?_, ?_⟩⟩ <;> ring

/-- The matrix times its cofactor matrix is the determinant times the identity. -/
theorem mat4.mul_cofactors (m : mat4 R) :
    m.mul (glm_inverse_cofactors m) = mat4.identity.muls (glm_inverse_dot1 m) := by
  rcases m with ⟨⟨a00, a01, a02, a03⟩, ⟨a10, a11, a12, a13⟩, ⟨a20, a21, a22, a23⟩,
    ⟨a30, a31, a32, a33⟩⟩
  simp only [mat4.mul, mat4.muls, glm_inverse_cofactors, glm_inverse_dot1, mat4.identity,
    vec4.add, vec4.sub, vec4.mul, vec4.muls, mat4.mk.injEq, vec4.mk.injEq]
  refine ⟨⟨?_, ?_, ?_, ?_⟩, ⟨?_, ?_, ?_, ?_⟩, ⟨?_, ?_, ?_, ?_⟩, ⟨?_, ?_, ?_, ?_⟩⟩ <;> ring

theorem mat4.cofactors_mul (m : mat4 R) :
    (glm_inverse_cofactors m).mul m = mat4.identity.muls (glm_inverse_dot1 m) := by
  rcases m with ⟨⟨a00, a01, a02, a03⟩, ⟨a10, a11, a12, a13⟩, ⟨a20, a21, a22, a23⟩,
    ⟨a30, a31, a32, a33⟩⟩
  simp only [mat4.mul, mat4.muls, glm_inverse_cofactors, glm_inverse_dot1, mat4.identity,
    vec4.add, vec4.sub, vec4.mul, vec4.muls, mat4.mk.injEq, vec4.mk.injEq]
  refine ⟨⟨?_, ?_, ?_, ?_⟩, ⟨?_, ?_, ?_, ?_⟩, ⟨?_, ?_, ?_, ?_⟩, ⟨?_, ?_, ?_, ?_⟩⟩ <;> ring

theorem mat4.identity_muls_muls (d : R) (h : d ≠ 0) :
    ((mat4.identity : mat4 R).muls d).muls (1 / d) = mat4.identity := by
  simp [mat4.muls, mat4.identity, vec4.muls, h]

/-- `glm::inverse` is a right inverse wherever its `Dot1` is not zero. -/
theorem mat4.mul_glm_inverse (m : mat4 R) (h : glm_inverse_dot1 m ≠ 0) :
    m.mul (glm_inverse m) = mat4.identity := by
  rw [glm_inverse, mat4.mul_muls, mat4.mul_cofactors, mat4.identity_muls_muls _ h]

/-- `glm::inverse` is a left inverse wherever its `Dot1` is not zero. -/
theorem mat4.glm_inverse_mul (m : mat4 R) (h : glm_inverse_dot1 m ≠ 0) :
    (glm_inverse m).mul m = mat4.identity := by
  rw [glm_inverse, mat4.muls_mul, mat4.cofactors_mul, mat4.identity_muls_muls _ h]

theorem mat4.identity_mul (m : mat4 R) : mat4.identity.mul m = m := by
  rcases m with ⟨⟨a00, a01, a02, a03⟩, ⟨a10, a11, a12, a13⟩, ⟨a20, a21, a22, a23⟩,
    ⟨a30, a31, a32, a33⟩⟩
  simp [mat4.mul, mat4.identity, vec4.add, vec4.muls]

theorem mat4.mul_identity (m : mat4 R) : m.mul mat4.identity = m := by
  rcases m with ⟨⟨a00, a01, a02, a03⟩, ⟨a10, a11, a12, a13⟩, ⟨a20, a21, a22, a23⟩,
    ⟨a30, a31, a32, a33⟩⟩
  simp [mat4.mul, mat4.identity, vec4.add, vec4.muls]

theorem mat4.identity_mulVec (v : vec4 R) : (mat4.identity : mat4 R).mulVec v = v := by
  rcases v with ⟨x, y, z, w⟩
  simp [mat4.mulVec, mat4.identity, vec4.add, vec4.muls]

/-- `glm::translate` along z multiplies on the right by the translation matrix. -/
theorem glm_translate_z_eq (m : mat4 R) (d : R) :
    glm_translate m ⟨0, 0, d⟩ = m.mul (spec_translate_z d) := by
  rcases m with ⟨⟨a00, a01, a02, a03⟩, ⟨a10, a11, a12, a13⟩, ⟨a20, a21, a22, a23⟩,
    ⟨a30, a31, a32, a33⟩⟩
  simp [glm_translate, mat4.mul, spec_translate_z, vec4.add, vec4.muls]

/-- `glm::rotate` about `(0, 0, 1)` multiplies on the right by the rotation
matrix about z. -/
theorem glm_rotate_z_eq (G : GlmFuncs R) (hn : G.inversesqrt 1 = 1) (m : mat4 R) (a : R) :
    glm_rotate G m a ⟨0, 0, 1⟩ = m.mul (spec_rotate_z G a) := by
  rcases m with ⟨⟨a00, a01, a02, a03⟩, ⟨a10, a11, a12, a13⟩, ⟨a20, a21, a22, a23⟩,
    ⟨a30, a31, a32, a33⟩⟩
  simp [glm_rotate, glm_normalize, glm_dot, hn, mat4.mul, spec_rotate_z, vec4.add, vec4.muls,
    vec3.muls, vec3.smul]

/-- `glm::rotate` about `(1, 0, 0)` multiplies on the right by the rotation
matrix about x. -/
theorem glm_rotate_x_eq (G : GlmFuncs R) (hn : G.inversesqrt 1 = 1) (m : mat4 R) (a : R) :
    glm_rotate G m a ⟨1, 0, 0⟩ = m.mul (spec_rotate_x G a) := by
  rcases m with ⟨⟨a00, a01, a02, a03⟩, ⟨a10, a11, a12, a13⟩, ⟨a20, a21, a22, a23⟩,
    ⟨a30, a31, a32, a33⟩⟩
  simp [glm_rotate, glm_normalize, glm_dot, hn, mat4.mul, spec_rotate_x, vec4.add, vec4.muls,
    vec3.muls, vec3.smul]

theorem glm_inverse_dot1_identity : glm_inverse_dot1 (mat4.identity : mat4 R) = 1 := by
  simp [glm_inverse_dot1, glm_inverse_cofactors, mat4.identity, vec4.add, vec4.sub, vec4.mul]

theorem glm_inverse_dot1_translate (m : mat4 R) (d : R) :
    glm_inverse_dot1 (m.mul (spec_translate_z d)) = glm_inverse_dot1 m := by
  rcases m with ⟨⟨a00, a01, a02, a03⟩, ⟨a10, a11, a12, a13⟩, ⟨a20, a21, a22, a23⟩,
    ⟨a30, a31, a32, a33⟩⟩
  simp only [glm_inverse_dot1, glm_inverse_cofactors, mat4.mul, spec_translate_z, vec4.add,
    vec4.sub, vec4.mul, vec4.muls]
  ring

theorem glm_inverse_dot1_rotate_z (G : GlmFuncs R) (m : mat4 R) (a : R) :
    glm_inverse_dot1 (m.mul (spec_rotate_z G a)) =
      glm_inverse_dot1 m * (G.cos a * G.cos a + G.sin a * G.sin a) := by
  rcases m with ⟨⟨a00, a01, a02, a03⟩, ⟨a10, a11, a12, a13⟩, ⟨a20, a21, a22, a23⟩,
    ⟨a30, a31, a32, a33⟩⟩
  simp only [glm_inverse_dot1, glm_inverse_cofactors, mat4.mul, spec_rotate_z, vec4.add,
    vec4.sub, vec4.mul, vec4.muls]
  ring

theorem glm_inverse_dot1_rotate_x (G : GlmFuncs R) (m : mat4 R) (a : R) :
    glm_inverse_dot1 (m.mul (spec_rotate_x G a)) =
      glm_inverse_dot1 m * (G.cos a * G.cos a + G.sin a * G.sin a) := by
  rcases m with ⟨⟨a00, a01, a02, a03⟩, ⟨a10, a11, a12, a13⟩, ⟨a20, a21, a22, a23⟩,
    ⟨a30, a31, a32, a33⟩⟩
  simp only [glm_inverse_dot1, glm_inverse_cofactors, mat4.mul, spec_rotate_x, vec4.add,
    vec4.sub, vec4.mul, vec4.muls]
  ring

/-- The step matrix written by `init_trasf_matrix` on a fresh `BasePair`, as a
product. -/
theorem init_trasf_matrix_product (G : GlmFuncs R) (hn : G.inversesqrt 1 = 1) (p : Params R)
    (u : BasePair R) :
    ((BasePair.new u).init_trasf_matrix G p)._trasf_matrix =
      mat4.prod (spec_step_operations G p) := by
  simp only [BasePair.init_trasf_matrix, BasePair.new, glm_translate_z_eq,
    glm_rotate_z_eq G hn, glm_rotate_x_eq G hn, mat4.prod, spec_step_operations,
    List.foldl_cons, List.foldl_nil]

/-- The step matrix of a fresh `BasePair` has determinant one. -/
theorem init_trasf_matrix_dot1 (G : GlmFuncs R) (hG : G.Lawful) (p : Params R)
    (u : BasePair R) :
    glm_inverse_dot1 ((BasePair.new u).init_trasf_matrix G p)._trasf_matrix = 1 := by
  rw [init_trasf_matrix_product G hG.inversesqrt_one]
  simp only [mat4.prod, spec_step_operations, List.foldl_cons, List.foldl_nil,
    glm_inverse_dot1_translate, glm_inverse_dot1_rotate_z, glm_inverse_dot1_rotate_x,
    hG.cos_sq_add_sin_sq, mul_one, glm_inverse_dot1_identity]

/-- The cached inverse is `glm::inverse` of the step matrix. -/
theorem init_trasf_matrix_inv (G : GlmFuncs R) (p : Params R) (b : BasePair R) :
    (b.init_trasf_matrix G p)._inv_trasf_matrix =
      glm_inverse (b.init_trasf_matrix G p)._trasf_matrix := rfl

end GlmTheorems

end curveDNA

/-! ## The step transform (`BasePair::init_trasf_matrix`) -/

namespace curveDNA

theorem GlmFuncs.rational_lawful : GlmFuncs.rational.Lawful where
  inversesqrt_one := by simp [GlmFuncs.rational]
  cos_sq_add_sin_sq := by
    intro a
    have h0 : (0 : ℚ) < 1 + a * a := by nlinarith [mul_self_nonneg a]
    have h : 1 + a * a ≠ 0 := h0.ne'
    simp only [GlmFuncs.rational]
    field_simp
    ring

/-- C5: on a freshly constructed `BasePair`, `init_trasf_matrix` yields the
product, in the listed order, of the seven operations: translation by rise/2
along z, rotation by twist/2 about z, rotation by (direction - pi/2) about z,
rotation by -wedge about x, rotation by (pi/2 - direction) about z, rotation by
twist/2 about z, translation by rise/2 along z. -/
theorem step_transform_seven_operations {R : Type} [Field R] (G : GlmFuncs R)
    (hn : G.inversesqrt 1 = 1) (p : Params R) (u : BasePair R) :
    ((BasePair.new u).init_trasf_matrix G p)._trasf_matrix =
      ((((((mat4.identity.mul (spec_translate_z (p.rise_per_residue / 2))).mul
        (spec_rotate_z G (p.twist / 2))).mul
        (spec_rotate_z G (p.direction - G.half_pi))).mul
        (spec_rotate_x G (-p.wedge))).mul
        (spec_rotate_z G (G.half_pi - p.direction))).mul
        (spec_rotate_z G (p.twist / 2))).mul
        (spec_translate_z (p.rise_per_residue / 2)) ∧
    ((BasePair.new u).init_trasf_matrix G p)._trasf_matrix =
      mat4.prod (spec_step_operations G p) :=
  ⟨init_trasf_matrix_product G hn p u, init_trasf_matrix_product G hn p u⟩

theorem step_transform_seven_operations_witness :
    GlmFuncs.rational.inversesqrt 1 = 1 ∧
    ((BasePair.new sample_storage).init_trasf_matrix GlmFuncs.rational
        (sample_params "AC"))._trasf_matrix =
      mat4.prod (spec_step_operations GlmFuncs.rational (sample_params "AC")) :=
  ⟨GlmFuncs.rational_lawful.inversesqrt_one,
    (step_transform_seven_operations GlmFuncs.rational
      GlmFuncs.rational_lawful.inversesqrt_one (sample_params "AC") sample_storage).2⟩

/-- C6: for every `Params`, the step transform built by `init_trasf_matrix` is
invertible (its determinant is one) and the cached inverse is a two-sided
inverse: step * inverse = identity and inverse * step = identity. -/
theorem step_transform_inverse {R : Type} [Field R] (G : GlmFuncs R) (hG : G.Lawful)
    (p : Params R) (u : BasePair R) :
    glm_inverse_dot1 ((BasePair.new u).init_trasf_matrix G p)._trasf_matrix = 1 ∧
    ((BasePair.new u).init_trasf_matrix G p)._trasf_matrix.mul
      ((BasePair.new u).init_trasf_matrix G p)._inv_trasf_matrix = mat4.identity ∧
    ((BasePair.new u).init_trasf_matrix G p)._inv_trasf_matrix.mul
      ((BasePair.new u).init_trasf_matrix G p)._trasf_matrix = mat4.identity := by
  have hd := init_trasf_matrix_dot1 G hG p u
  have hne : glm_inverse_dot1 ((BasePair.new u).init_trasf_matrix G p)._trasf_matrix ≠ 0 := by
    rw [hd]; exact one_ne_zero
  refine ⟨hd, ?_, ?_⟩
  · rw [init_trasf_matrix_inv]; exact mat4.mul_glm_inverse _ hne
  · rw [init_trasf_matrix_inv]; exact mat4.glm_inverse_mul _ hne

theorem step_transform_inverse_witness :
    GlmFuncs.rational.Lawful ∧
    ((BasePair.new sample_storage).init_trasf_matrix GlmFuncs.rational
        (sample_params "AC"))._trasf_matrix.mul
      ((BasePair.new sample_storage).init_trasf_matrix GlmFuncs.rational
        (sample_params "AC"))._inv_trasf_matrix = mat4.identity :=
  ⟨GlmFuncs.rational_lawful,
    (step_transform_inverse GlmFuncs.rational GlmFuncs.rational_lawful (sample_params "AC")
      sample_storage).2.1⟩

end curveDNA

/-! ## The reading loop of `Sequence::init` -/

namespace curveDNA

section ReadTheorems

variable {R : Type} [LinearOrderedField R]

theorem Sequence.init_body_c (G : GlmFuncs R) (params : String → Params R) (u : BasePair R)
    (st : ReadState R) : (Sequence.init_body G params u st).c = st.c := by
  simp only [Sequence.init_body]
  split_ifs <;> rfl

theorem Sequence.init_read_eq_foldl (G : GlmFuncs R) (params : String → Params R)
    (u : BasePair R) (content : List Char) (st : ReadState R) :
    Sequence.init_read G params u st content =
      Sequence.init_body G params u (content.foldl (Sequence.init_process G params u) st) := by
  induction content generalizing st with
  | nil => rfl
  | cons ch rest ih => simp only [Sequence.init_read, List.foldl_cons, ih]; rfl

theorem Sequence.foldl_init_process_c (G : GlmFuncs R) (params : String → Params R)
    (u : BasePair R) (content : List Char) (st : ReadState R) :
    (content.foldl (Sequence.init_process G params u) st).c = content.getLast?.getD st.c := by
  induction content generalizing st with
  | nil => rfl
  | cons ch rest ih =>
    rw [List.foldl_cons, ih]
    simp only [Sequence.init_process, Sequence.init_body_c]
    cases rest with
    | nil => rfl
    | cons a t => simp [List.getLast?_eq_getLast]

/-- The reading loop works on the characters of the file followed by one more
character: the content of the storage of `c` when `get` fails, which is the
last character of the file (or the initial content for an empty file). -/
theorem Sequence.init_read_eq_foldl_stale (G : GlmFuncs R) (params : String → Params R)
    (u : BasePair R) (content : List Char) (st : ReadState R) :
    Sequence.init_read G params u st content =
      (content ++ [content.getLast?.getD st.c]).foldl (Sequence.init_process G params u) st := by
  rw [Sequence.init_read_eq_foldl, List.foldl_append, List.foldl_cons, List.foldl_nil,
    ← Sequence.foldl_init_process_c G params u content st]
  rfl

theorem valid_bases_cons_valid (ch : Char) (l : List Char) (h : _is_valid (toupper ch) = true) :
    valid_bases (ch :: l) = toupper ch :: valid_bases l := by
  simp [valid_bases, List.filter_cons, h]

theorem valid_bases_cons_invalid (ch : Char) (l : List Char)
    (h : ¬ _is_valid (toupper ch) = true) : valid_bases (ch :: l) = valid_bases l := by
  simp [valid_bases, List.filter_cons, h]

theorem last_c_code_ne (p : Char) : last_c_code (some p) ≠ -1 := by
  simp only [last_c_code]; omega

/-- The state of the reading loop after a run of characters, from a state whose
`last_c` stands for `prev`. -/
theorem Sequence.foldl_init_process (G : GlmFuncs R) (params : String → Params R)
    (u : BasePair R) (l : List Char) (st : ReadState R) (prev : Option Char)
    (h : st.last_c = last_c_code prev) :
    (l.foldl (Sequence.init_process G params u) st).lookups =
        st.lookups ++ adjacent_pairs (prev.toList ++ valid_bases l) ∧
    (l.foldl (Sequence.init_process G params u) st)._bps =
        st._bps ++ (adjacent_pairs (prev.toList ++ valid_bases l)).map
          (fun key => (BasePair.new u).init_trasf_matrix G (params key)) ∧
    (l.foldl (Sequence.init_process G params u) st)._perfect_length =
        (adjacent_pairs (prev.toList ++ valid_bases l)).foldl
          (fun acc key => acc + (params key).rise_per_residue) st._perfect_length := by
  induction l generalizing st prev with
  | nil =>
    cases prev <;> simp [valid_bases, adjacent_pairs]
  | cons ch rest ih =>
    rw [List.foldl_cons]
    by_cases hv : _is_valid (toupper ch) = true
    · rw [valid_bases_cons_valid ch rest hv]
      cases prev with
      | none =>
        have hl : st.last_c = -1 := h
        have hst : (Sequence.init_process G params u st ch).last_c =
            last_c_code (some (toupper ch)) := by
          simp [Sequence.init_process, Sequence.init_body, hv, hl, last_c_code]
        have := ih _ (some (toupper ch)) hst
        simpa [Sequence.init_process, Sequence.init_body, hv, hl] using this
      | some p =>
        have hl : st.last_c ≠ -1 := by rw [h]; exact last_c_code_ne p
        have hst : (Sequence.init_process G params u st ch).last_c =
            last_c_code (some (toupper ch)) := by
          simp [Sequence.init_process, Sequence.init_body, hv, hl, last_c_code]
        have hp : Char.ofNat st.last_c.toNat = p := by
          rw [h]; simp [last_c_code]
        have := ih _ (some (toupper ch)) hst
        simpa [Sequence.init_process, Sequence.init_body, hv, hl, hp, adjacent_pairs] using this
    · rw [valid_bases_cons_invalid ch rest hv]
      have hv' : _is_valid (toupper ch) = false := by simpa using hv
      have hst : (Sequence.init_process G params u st ch).last_c = last_c_code prev := by
        simp only [Sequence.init_process, Sequence.init_body, hv', Bool.false_eq_true, if_false]
        split_ifs <;> exact h
      have := ih _ prev hst
      have e1 : (Sequence.init_process G params u st ch).lookups = st.lookups := by
        simp only [Sequence.init_process, Sequence.init_body, hv', Bool.false_eq_true, if_false]
        split_ifs <;> rfl
      have e2 : (Sequence.init_process G params u st ch)._bps = st._bps := by
        simp only [Sequence.init_process, Sequence.init_body, hv', Bool.false_eq_true, if_false]
        split_ifs <;> rfl
      have e3 : (Sequence.init_process G params u st ch)._perfect_length =
          st._perfect_length := by
        simp only [Sequence.init_process, Sequence.init_body, hv', Bool.false_eq_true, if_false]
        split_ifs <;> rfl
      rw [e1, e2, e3] at this
      exact this

end ReadTheorems

end curveDNA

/-! ## The placement loop of `Sequence::init` -/

namespace curveDNA

section PlaceTheorems

variable {R : Type}

theorem place_from_length [Field R] (a : mat4 R) (l : List (BasePair R)) :
    (place_from a l).length = l.length := by
  induction l generalizing a with
  | nil => rfl
  | cons bp rest ih => simp [place_from, ih]

theorem place_from_map_inv [Field R] (a : mat4 R) (l : List (BasePair R)) :
    (place_from a l).map BasePair.inv_trasf_matrix = l.map BasePair.inv_trasf_matrix := by
  induction l generalizing a with
  | nil => rfl
  | cons bp rest ih => simp [place_from, ih, BasePair.set_sites, BasePair.inv_trasf_matrix]

/-- Step `i` is placed with the start transform times the inverse step
transforms of the steps before it, in order. -/
theorem place_from_getElem? [Field R] (a : mat4 R) (l : List (BasePair R)) (i : Nat) :
    (place_from a l)[i]? = (l[i]?).map fun bp =>
      bp.set_sites (((l.take i).map BasePair.inv_trasf_matrix).foldl mat4.mul a) := by
  induction l generalizing a i with
  | nil => simp [place_from]
  | cons bp rest ih =>
    cases i with
    | zero => simp [place_from]
    | succ i => simp [place_from, ih]

theorem accumulated_transform_place_from [Field R] (a : mat4 R) (l : List (BasePair R))
    (i : Nat) :
    accumulated_transform (place_from a l) i =
      ((l.take i).map BasePair.inv_trasf_matrix).foldl mat4.mul mat4.identity := by
  simp only [accumulated_transform, mat4.prod, List.map_take, place_from_map_inv]

variable [LinearOrderedField R]

/-- The state of the placement loop after a run of steps. -/
theorem Sequence.foldl_init_place_body (l : List (BasePair R)) (st : PlaceState R) :
    (l.foldl Sequence.init_place_body st).placed =
        st.placed ++ place_from st.inv_trasf_matrix l ∧
    (l.foldl Sequence.init_place_body st).min_coords =
      ⟨((place_from st.inv_trasf_matrix l).map fun b => b.centre.x).foldl glm_min
          st.min_coords.x,
        ((place_from st.inv_trasf_matrix l).map fun b => b.centre.y).foldl glm_min
          st.min_coords.y,
        ((place_from st.inv_trasf_matrix l).map fun b => b.centre.z).foldl glm_min
          st.min_coords.z⟩ ∧
    (l.foldl Sequence.init_place_body st).max_coords =
      ⟨((place_from st.inv_trasf_matrix l).map fun b => b.centre.x).foldl glm_max
          st.max_coords.x,
        ((place_from st.inv_trasf_matrix l).map fun b => b.centre.y).foldl glm_max
          st.max_coords.y,
        ((place_from st.inv_trasf_matrix l).map fun b => b.centre.z).foldl glm_max
          st.max_coords.z⟩ := by
  induction l generalizing st with
  | nil => simp [place_from]
  | cons bp rest ih =>
    rw [List.foldl_cons]
    obtain ⟨h1, h2, h3⟩ := ih (Sequence.init_place_body st bp)
    rw [h1, h2, h3]
    simp [Sequence.init_place_body, place_from, BasePair.set_sites, BasePair.inv_trasf_matrix]

theorem foldl_glm_min_le (xs : List R) (s : R) :
    xs.foldl glm_min s ≤ s ∧ ∀ v ∈ xs, xs.foldl glm_min s ≤ v := by
  induction xs generalizing s with
  | nil => simp
  | cons x rest ih =>
    rw [List.foldl_cons]
    obtain ⟨h1, h2⟩ := ih (glm_min s x)
    have hs : glm_min s x ≤ s := by unfold glm_min; split_ifs with h <;> [exact h.le; exact le_rfl]
    have hx : glm_min s x ≤ x := by
      unfold glm_min; split_ifs with h <;> [exact le_rfl; exact not_lt.mp h]
    refine ⟨h1.trans hs, ?_⟩
    intro v hv
    rcases List.mem_cons.mp hv with rfl | hv
    · exact h1.trans hx
    · exact h2 v hv

theorem foldl_glm_min_mem (xs : List R) (s : R) :
    xs.foldl glm_min s = s ∨ xs.foldl glm_min s ∈ xs := by
  induction xs generalizing s with
  | nil => simp
  | cons x rest ih =>
    rw [List.foldl_cons]
    rcases ih (glm_min s x) with h | h
    · rw [h]; unfold glm_min; split_ifs <;> simp
    · exact Or.inr (List.mem_cons_of_mem _ h)

theorem le_foldl_glm_max (xs : List R) (s : R) :
    s ≤ xs.foldl glm_max s ∧ ∀ v ∈ xs, v ≤ xs.foldl glm_max s := by
  induction xs generalizing s with
  | nil => simp
  | cons x rest ih =>
    rw [List.foldl_cons]
    obtain ⟨h1, h2⟩ := ih (glm_max s x)
    have hs : s ≤ glm_max s x := by unfold glm_max; split_ifs with h <;> [exact h.le; exact le_rfl]
    have hx : x ≤ glm_max s x := by
      unfold glm_max; split_ifs with h <;> [exact le_rfl; exact not_lt.mp h]
    refine ⟨hs.trans h1, ?_⟩
    intro v hv
    rcases List.mem_cons.mp hv with rfl | hv
    · exact hx.trans h1
    · exact h2 v hv

theorem foldl_glm_max_mem (xs : List R) (s : R) :
    xs.foldl glm_max s = s ∨ xs.foldl glm_max s ∈ xs := by
  induction xs generalizing s with
  | nil => simp
  | cons x rest ih =>
    rw [List.foldl_cons]
    rcases ih (glm_max s x) with h | h
    · rw [h]; unfold glm_max; split_ifs <;> simp
    · exact Or.inr (List.mem_cons_of_mem _ h)

/-- Running minimum and maximum from the sentinels `1e10` and `-1e10` give the
extent of a list that holds zero. -/
theorem is_extent_of_sentinels (xs : List R) (h0 : (0 : R) ∈ xs) :
    is_extent xs (xs.foldl glm_max (-1e10) - xs.foldl glm_min 1e10) ∧
      0 ≤ xs.foldl glm_max (-1e10) - xs.foldl glm_min 1e10 := by
  have hmin := foldl_glm_min_le xs (1e10 : R)
  have hmax := le_foldl_glm_max xs (-1e10 : R)
  have hlo : xs.foldl glm_min (1e10 : R) ∈ xs := by
    rcases foldl_glm_min_mem xs (1e10 : R) with h | h
    · have := hmin.2 0 h0
      rw [h] at this
      norm_num at this
    · exact h
  have hhi : xs.foldl glm_max (-1e10 : R) ∈ xs := by
    rcases foldl_glm_max_mem xs (-1e10 : R) with h | h
    · have := hmax.2 0 h0
      rw [h] at this
      norm_num at this
    · exact h
  refine ⟨⟨_, hlo, _, hhi, fun v hv => ⟨hmin.2 v hv, hmax.2 v hv⟩, rfl⟩, ?_⟩
  have := (hmin.2 0 h0).trans (hmax.2 0 h0)
  linarith

end PlaceTheorems

end curveDNA

/-! ## `Sequence::init` -/

namespace curveDNA

section InitTheorems

variable {R : Type} [LinearOrderedField R]

theorem Sequence.init_read_fresh (G : GlmFuncs R) (params : String → Params R)
    (u : BasePair R) (content : List Char) (c0 : Char) :
    (Sequence.init_read G params u
        { c := c0, last_c := -1, _bps := [], _perfect_length := 0, lookups := [],
          warnings := [] } content).lookups = init_keys content c0 ∧
    (Sequence.init_read G params u
        { c := c0, last_c := -1, _bps := [], _perfect_length := 0, lookups := [],
          warnings := [] } content)._bps = init_built G params u (init_keys content c0) ∧
    (Sequence.init_read G params u
        { c := c0, last_c := -1, _bps := [], _perfect_length := 0, lookups := [],
          warnings := [] } content)._perfect_length =
      (init_keys content c0).foldl (fun acc key => acc + (params key).rise_per_residue) 0 := by
  rw [Sequence.init_read_eq_foldl_stale]
  have h := Sequence.foldl_init_process G params u (content ++ [content.getLast?.getD c0])
    { c := c0, last_c := -1, _bps := [], _perfect_length := 0, lookups := [],
      warnings := [] } none rfl
  simpa [init_keys, init_built] using h

/-- The keys looked up by `Sequence::init` on a fresh `Sequence`. -/
theorem Sequence.init_lookups_eq (G : GlmFuncs R) (s0 : Sequence R) (content : List Char)
    (params : String → Params R) (u : BasePair R) (c0 : Char) :
    Sequence.init_lookups G (Sequence.new s0) content params u c0 = init_keys content c0 :=
  (Sequence.init_read_fresh G params u content c0).1

theorem init_built_length (G : GlmFuncs R) (params : String → Params R) (u : BasePair R)
    (keys : List String) : (init_built G params u keys).length = keys.length := by
  simp [init_built]

/-- `Sequence::init` on a fresh `Sequence` and a readable file, in closed form. -/
theorem Sequence.init_some (G : GlmFuncs R) (s0 : Sequence R) (filename : String)
    (content : List Char) (params : String → Params R) (u : BasePair R) (c0 : Char) :
    Sequence.init G (Sequence.new s0) filename (some content) params u c0 =
      if (init_keys content c0).length = 0 then
        Except.error ("File '" ++ filename ++ "' does not contain a meaningful sequence")
      else
        Except.ok
          { _filename := filename
            _perfect_length :=
              (init_keys content c0).foldl
                (fun acc key => acc + (params key).rise_per_residue) 0
            _bps := place_from mat4.identity (init_built G params u (init_keys content c0))
            _bounding_box :=
              vec3.sub
                ⟨((place_from mat4.identity
                    (init_built G params u (init_keys content c0))).map
                    fun b => b.centre.x).foldl glm_max (-1e10),
                  ((place_from mat4.identity
                    (init_built G params u (init_keys content c0))).map
                    fun b => b.centre.y).foldl glm_max (-1e10),
                  ((place_from mat4.identity
                    (init_built G params u (init_keys content c0))).map
                    fun b => b.centre.z).foldl glm_max (-1e10)⟩
                ⟨((place_from mat4.identity
                    (init_built G params u (init_keys content c0))).map
                    fun b => b.centre.x).foldl glm_min 1e10,
                  ((place_from mat4.identity
                    (init_built G params u (init_keys content c0))).map
                    fun b => b.centre.y).foldl glm_min 1e10,
                  ((place_from mat4.identity
                    (init_built G params u (init_keys content c0))).map
                    fun b => b.centre.z).foldl glm_min 1e10⟩
            _empty := false } := by
  obtain ⟨-, h2, h3⟩ := Sequence.init_read_fresh G params u content c0
  obtain ⟨p1, p2, p3⟩ := Sequence.foldl_init_place_body
    (init_built G params u (init_keys content c0)) (Sequence.init_place_start (R := R))
  simp only [Sequence.init, Sequence.new]
  rw [h2, h3, p1, p2, p3]
  simp only [Sequence.init_place_start, List.nil_append, init_built_length]

theorem adjacent_pairs_length (b : List Char) : (adjacent_pairs b).length = b.length - 1 := by
  induction b with
  | nil => rfl
  | cons x rest ih =>
    cases rest with
    | nil => rfl
    | cons y t =>
      simp only [adjacent_pairs, List.length_cons, ih]
      omega

theorem valid_bases_append (a b : List Char) :
    valid_bases (a ++ b) = valid_bases a ++ valid_bases b := by
  simp [valid_bases]

/-- When the last character of the file is not a valid base, the keys are the
adjacent pairs of the valid bases of the file. -/
theorem init_keys_of_last_not_valid (content : List Char) (c0 : Char)
    (h : _is_valid (toupper (content.getLast?.getD c0)) = false) :
    init_keys content c0 = adjacent_pairs (valid_bases content) := by
  simp [init_keys, valid_bases_append, valid_bases, h]

/-- When the last character of the file is a valid base, it is paired with
itself: the keys are the adjacent pairs of the valid bases followed by that
base once more. -/
theorem init_keys_of_last_valid (content : List Char) (c0 : Char)
    (h : _is_valid (toupper (content.getLast?.getD c0)) = true) :
    init_keys content c0 =
      adjacent_pairs (valid_bases content ++ [toupper (content.getLast?.getD c0)]) := by
  simp [init_keys, valid_bases_append, valid_bases, h]

theorem init_built_base_points (G : GlmFuncs R) (params : String → Params R) (u : BasePair R)
    (keys : List String) (bp : BasePair R) (h : bp ∈ init_built G params u keys) :
    bp._base_centre = ⟨0, 0, 0, 1⟩ ∧
    bp._base_phosphate_53 = ⟨-0.0975688, 0.9258795, 0.18, 1⟩ ∧
    bp._base_phosphate_35 = ⟨-0.0975688, -0.9258795, 0.18, 1⟩ := by
  simp only [init_built, List.mem_map] at h
  obtain ⟨key, -, rfl⟩ := h
  exact ⟨rfl, rfl, rfl⟩

end InitTheorems

end curveDNA

namespace curveDNA

section InitClaims

variable {R : Type} [LinearOrderedField R]

/-- `Sequence::init` succeeds when the reading loop forms at least one key. -/
theorem Sequence.init_ok_of_keys (G : GlmFuncs R) (s0 : Sequence R) (filename : String)
    (content : List Char) (params : String → Params R) (u : BasePair R) (c0 : Char)
    (h : (init_keys content c0).length ≠ 0) :
    ∃ seq, Sequence.init G (Sequence.new s0) filename (some content) params u c0 =
      Except.ok seq := by
  rw [Sequence.init_some, if_neg h]
  exact ⟨_, rfl⟩

/-- What a successful `Sequence::init` on a fresh `Sequence` returns. -/
theorem Sequence.init_ok_inv (G : GlmFuncs R) (s0 : Sequence R) (filename : String)
    (file : Option (List Char)) (params : String → Params R) (u : BasePair R) (c0 : Char)
    (seq : Sequence R)
    (h : Sequence.init G (Sequence.new s0) filename file params u c0 = Except.ok seq) :
    ∃ content, file = some content ∧ (init_keys content c0).length ≠ 0 ∧
      seq._bps = place_from mat4.identity (init_built G params u (init_keys content c0)) ∧
      seq._perfect_length =
        (init_keys content c0).foldl (fun acc key => acc + (params key).rise_per_residue) 0 ∧
      seq._bounding_box.x =
        (seq._bps.map fun b => b.centre.x).foldl glm_max (-1e10) -
          (seq._bps.map fun b => b.centre.x).foldl glm_min 1e10 ∧
      seq._bounding_box.y =
        (seq._bps.map fun b => b.centre.y).foldl glm_max (-1e10) -
          (seq._bps.map fun b => b.centre.y).foldl glm_min 1e10 ∧
      seq._bounding_box.z =
        (seq._bps.map fun b => b.centre.z).foldl glm_max (-1e10) -
          (seq._bps.map fun b => b.centre.z).foldl glm_min 1e10 := by
  cases file with
  | none => simp [Sequence.init] at h
  | some content =>
    refine ⟨content, rfl, ?_⟩
    rw [Sequence.init_some] at h
    split_ifs at h with hk
    injection h with h
    subst h
    exact ⟨hk, rfl, rfl, rfl, rfl, rfl⟩

theorem sample_init_ok :
    ∃ seq, Sequence.init GlmFuncs.rational (Sequence.new sample_sequence_storage) "sample"
      (some sample_content) sample_params sample_storage 'x' = Except.ok seq :=
  Sequence.init_ok_of_keys _ _ _ _ _ _ _ (by decide)

end InitClaims

end curveDNA

/-! ## Claims on `Sequence::init` -/

namespace curveDNA

section InitClaimTheorems

variable {R : Type} [LinearOrderedField R]

/-- C1: evaluation of `Sequence::init` on the file `AC` without a final
newline. The file holds L = 2 valid bases, and `init` succeeds with two steps
instead of L - 1 = 1: after the last character the stream is still good, the
failed `get` leaves `C` in `c`, and the loop body pairs it with itself. -/
theorem init_builds_two_steps_on_AC (G : GlmFuncs R) (s0 : Sequence R) (filename : String)
    (params : String → Params R) (u : BasePair R) (c0 : Char) :
    (valid_bases ['A', 'C']).length = 2 ∧
    ∃ seq, Sequence.init G (Sequence.new s0) filename (some ['A', 'C']) params u c0 =
        Except.ok seq ∧ seq._bps.length = 2 := by
  refine ⟨by decide, ?_⟩
  have hk : init_keys ['A', 'C'] c0 = ["AC", "CC"] := rfl
  rw [Sequence.init_some, if_neg (by rw [hk]; decide)]
  refine ⟨_, rfl, ?_⟩
  simp [place_from_length, init_built_length, hk]

/-- C2: evaluation of the lookups of `Sequence::init` on the file `AC` without
a final newline: the keys looked up are `AC` and `CC`, while the valid bases
`A, C` have the single adjacent pair `AC`. -/
theorem init_lookups_on_AC (G : GlmFuncs R) (s0 : Sequence R)
    (params : String → Params R) (u : BasePair R) (c0 : Char) :
    Sequence.init_lookups G (Sequence.new s0) ['A', 'C'] params u c0 = ["AC", "CC"] ∧
    adjacent_pairs (valid_bases ['A', 'C']) = ["AC"] := by
  rw [Sequence.init_lookups_eq]
  exact ⟨rfl, by decide⟩

/-- C3: evaluation of `Sequence::init` on the file `A` without a final newline:
the file holds one valid base, and `init` does not fail: it returns a sequence
of one step, looked up under the key `AA`. -/
theorem init_succeeds_on_single_base (G : GlmFuncs R) (s0 : Sequence R) (filename : String)
    (params : String → Params R) (u : BasePair R) (c0 : Char) :
    (valid_bases ['A']).length = 1 ∧
    Sequence.init_lookups G (Sequence.new s0) ['A'] params u c0 = ["AA"] ∧
    ∃ seq, Sequence.init G (Sequence.new s0) filename (some ['A']) params u c0 =
        Except.ok seq ∧ seq._bps.length = 1 := by
  have hk : init_keys ['A'] c0 = ["AA"] := rfl
  refine ⟨by decide, by rw [Sequence.init_lookups_eq, hk], ?_⟩
  rw [Sequence.init_some, if_neg (by rw [hk]; decide)]
  refine ⟨_, rfl, ?_⟩
  simp [place_from_length, init_built_length, hk]

theorem place_from_map_trasf (a : mat4 R) (l : List (BasePair R)) :
    (place_from a l).map (fun b => b._trasf_matrix) = l.map fun b => b._trasf_matrix := by
  induction l generalizing a with
  | nil => rfl
  | cons bp rest ih => simp [place_from, ih, BasePair.set_sites]

/-- C4: after a successful `Sequence::init`, `perfect_length` is the sum of
`rise_per_residue` over the steps built, one term per step in step order (step
`i` is the one built from the `i`-th key looked up), and it is the same for any
other parameter table with the same rises, whatever its twists, wedges and
directions. -/
theorem perfect_length_is_sum_of_rises (G : GlmFuncs R) (s0 : Sequence R) (filename : String)
    (content : List Char) (params : String → Params R) (u : BasePair R) (c0 : Char)
    (seq : Sequence R)
    (h : Sequence.init G (Sequence.new s0) filename (some content) params u c0 =
      Except.ok seq) :
    seq._bps.length = (Sequence.init_lookups G (Sequence.new s0) content params u c0).length ∧
    seq._bps.map (fun b => b._trasf_matrix) =
      (Sequence.init_lookups G (Sequence.new s0) content params u c0).map
        (fun key => ((BasePair.new u).init_trasf_matrix G (params key))._trasf_matrix) ∧
    seq._perfect_length =
      ((Sequence.init_lookups G (Sequence.new s0) content params u c0).map
        fun key => (params key).rise_per_residue).foldl (fun acc r => acc + r) 0 ∧
    seq._perfect_length =
      ((Sequence.init_lookups G (Sequence.new s0) content params u c0).map
        fun key => (params key).rise_per_residue).sum ∧
    ∀ (G2 : GlmFuncs R) (params2 : String → Params R) (u2 : BasePair R) (seq2 : Sequence R),
      (∀ key, (params2 key).rise_per_residue = (params key).rise_per_residue) →
      Sequence.init G2 (Sequence.new s0) filename (some content) params2 u2 c0 =
        Except.ok seq2 →
      seq2._perfect_length = seq._perfect_length := by
  obtain ⟨content1, hc, -, hb, hp, -⟩ := Sequence.init_ok_inv G s0 filename _ params u c0 seq h
  cases hc
  rw [Sequence.init_lookups_eq]
  have hfold : seq._perfect_length =
      ((init_keys content c0).map fun key => (params key).rise_per_residue).foldl
        (fun acc r => acc + r) 0 := by
    rw [hp, List.foldl_map]
  refine ⟨?_, ?_, hfold, ?_, ?_⟩
  · rw [hb, place_from_length, init_built_length]
  · rw [hb, place_from_map_trasf, init_built, List.map_map]
    rfl
  · rw [hfold, List.sum_eq_foldl]
  · intro G2 params2 u2 seq2 hr h2
    obtain ⟨content2, hc2, -, -, hp2, -⟩ :=
      Sequence.init_ok_inv G2 s0 filename _ params2 u2 c0 seq2 h2
    cases hc2
    rw [hp2, hp]
    simp only [hr]

theorem perfect_length_is_sum_of_rises_witness :
    ∃ seq, Sequence.init GlmFuncs.rational (Sequence.new sample_sequence_storage) "sample"
        (some sample_content) sample_params sample_storage 'x' = Except.ok seq ∧
      seq._bps.length = 3 ∧ seq._perfect_length = 10.2 := by
  obtain ⟨seq, h⟩ := sample_init_ok
  have hl : Sequence.init_lookups GlmFuncs.rational (Sequence.new sample_sequence_storage)
      sample_content sample_params sample_storage 'x' = ["AC", "CG", "GT"] := by
    rw [Sequence.init_lookups_eq]; decide
  have hc := perfect_length_is_sum_of_rises GlmFuncs.rational sample_sequence_storage "sample"
    sample_content sample_params sample_storage 'x' seq h
  rw [hl] at hc
  refine ⟨seq, h, hc.1, ?_⟩
  rw [hc.2.2.2.1]
  norm_num [sample_params]

end InitClaimTheorems

end curveDNA

/-! ## Claims on the placement of the steps -/

namespace curveDNA

section PlacementClaims

variable {R : Type} [LinearOrderedField R]

theorem accumulated_transform_succ (bps : List (BasePair R)) (i : Nat) (bp : BasePair R)
    (h : bps[i]? = some bp) :
    accumulated_transform bps (i + 1) =
      (accumulated_transform bps i).mul bp.inv_trasf_matrix := by
  simp [accumulated_transform, mat4.prod, List.take_succ, h, List.foldl_append]

/-- Every step placed by a successful `Sequence::init` is a freshly built step
whose sites are set with the accumulated transform of its index. -/
theorem Sequence.init_ok_step (G : GlmFuncs R) (s0 : Sequence R) (filename : String)
    (file : Option (List Char)) (params : String → Params R) (u : BasePair R) (c0 : Char)
    (seq : Sequence R)
    (h : Sequence.init G (Sequence.new s0) filename file params u c0 = Except.ok seq)
    (i : Nat) (bp : BasePair R) (hi : seq._bps[i]? = some bp) :
    ∃ key, bp = ((BasePair.new u).init_trasf_matrix G (params key)).set_sites
      (accumulated_transform seq._bps i) := by
  obtain ⟨content, -, -, hb, -⟩ := Sequence.init_ok_inv G s0 filename file params u c0 seq h
  have ha := accumulated_transform_place_from (R := R) mat4.identity
    (init_built G params u (init_keys content c0)) i
  rw [← hb] at ha
  rw [hb, place_from_getElem?] at hi
  rw [← ha] at hi
  rw [Option.map_eq_some'] at hi
  obtain ⟨b, hb1, hb2⟩ := hi
  have hmem : b ∈ init_built G params u (init_keys content c0) := List.getElem?_mem hb1
  simp only [init_built, List.mem_map] at hmem
  obtain ⟨key, -, rfl⟩ := hmem
  exact ⟨key, hb2.symm⟩

theorem Sequence.init_ok_length (G : GlmFuncs R) (s0 : Sequence R) (filename : String)
    (file : Option (List Char)) (params : String → Params R) (u : BasePair R) (c0 : Char)
    (seq : Sequence R)
    (h : Sequence.init G (Sequence.new s0) filename file params u c0 = Except.ok seq) :
    1 ≤ seq._bps.length := by
  obtain ⟨content, -, hk, hb, -⟩ := Sequence.init_ok_inv G s0 filename file params u c0 seq h
  rw [hb, place_from_length, init_built_length]
  omega

/-- The first step placed by a successful `Sequence::init` has its centre at
the origin. -/
theorem Sequence.init_ok_first_centre (G : GlmFuncs R) (s0 : Sequence R) (filename : String)
    (file : Option (List Char)) (params : String → Params R) (u : BasePair R) (c0 : Char)
    (seq : Sequence R)
    (h : Sequence.init G (Sequence.new s0) filename file params u c0 = Except.ok seq) :
    ∃ bp0, seq._bps[0]? = some bp0 ∧ bp0.centre = ⟨0, 0, 0⟩ := by
  have hl := Sequence.init_ok_length G s0 filename file params u c0 seq h
  have h0 : 0 < seq._bps.length := hl
  refine ⟨seq._bps[0], List.getElem?_eq_getElem h0, ?_⟩
  obtain ⟨key, hkey⟩ := Sequence.init_ok_step G s0 filename file params u c0 seq h 0
    seq._bps[0] (List.getElem?_eq_getElem h0)
  rw [hkey]
  simp [accumulated_transform, mat4.prod, BasePair.set_sites, BasePair.centre,
    BasePair.init_trasf_matrix, BasePair.new, mat4.identity_mulVec, vec4.xyz]

/-- C7: after `Sequence::init` there is at least one step, and for every index
`i` the global centre and the two global phosphate points of step `i` are the
accumulated transform `A_i` applied to the body-fixed points, where `A_0` is
the identity and `A_(i+1) = A_i * inv_i`, so that `A_i` is the in-order product
of the inverse step transforms of the steps before `i`; step 0 has its centre
at the origin. -/
theorem placement_by_accumulated_inverse (G : GlmFuncs R) (s0 : Sequence R)
    (filename : String) (file : Option (List Char)) (params : String → Params R)
    (u : BasePair R) (c0 : Char) (seq : Sequence R)
    (h : Sequence.init G (Sequence.new s0) filename file params u c0 = Except.ok seq) :
    1 ≤ seq._bps.length ∧
    accumulated_transform seq._bps 0 = mat4.identity ∧
    (∀ i bp, seq._bps[i]? = some bp →
      accumulated_transform seq._bps i =
        mat4.prod ((seq._bps.take i).map BasePair.inv_trasf_matrix) ∧
      accumulated_transform seq._bps (i + 1) =
        (accumulated_transform seq._bps i).mul bp.inv_trasf_matrix ∧
      bp._centre = (accumulated_transform seq._bps i).mulVec ⟨0, 0, 0, 1⟩ ∧
      bp._phosphate_53 =
        (accumulated_transform seq._bps i).mulVec ⟨-0.0975688, 0.9258795, 0.18, 1⟩ ∧
      bp._phosphate_35 =
        (accumulated_transform seq._bps i).mulVec ⟨-0.0975688, -0.9258795, 0.18, 1⟩ ∧
      bp._centre = (accumulated_transform seq._bps i).mulVec bp._base_centre ∧
      bp._phosphate_53 = (accumulated_transform seq._bps i).mulVec bp._base_phosphate_53 ∧
      bp._phosphate_35 = (accumulated_transform seq._bps i).mulVec bp._base_phosphate_35) ∧
    ∃ bp0, seq._bps[0]? = some bp0 ∧ bp0.centre = ⟨0, 0, 0⟩ := by
  refine ⟨Sequence.init_ok_length G s0 filename file params u c0 seq h, rfl, ?_,
    Sequence.init_ok_first_centre G s0 filename file params u c0 seq h⟩
  intro i bp hi
  obtain ⟨key, hkey⟩ := Sequence.init_ok_step G s0 filename file params u c0 seq h i bp hi
  refine ⟨rfl, accumulated_transform_succ seq._bps i bp hi, ?_⟩
  rw [hkey]
  exact ⟨rfl, rfl, rfl, rfl, rfl, rfl⟩

theorem placement_by_accumulated_inverse_witness :
    ∃ seq, Sequence.init GlmFuncs.rational (Sequence.new sample_sequence_storage) "sample"
        (some sample_content) sample_params sample_storage 'x' = Except.ok seq ∧
      1 ≤ seq._bps.length ∧ ∃ bp0, seq._bps[0]? = some bp0 ∧ bp0.centre = ⟨0, 0, 0⟩ := by
  obtain ⟨seq, h⟩ := sample_init_ok
  have hc := placement_by_accumulated_inverse GlmFuncs.rational sample_sequence_storage
    "sample" (some sample_content) sample_params sample_storage 'x' seq h
  exact ⟨seq, h, hc.1, hc.2.2.2⟩

/-- C8: after `Sequence::init`, each component of `bounding_box` is the
greatest minus the least value of that component over the global centres of all
steps, whatever the size of the coordinates (the sentinels `1e10` and `-1e10`
do not show, because the first centre is the origin), and each component is not
negative. -/
theorem bounding_box_is_extent (G : GlmFuncs R) (s0 : Sequence R)
    (filename : String) (file : Option (List Char)) (params : String → Params R)
    (u : BasePair R) (c0 : Char) (seq : Sequence R)
    (h : Sequence.init G (Sequence.new s0) filename file params u c0 = Except.ok seq) :
    is_extent (seq._bps.map fun b => b.centre.x) seq._bounding_box.x ∧
    is_extent (seq._bps.map fun b => b.centre.y) seq._bounding_box.y ∧
    is_extent (seq._bps.map fun b => b.centre.z) seq._bounding_box.z ∧
    0 ≤ seq._bounding_box.x ∧ 0 ≤ seq._bounding_box.y ∧ 0 ≤ seq._bounding_box.z := by
  obtain ⟨content, -, -, -, -, hx, hy, hz⟩ :=
    Sequence.init_ok_inv G s0 filename file params u c0 seq h
  obtain ⟨bp0, h0, hc0⟩ := Sequence.init_ok_first_centre G s0 filename file params u c0 seq h
  have hmem : bp0 ∈ seq._bps := List.getElem?_mem h0
  have mx : (0 : R) ∈ seq._bps.map fun b => b.centre.x :=
    List.mem_map.mpr ⟨bp0, hmem, by rw [hc0]⟩
  have my : (0 : R) ∈ seq._bps.map fun b => b.centre.y :=
    List.mem_map.mpr ⟨bp0, hmem, by rw [hc0]⟩
  have mz : (0 : R) ∈ seq._bps.map fun b => b.centre.z :=
    List.mem_map.mpr ⟨bp0, hmem, by rw [hc0]⟩
  rw [hx, hy, hz]
  exact ⟨(is_extent_of_sentinels _ mx).1, (is_extent_of_sentinels _ my).1,
    (is_extent_of_sentinels _ mz).1, (is_extent_of_sentinels _ mx).2,
    (is_extent_of_sentinels _ my).2, (is_extent_of_sentinels _ mz).2⟩

theorem bounding_box_is_extent_witness :
    ∃ seq, Sequence.init GlmFuncs.rational (Sequence.new sample_sequence_storage) "sample"
        (some sample_content) sample_params sample_storage 'x' = Except.ok seq ∧
      is_extent (seq._bps.map fun b => b.centre.z) seq._bounding_box.z ∧
      0 ≤ seq._bounding_box.z := by
  obtain ⟨seq, h⟩ := sample_init_ok
  have hc := bounding_box_is_extent GlmFuncs.rational sample_sequence_storage
    "sample" (some sample_content) sample_params sample_storage 'x' seq h
  exact ⟨seq, h, hc.2.2.1, hc.2.2.2.2.2⟩

end PlacementClaims

end curveDNA

/-! ## The loops of the passes -/

namespace curveDNA

theorem size_t_of_int_natCast (k : Nat) (h : k < 2 ^ 64) : size_t_of_int (k : Int) = k := by
  unfold size_t_of_int
  omega

theorem size_t_of_int_sub (n k : Nat) (h : n < 2 ^ 64) (hk : k ≤ n) :
    size_t_of_int ((n : Int) - (k : Int)) = n - k := by
  unfold size_t_of_int
  omega

theorem size_t_of_int_sub_wrap (n k : Nat) (h : k < 2 ^ 64) (hk : n < k) :
    size_t_of_int ((n : Int) - (k : Int)) = 2 ^ 64 + n - k := by
  unfold size_t_of_int
  omega

theorem pass_result_length {α : Type} (upd : Nat → α → α) (lo hi : Nat) (orig : List α) :
    (pass_result upd lo hi orig).length = orig.length := by
  simp [pass_result]

theorem pass_result_getElem? {α : Type} (upd : Nat → α → α) (lo hi : Nat) (orig : List α)
    (k : Nat) :
    (pass_result upd lo hi orig)[k]? =
      (orig[k]?).map fun x => if lo ≤ k ∧ k < hi then upd k x else x := by
  simp [pass_result]

theorem pass_result_of_le {α : Type} (upd : Nat → α → α) (lo hi : Nat) (orig : List α)
    (h : hi ≤ lo) : pass_result upd lo hi orig = orig := by
  apply List.ext_getElem?
  intro k
  rw [pass_result_getElem?]
  have : ¬ (lo ≤ k ∧ k < hi) := by omega
  simp [this]

theorem pass_result_succ {α : Type} (upd : Nat → α → α) (lo i : Nat) (orig : List α)
    (h : lo ≤ i) :
    (pass_result upd lo i orig).modify (upd i) i = pass_result upd lo (i + 1) orig := by
  apply List.ext_getElem?
  intro k
  rw [List.getElem?_modify, pass_result_getElem?, pass_result_getElem?]
  cases orig[k]? with
  | none => rfl
  | some x =>
    simp only [Option.map_eq_map, Option.map_some']
    by_cases hk : i = k
    · subst hk
      have h1 : ¬ (lo ≤ i ∧ i < i) := by omega
      have h2 : lo ≤ i ∧ i < i + 1 := by omega
      simp [h1, h2]
    · by_cases hr : lo ≤ k ∧ k < i
      · have h2 : lo ≤ k ∧ k < i + 1 := by omega
        simp [hk, hr, h2]
      · have h2 : ¬ (lo ≤ k ∧ k < i + 1) := by omega
        simp [hk, hr, h2]

/-- A loop whose body rewrites the index it visits ends with every index in
`[lo, hi)` rewritten, when `hi` does not exceed the length. -/
theorem for_size_t_pass {α : Type} (upd : Nat → α → α) (body : Int → List α → Option (List α))
    (orig : List α) (lo hi : Nat) (hhi : hi ≤ orig.length) (hlen : orig.length < 2 ^ 64)
    (hlo64 : lo < 2 ^ 64)
    (hbody : ∀ i, lo ≤ i → i < hi →
      body (i : Int) (pass_result upd lo i orig) =
        some ((pass_result upd lo i orig).modify (upd i) i)) :
    for_size_t hi body (hi + 1) (lo : Int) orig = some (pass_result upd lo hi orig) := by
  have key : ∀ (d i fuel : Nat), lo ≤ i → i ≤ hi → hi ≤ i + d → d < fuel →
      for_size_t hi body fuel (i : Int) (pass_result upd lo i orig) =
        some (pass_result upd lo hi orig) := by
    intro d
    induction d with
    | zero =>
      intro i fuel hlo hle hd hf
      obtain ⟨f, rfl⟩ : ∃ f, fuel = f + 1 := ⟨fuel - 1, by omega⟩
      have hih : i = hi := by omega
      have hs : ¬ (size_t_of_int (i : Int) < hi) := by
        rw [size_t_of_int_natCast i (by omega)]; omega
      rw [for_size_t, if_neg hs, hih]
    | succ d ih =>
      intro i fuel hlo hle hd hf
      obtain ⟨f, rfl⟩ : ∃ f, fuel = f + 1 := ⟨fuel - 1, by omega⟩
      by_cases hlt : i < hi
      · have hs : size_t_of_int (i : Int) < hi := by
          rw [size_t_of_int_natCast i (by omega)]; exact hlt
        have hn := ih (i + 1) f (by omega) (by omega) (by omega) (by omega)
        simp only [for_size_t, hs, if_true, hbody i hlo hlt, Option.bind_eq_bind,
          Option.some_bind, pass_result_succ upd lo i orig hlo]
        exact_mod_cast hn
      · have hih : i = hi := by omega
        have hs : ¬ (size_t_of_int (i : Int) < hi) := by
          rw [size_t_of_int_natCast i (by omega)]; omega
        rw [for_size_t, if_neg hs, hih]
  by_cases hl : lo ≤ hi
  · have := key (hi - lo) lo (hi + 1) le_rfl hl (by omega) (by omega)
    rwa [pass_result_of_le upd lo lo orig le_rfl] at this
  · have hs : ¬ (size_t_of_int (lo : Int) < hi) := by
      rw [size_t_of_int_natCast lo hlo64]; omega
    rw [for_size_t, if_neg hs, pass_result_of_le upd lo hi orig (by omega)]

end curveDNA

/-! ## `Sequence::compute_bending` -/

namespace curveDNA

section BendingTheorems

variable {R : Type} [LinearOrderedField R]

theorem vec_at_natCast {α : Type} (v : List α) (k : Nat) (h : k < 2 ^ 64) :
    vec_at v (k : Int) = v[k]? := by
  rw [vec_at, size_t_of_int_natCast k h]

theorem vec_modify_natCast {α : Type} (v : List α) (k : Nat) (f : α → α) (h : k < v.length)
    (h64 : v.length < 2 ^ 64) : vec_modify v (k : Int) f = some (v.modify f k) := by
  rw [vec_modify, size_t_of_int_natCast k (by omega), if_pos h]

theorem normal_at_of_getElem? (bps : List (BasePair R)) (k : Nat) (bp : BasePair R)
    (h : bps[k]? = some bp) : normal_at bps k = bp.normal := by
  simp [normal_at, h]

/-- A pass that keeps the normals keeps `normal_at`. -/
theorem normal_at_pass_result (upd : Nat → BasePair R → BasePair R)
    (hupd : ∀ k bp, (upd k bp).normal = bp.normal) (lo hi : Nat) (orig : List (BasePair R))
    (k : Nat) : normal_at (pass_result upd lo hi orig) k = normal_at orig k := by
  rw [normal_at, normal_at, pass_result_getElem?]
  cases orig[k]? with
  | none => rfl
  | some x =>
    simp only [Option.map_some', Option.getD_some]
    split_ifs
    · exact hupd k x
    · rfl

/-- The body of the loop of `compute_bending` at an index whose two neighbours
are inside the vector. -/
theorem Sequence.compute_bending_body_eq (G : GlmFuncs R) (cur : List (BasePair R))
    (b i : Nat) (hb : b ≤ i) (hi : i + b < cur.length) (h64 : cur.length < 2 ^ 64) :
    Sequence.compute_bending_body G (b : Int) (i : Int) cur =
      some (cur.modify (bending_update G cur b i) i) := by
  have e1 : ((i : Int) - (b : Int)) = ((i - b : Nat) : Int) := by omega
  have e2 : ((i : Int) + (b : Int)) = ((i + b : Nat) : Int) := by omega
  have h1 : i - b < cur.length := by omega
  have g1 : cur[i - b]? = some cur[i - b] := List.getElem?_eq_getElem h1
  have g2 : cur[i + b]? = some cur[i + b] := List.getElem?_eq_getElem hi
  rw [Sequence.compute_bending_body, e1, e2, vec_at_natCast _ _ (by omega),
    vec_at_natCast _ _ (by omega), g1, g2, Option.some_bind, Option.some_bind]
  rw [vec_modify_natCast _ _ _ (by omega) h64]
  congr 2
  funext bp
  simp only [bending_update, bending_value, normal_at_of_getElem? _ _ _ g1,
    normal_at_of_getElem? _ _ _ g2]

theorem bending_update_normal (G : GlmFuncs R) (bps : List (BasePair R)) (b k : Nat)
    (bp : BasePair R) : (bending_update G bps b k bp).normal = bp.normal := rfl

/-- `compute_bending` in closed form when the length guard passes. -/
theorem Sequence.compute_bending_eq (G : GlmFuncs R) (seq : Sequence R) (b : Nat)
    (hb : b < 2 ^ 31) (hn : seq._bps.length < 2 ^ 64) (hg : 2 * b ≤ seq._bps.length) :
    Sequence.compute_bending G seq (b : Int) =
      some { seq with
        _bps := pass_result (bending_update G seq._bps b) b (seq._bps.length - b) seq._bps } := by
  have e1 : (2 * (b : Int)) = ((2 * b : Nat) : Int) := by omega
  have hguard : ¬ (seq._bps.length < size_t_of_int (2 * (b : Int))) := by
    rw [e1, size_t_of_int_natCast _ (by omega)]; omega
  have hbound : size_t_of_int ((seq._bps.length : Int) - (b : Int)) = seq._bps.length - b :=
    size_t_of_int_sub _ _ hn (by omega)
  rw [Sequence.compute_bending, if_neg hguard]
  simp only [hbound]
  rw [for_size_t_pass (bending_update G seq._bps b) _ seq._bps b (seq._bps.length - b)
    (by omega) hn (by omega)]
  · rfl
  · intro i hlo hhi
    rw [Sequence.compute_bending_body_eq G _ b i hlo
      (by rw [pass_result_length]; omega) (by rw [pass_result_length]; exact hn)]
    congr 2
    funext bp
    simp only [bending_update, bending_value,
      normal_at_pass_result _ (bending_update_normal G seq._bps b)]

/-- `compute_bending` returns at once when the length guard fails. -/
theorem Sequence.compute_bending_short (G : GlmFuncs R) (seq : Sequence R) (b : Nat)
    (hb : b < 2 ^ 31) (hg : seq._bps.length < 2 * b) :
    Sequence.compute_bending G seq (b : Int) = some seq := by
  have e1 : (2 * (b : Int)) = ((2 * b : Nat) : Int) := by omega
  have hguard : seq._bps.length < size_t_of_int (2 * (b : Int)) := by
    rw [e1, size_t_of_int_natCast _ (by omega)]; omega
  rw [Sequence.compute_bending, if_pos hguard]

end BendingTheorems
end curveDNA

namespace curveDNA
section BendingClaim

variable {R : Type} [LinearOrderedField R]

/-- C9: for a step list of length `n` with all bending fields unset and a
bracket `>= 0`: if `n < 2 * bracket`, `compute_bending` changes nothing;
otherwise only the step list changes, it keeps its length and its normals, the
indices whose bending is set afterwards are exactly those in
`[bracket, n - bracket)`, each with
`bending[i] = arccos(dot(local_normal[i - bracket], local_normal[i + bracket]))`,
and the steps at the other indices are as they were, unset. -/
theorem compute_bending_sets_interior (G : GlmFuncs R) (seq : Sequence R) (bracket : Int)
    (hb0 : 0 ≤ bracket) (hb : bracket < 2 ^ 31) (hn : seq._bps.length < 2 ^ 64)
    (hunset : ∀ bp ∈ seq._bps, bp._bending = none) :
    ((seq._bps.length : Int) < 2 * bracket →
      Sequence.compute_bending G seq bracket = some seq) ∧
    (2 * bracket ≤ (seq._bps.length : Int) →
      ∃ bps2, Sequence.compute_bending G seq bracket = some { seq with _bps := bps2 } ∧
        bps2.length = seq._bps.length ∧
        ∀ (i : Nat) (bp : BasePair R), seq._bps[i]? = some bp →
          ∃ bp2, bps2[i]? = some bp2 ∧ bp2.normal = bp.normal ∧
            (bp2._bending.isSome ↔
              (bracket ≤ (i : Int) ∧ (i : Int) < (seq._bps.length : Int) - bracket)) ∧
            ((bracket ≤ (i : Int) ∧ (i : Int) < (seq._bps.length : Int) - bracket) →
              ∃ before after, seq._bps[i - bracket.toNat]? = some before ∧
                seq._bps[i + bracket.toNat]? = some after ∧
                bp2 = bp.set_bending (G.acos (glm_dot before.normal after.normal))) ∧
            (¬ (bracket ≤ (i : Int) ∧ (i : Int) < (seq._bps.length : Int) - bracket) →
              bp2 = bp)) := by
  obtain ⟨b, rfl⟩ := Int.eq_ofNat_of_zero_le hb0
  have hb31 : b < 2 ^ 31 := by exact_mod_cast hb
  refine ⟨fun h => Sequence.compute_bending_short G seq b hb31 (by omega), fun h => ?_⟩
  have hg : 2 * b ≤ seq._bps.length := by omega
  refine ⟨_, Sequence.compute_bending_eq G seq b hb31 hn hg, pass_result_length _ _ _ _, ?_⟩
  intro i bp hi
  have hilt : i < seq._bps.length := by
    by_contra hc
    rw [List.getElem?_eq_none (by omega)] at hi
    exact Option.noConfusion hi
  have hu : bp._bending = none := hunset bp (List.getElem?_mem hi)
  rw [pass_result_getElem?, hi, Option.map_some']
  by_cases hr : b ≤ i ∧ i < seq._bps.length - b
  · have hr2 : (b : Int) ≤ (i : Int) ∧ (i : Int) < (seq._bps.length : Int) - (b : Int) := by
      omega
    have h1 : i - b < seq._bps.length := by omega
    have h2 : i + b < seq._bps.length := by omega
    rw [if_pos hr]
    refine ⟨_, rfl, rfl, ⟨fun _ => hr2, fun _ => rfl⟩, fun _ => ?_, fun hc => absurd hr2 hc⟩
    refine ⟨seq._bps[i - b], seq._bps[i + b], ?_, ?_, ?_⟩
    · simp
    · simp
    · simp only [bending_update, bending_value,
        normal_at_of_getElem? _ _ _ (List.getElem?_eq_getElem h1),
        normal_at_of_getElem? _ _ _ (List.getElem?_eq_getElem h2)]
  · have hr2 : ¬ ((b : Int) ≤ (i : Int) ∧
        (i : Int) < (seq._bps.length : Int) - (b : Int)) := by omega
    rw [if_neg hr]
    refine ⟨_, rfl, rfl, ⟨fun hs => ?_, fun hc => absurd hc hr2⟩, fun hc => absurd hc hr2,
      fun _ => rfl⟩
    rw [hu] at hs
    exact absurd hs (by simp)

theorem compute_bending_sets_interior_witness :
    (0 : Int) ≤ 1 ∧ (1 : Int) < 2 ^ 31 ∧ sample_steps._bps.length < 2 ^ 64 ∧
    (∀ bp ∈ sample_steps._bps, bp._bending = none) ∧
    ∃ bps2, Sequence.compute_bending GlmFuncs.rational sample_steps 1 =
        some { sample_steps with _bps := bps2 } ∧ bps2.length = sample_steps._bps.length := by
  have hu : ∀ bp ∈ sample_steps._bps, bp._bending = none := by
    intro bp hbp
    simp only [sample_steps, List.mem_map] at hbp
    obtain ⟨k, -, rfl⟩ := hbp
    rfl
  have hc := (compute_bending_sets_interior GlmFuncs.rational sample_steps 1 (by decide)
    (by decide) (by decide) hu).2 (by decide)
  obtain ⟨bps2, h1, h2, -⟩ := hc
  exact ⟨by decide, by decide, by decide, hu, bps2, h1, h2⟩

end BendingClaim
end curveDNA

/-! ## `Sequence::compute_curvature` -/

namespace curveDNA

section CurvatureTheorems

variable {R : Type} [LinearOrderedField R]

theorem avg_normal_at_of_getElem? (bps : List (BasePair R)) (k : Nat) (bp : BasePair R)
    (h : bps[k]? = some bp) : avg_normal_at bps k = bp.avg_normal := by
  simp [avg_normal_at, h]

/-- A pass that keeps the average normals keeps `avg_normal_at`. -/
theorem avg_normal_at_pass_result (upd : Nat → BasePair R → BasePair R)
    (hupd : ∀ k bp, (upd k bp).avg_normal = bp.avg_normal) (lo hi : Nat)
    (orig : List (BasePair R)) (k : Nat) :
    avg_normal_at (pass_result upd lo hi orig) k = avg_normal_at orig k := by
  rw [avg_normal_at, avg_normal_at, pass_result_getElem?]
  cases orig[k]? with
  | none => rfl
  | some x =>
    simp only [Option.map_some', Option.getD_some]
    split_ifs
    · exact hupd k x
    · rfl

theorem mem_int_range_incl (lo hi j : Int) (h : j ∈ int_range_incl lo hi) :
    lo ≤ j ∧ j ≤ hi := by
  simp only [int_range_incl, List.mem_map, List.mem_range] at h
  obtain ⟨k, hk, rfl⟩ := h
  omega

/-- A fold in which every access is inside the vector. -/
theorem foldlM_vec_at (cur : List (BasePair R)) (i : Nat) (h64 : cur.length < 2 ^ 64)
    (F : vec3 R → Int → vec3 R → vec3 R) (l : List Int)
    (hl : ∀ j ∈ l, 0 ≤ (i : Int) + j ∧ (i : Int) + j < cur.length) (acc : vec3 R) :
    l.foldlM (fun (acc : vec3 R) (j : Int) =>
        (vec_at cur ((i : Int) + j)).map fun b => F acc j b.normal) acc =
      some (l.foldl (fun acc j => F acc j (normal_at cur ((i : Int) + j).toNat)) acc) := by
  induction l generalizing acc with
  | nil => rfl
  | cons j rest ih =>
    have hj := hl j (List.mem_cons_self j rest)
    have e : (i : Int) + j = (((i : Int) + j).toNat : Int) := by omega
    have hlt : ((i : Int) + j).toNat < cur.length := by omega
    have g : cur[((i : Int) + j).toNat]? = some cur[((i : Int) + j).toNat] :=
      List.getElem?_eq_getElem hlt
    rw [List.foldlM_cons, List.foldl_cons]
    conv_lhs => rw [e]
    rw [vec_at_natCast _ _ (by omega), g]
    simp only [Option.map_some', Option.bind_eq_bind, Option.some_bind]
    rw [normal_at_of_getElem? _ _ _ g]
    exact ih (fun j2 hj2 => hl j2 (List.mem_cons_of_mem _ hj2)) _

/-- A fold with an access outside the vector has no result. -/
theorem foldlM_none_of_mem {α β : Type} (f : β → α → Option β) (l : List α) (a : α)
    (ha : a ∈ l) (hf : ∀ acc, f acc a = none) (acc : β) : l.foldlM f acc = none := by
  induction l generalizing acc with
  | nil => exact absurd ha (List.not_mem_nil a)
  | cons x rest ih =>
    rw [List.foldlM_cons]
    rcases List.mem_cons.mp ha with rfl | hr
    · rw [hf]; rfl
    · cases f acc x with
      | none => rfl
      | some acc2 => exact ih hr acc2

/-- The body of the first loop of `compute_curvature` at an index whose window
is inside the vector. -/
theorem Sequence.compute_curvature_body1_eq (cur : List (BasePair R)) (i : Nat)
    (hlo : 5 ≤ i) (hi : i + 5 < cur.length) (h64 : cur.length < 2 ^ 64) :
    Sequence.compute_curvature_body1 5 (i : Int) cur =
      some (cur.modify (avg_normal_update cur i) i) := by
  have hsum : Sequence.avg_normal_sum 5 cur (i : Int) = some
      ((int_range_incl (-5) 5).foldl
        (fun (acc : vec3 R) (j : Int) =>
          acc.add (vec3.smul (if |j| = 5 then 0.5 else 1)
            (normal_at cur ((i : Int) + j).toNat))) ⟨0, 0, 0⟩) := by
    have := foldlM_vec_at cur i h64
      (fun acc j n => acc.add (vec3.smul (if |j| = 5 then (0.5 : R) else 1) n))
      (int_range_incl (-5) 5)
      (fun j hj => by have := mem_int_range_incl _ _ _ hj; omega) ⟨0, 0, 0⟩
    simpa [Sequence.avg_normal_sum, BasePair.normal] using this
  rw [Sequence.compute_curvature_body1, hsum, Option.some_bind,
    vec_modify_natCast _ _ _ (by omega) h64]
  rfl

/-- The body of the first loop of `compute_curvature` when the window leaves
the vector. -/
theorem Sequence.compute_curvature_body1_none (cur : List (BasePair R)) (i : Nat)
    (hi : cur.length ≤ i + 5) (h64 : i + 5 < 2 ^ 64) :
    Sequence.compute_curvature_body1 5 (i : Int) cur = none := by
  have hsum : Sequence.avg_normal_sum 5 cur (i : Int) = none := by
    apply foldlM_none_of_mem _ _ (5 : Int)
    · decide
    · intro acc
      have e : (i : Int) + 5 = ((i + 5 : Nat) : Int) := by omega
      rw [e, vec_at_natCast _ _ h64, List.getElem?_eq_none (by omega)]
      rfl
  rw [Sequence.compute_curvature_body1, hsum]
  rfl

/-- The body of the second loop of `compute_curvature` at an index whose two
neighbours are inside the vector. -/
theorem Sequence.compute_curvature_body2_eq (G : GlmFuncs R) (cur : List (BasePair R))
    (b i : Nat) (hb : b ≤ i) (hi : i + b < cur.length) (h64 : cur.length < 2 ^ 64) :
    Sequence.compute_curvature_body2 G (b : Int) (i : Int) cur =
      some (cur.modify (curvature_update G cur b i) i) := by
  have e1 : ((i : Int) - (b : Int)) = ((i - b : Nat) : Int) := by omega
  have e2 : ((i : Int) + (b : Int)) = ((i + b : Nat) : Int) := by omega
  have h1 : i - b < cur.length := by omega
  have g1 : cur[i - b]? = some cur[i - b] := List.getElem?_eq_getElem h1
  have g2 : cur[i + b]? = some cur[i + b] := List.getElem?_eq_getElem hi
  rw [Sequence.compute_curvature_body2, e1, e2, vec_at_natCast _ _ (by omega),
    vec_at_natCast _ _ (by omega), g1, g2, Option.some_bind, Option.some_bind]
  rw [vec_modify_natCast _ _ _ (by omega) h64]
  congr 2
  funext bp
  simp only [curvature_update, curvature_value, avg_normal_at_of_getElem? _ _ _ g1,
    avg_normal_at_of_getElem? _ _ _ g2]

/-- The body of the second loop of `compute_curvature` when the neighbour
after the index is outside the vector. -/
theorem Sequence.compute_curvature_body2_none (G : GlmFuncs R) (cur : List (BasePair R))
    (b i : Nat) (hi : cur.length ≤ i + b) (h64 : i + b < 2 ^ 64) :
    Sequence.compute_curvature_body2 G (b : Int) (i : Int) cur = none := by
  have e2 : ((i : Int) + (b : Int)) = ((i + b : Nat) : Int) := by omega
  rw [Sequence.compute_curvature_body2, e2, vec_at_natCast _ _ h64,
    List.getElem?_eq_none (by omega)]
  cases vec_at cur ((i : Int) - (b : Int)) <;> rfl

theorem avg_normal_update_normal (bps : List (BasePair R)) (k : Nat) (bp : BasePair R) :
    (avg_normal_update bps k bp).normal = bp.normal := rfl

theorem curvature_update_avg_normal (G : GlmFuncs R) (bps : List (BasePair R)) (b k : Nat)
    (bp : BasePair R) : (curvature_update G bps b k bp).avg_normal = bp.avg_normal := rfl

theorem avg_normal_value_congr (a c : List (BasePair R)) (nb : Int) (i : Nat)
    (h : ∀ k, normal_at a k = normal_at c k) :
    avg_normal_value a nb i = avg_normal_value c nb i := by
  simp only [avg_normal_value, h]

/-- The first loop of `compute_curvature` on a vector of at least five steps. -/
theorem Sequence.compute_curvature_pass1 (bps : List (BasePair R)) (h5 : 5 ≤ bps.length)
    (hn : bps.length < 2 ^ 64) :
    for_size_t (size_t_of_int ((bps.length : Int) - 5))
        (Sequence.compute_curvature_body1 5)
        (size_t_of_int ((bps.length : Int) - 5) + 1) 5 bps =
      some (pass_result (avg_normal_update bps) 5 (bps.length - 5) bps) := by
  have hbound : size_t_of_int ((bps.length : Int) - 5) = bps.length - 5 := by
    have := size_t_of_int_sub bps.length 5 hn h5
    simpa using this
  rw [hbound]
  have h5lt : (5 : Nat) < 2 ^ 64 := by norm_num
  have hle : bps.length - 5 ≤ bps.length := by omega
  have hbody : ∀ i : Nat, 5 ≤ i → i < bps.length - 5 →
      Sequence.compute_curvature_body1 5 (i : Int)
          (pass_result (avg_normal_update bps) 5 i bps) =
        some ((pass_result (avg_normal_update bps) 5 i bps).modify
          (avg_normal_update bps i) i) := by
    intro i hlo hhi
    have hf : avg_normal_update (pass_result (avg_normal_update bps) 5 i bps) i =
        avg_normal_update bps i := by
      funext bp
      simp only [avg_normal_update]
      rw [avg_normal_value_congr _ bps 5 i
        (normal_at_pass_result _ (avg_normal_update_normal bps) 5 i bps)]
    rw [Sequence.compute_curvature_body1_eq _ i hlo
      (by rw [pass_result_length]; omega) (by rw [pass_result_length]; exact hn), hf]
  exact for_size_t_pass (avg_normal_update bps) (Sequence.compute_curvature_body1 5) bps 5
    (bps.length - 5) hle hn h5lt hbody

end CurvatureTheorems

end curveDNA

namespace curveDNA

section CurvatureClosedForm

variable {R : Type} [LinearOrderedField R]

/-- The second loop of `compute_curvature` on a vector of at least
`bracket + 5` steps. -/
theorem Sequence.compute_curvature_pass2 (G : GlmFuncs R) (bps : List (BasePair R)) (b : Nat)
    (hb : b < 2 ^ 31) (hlen : b + 5 ≤ bps.length) (hn : bps.length < 2 ^ 64) :
    for_size_t (size_t_of_int ((bps.length : Int) - ((b : Int) + 5)))
        (Sequence.compute_curvature_body2 G (b : Int))
        (size_t_of_int ((bps.length : Int) - ((b : Int) + 5)) + 1) ((b : Int) + 5) bps =
      some (pass_result (curvature_update G bps b) (b + 5) (bps.length - (b + 5)) bps) := by
  have e : ((b : Int) + 5) = ((b + 5 : Nat) : Int) := by omega
  have hbound : size_t_of_int ((bps.length : Int) - ((b + 5 : Nat) : Int)) =
      bps.length - (b + 5) := size_t_of_int_sub bps.length (b + 5) hn hlen
  rw [e, hbound]
  have hlo : b + 5 < 2 ^ 64 := by omega
  have hle : bps.length - (b + 5) ≤ bps.length := by omega
  have hbody : ∀ i : Nat, b + 5 ≤ i → i < bps.length - (b + 5) →
      Sequence.compute_curvature_body2 G (b : Int) (i : Int)
          (pass_result (curvature_update G bps b) (b + 5) i bps) =
        some ((pass_result (curvature_update G bps b) (b + 5) i bps).modify
          (curvature_update G bps b i) i) := by
    intro i hlo2 hhi
    have hf : curvature_update G (pass_result (curvature_update G bps b) (b + 5) i bps) b i =
        curvature_update G bps b i := by
      funext bp
      simp only [curvature_update, curvature_value,
        avg_normal_at_pass_result _ (curvature_update_avg_normal G bps b)]
    rw [Sequence.compute_curvature_body2_eq G _ b i (by omega)
      (by rw [pass_result_length]; omega) (by rw [pass_result_length]; exact hn), hf]
  exact for_size_t_pass (curvature_update G bps b) (Sequence.compute_curvature_body2 G (b : Int))
    bps (b + 5) (bps.length - (b + 5)) hle hn hlo hbody

/-- `compute_curvature` in closed form on a vector of at least `bracket + 5`
steps: the first pass writes the average normals of the indices in
`[5, n - 5)`, the second pass the curvatures of the indices in
`[bracket + 5, n - (bracket + 5))`. -/
theorem Sequence.compute_curvature_eq (G : GlmFuncs R) (seq : Sequence R) (b : Nat)
    (hb : b < 2 ^ 31) (hn : seq._bps.length < 2 ^ 64) (hg : 2 * b ≤ seq._bps.length)
    (hlen : b + 5 ≤ seq._bps.length) :
    Sequence.compute_curvature G seq (b : Int) =
      some { seq with
        _bps := pass_result
          (curvature_update G
            (pass_result (avg_normal_update seq._bps) 5 (seq._bps.length - 5) seq._bps) b)
          (b + 5) (seq._bps.length - (b + 5))
          (pass_result (avg_normal_update seq._bps) 5 (seq._bps.length - 5) seq._bps) } := by
  have e1 : (2 * (b : Int)) = ((2 * b : Nat) : Int) := by omega
  have hguard : ¬ (seq._bps.length < size_t_of_int (2 * (b : Int))) := by
    rw [e1, size_t_of_int_natCast _ (by omega)]; omega
  have h1 := Sequence.compute_curvature_pass1 seq._bps (by omega) hn
  have h2 := Sequence.compute_curvature_pass2 G
    (pass_result (avg_normal_update seq._bps) 5 (seq._bps.length - 5) seq._bps) b hb
    (by rw [pass_result_length]; exact hlen) (by rw [pass_result_length]; exact hn)
  rw [pass_result_length] at h2
  rw [Sequence.compute_curvature, if_neg hguard]
  simp only []
  rw [h1, Option.some_bind, h2]
  rfl

/-- `compute_curvature` returns at once when the length guard fails. -/
theorem Sequence.compute_curvature_short (G : GlmFuncs R) (seq : Sequence R) (b : Nat)
    (hb : b < 2 ^ 31) (hg : seq._bps.length < 2 * b) :
    Sequence.compute_curvature G seq (b : Int) = some seq := by
  have e1 : (2 * (b : Int)) = ((2 * b : Nat) : Int) := by omega
  have hguard : seq._bps.length < size_t_of_int (2 * (b : Int)) := by
    rw [e1, size_t_of_int_natCast _ (by omega)]; omega
  rw [Sequence.compute_curvature, if_pos hguard]

/-- `compute_curvature` leaves the vector when the length guard passes on
fewer than `bracket + 5` steps: the loop bound `n - 5` or `n - (bracket + 5)`
wraps around in `size_t`, and the first iteration reads a step that is not
there. -/
theorem Sequence.compute_curvature_none (G : GlmFuncs R) (seq : Sequence R) (b : Nat)
    (hg : 2 * b ≤ seq._bps.length) (hlen : seq._bps.length < b + 5) :
    Sequence.compute_curvature G seq (b : Int) = none := by
  have e1 : (2 * (b : Int)) = ((2 * b : Nat) : Int) := by omega
  have hguard : ¬ (seq._bps.length < size_t_of_int (2 * (b : Int))) := by
    rw [e1, size_t_of_int_natCast _ (by omega)]; omega
  rw [Sequence.compute_curvature, if_neg hguard]
  simp only []
  by_cases h5 : seq._bps.length < 5
  · have hbound : size_t_of_int ((seq._bps.length : Int) - 5) = 2 ^ 64 + seq._bps.length - 5 := by
      have := size_t_of_int_sub_wrap seq._bps.length 5 (by norm_num) h5
      simpa using this
    have hc : size_t_of_int ((5 : Nat) : Int) < 2 ^ 64 + seq._bps.length - 5 := by
      rw [size_t_of_int_natCast 5 (by norm_num)]; omega
    have hb1 := Sequence.compute_curvature_body1_none seq._bps 5 (by omega) (by norm_num)
    rw [hbound, for_size_t]
    simp only [Nat.cast_ofNat] at hc hb1
    rw [if_pos hc, hb1]
    rfl
  · have h1 := Sequence.compute_curvature_pass1 seq._bps (by omega) (by omega)
    have hP : pass_result (avg_normal_update seq._bps) 5 (seq._bps.length - 5) seq._bps =
        seq._bps := pass_result_of_le _ _ _ _ (by omega)
    rw [hP] at h1
    have e : ((b : Int) + 5) = ((b + 5 : Nat) : Int) := by omega
    have hbound : size_t_of_int ((seq._bps.length : Int) - ((b + 5 : Nat) : Int)) =
        2 ^ 64 + seq._bps.length - (b + 5) :=
      size_t_of_int_sub_wrap seq._bps.length (b + 5) (by omega) hlen
    have hc : size_t_of_int ((b + 5 : Nat) : Int) < 2 ^ 64 + seq._bps.length - (b + 5) := by
      rw [size_t_of_int_natCast (b + 5) (by omega)]; omega
    have hb2 := Sequence.compute_curvature_body2_none G seq._bps b (b + 5) (by omega) (by omega)
    rw [h1, Option.some_bind, e, hbound, for_size_t, if_pos hc, hb2]
    rfl

end CurvatureClosedForm

section CurvatureClaim

variable {R : Type} [LinearOrderedField R]

/-- C10: evaluation of `compute_curvature(1)` on any three steps. The length
guard passes (`3 >= 2 * 1`), the bound `3 - 5` of the first loop wraps around
in `size_t`, and the first iteration reads `_bps[3]`, which is not there: the
call has no defined result instead of leaving every curvature unset. -/
theorem compute_curvature_three_steps (G : GlmFuncs R) (s : Sequence R)
    (x y z : BasePair R) :
    ¬ (([x, y, z] : List (BasePair R)).length < size_t_of_int (2 * 1)) ∧
    size_t_of_int ((([x, y, z] : List (BasePair R)).length : Int) - 5) = 2 ^ 64 - 2 ∧
    vec_at [x, y, z] (5 + -2) = none ∧
    Sequence.compute_curvature G { s with _bps := [x, y, z] } 1 = none := by
  have h3 : ([x, y, z] : List (BasePair R)).length = 3 := rfl
  refine ⟨?_, ?_, rfl, ?_⟩
  · rw [h3]; decide
  · rw [h3]; decide
  · exact Sequence.compute_curvature_none G { s with _bps := [x, y, z] } 1
      (by show 2 * 1 ≤ 3; decide) (by show 3 < 1 + 5; decide)

end CurvatureClaim

end curveDNA

/-! ## Outcome of `Sequence::init` by the last character of the file -/

namespace curveDNA

section InitOutcome

variable {R : Type} [LinearOrderedField R]

/-- `Sequence::init` fails on a file that cannot be read. -/
theorem Sequence.init_unreadable (G : GlmFuncs R) (self : Sequence R) (filename : String)
    (params : String → Params R) (u : BasePair R) (c0 : Char) :
    Sequence.init G self filename none params u c0 =
      Except.error ("File '" ++ filename ++ "' is unreadable") := rfl

/-- `Sequence::init` on a fresh `Sequence` fails with the empty-sequence error
exactly when the reading loop forms no key. -/
theorem Sequence.init_error_iff (G : GlmFuncs R) (s0 : Sequence R) (filename : String)
    (content : List Char) (params : String → Params R) (u : BasePair R) (c0 : Char) :
    Sequence.init G (Sequence.new s0) filename (some content) params u c0 =
        Except.error ("File '" ++ filename ++ "' does not contain a meaningful sequence") ↔
      (valid_bases (content ++ [content.getLast?.getD c0])).length < 2 := by
  rw [Sequence.init_some]
  have hl : (init_keys content c0).length =
      (valid_bases (content ++ [content.getLast?.getD c0])).length - 1 :=
    adjacent_pairs_length _
  constructor
  · intro h
    split_ifs at h with hk
    omega
  · intro h
    rw [if_pos (by omega)]

/-- The empty file fails with the empty-sequence error, whatever the storage of
`c` holds. -/
theorem Sequence.init_empty_file (G : GlmFuncs R) (s0 : Sequence R) (filename : String)
    (params : String → Params R) (u : BasePair R) (c0 : Char) :
    Sequence.init G (Sequence.new s0) filename (some []) params u c0 =
      Except.error ("File '" ++ filename ++ "' does not contain a meaningful sequence") := by
  rw [Sequence.init_error_iff]
  have h : (valid_bases [c0]).length ≤ [c0].length := by
    simp only [valid_bases]
    exact (List.length_filter_le _ _).trans (by simp)
  simp only [List.nil_append, List.getLast?_nil, Option.getD_none]
  simp only [List.length_singleton] at h
  omega

/-- A file with at least two valid bases is accepted. -/
theorem Sequence.init_ok_of_two_bases (G : GlmFuncs R) (s0 : Sequence R) (filename : String)
    (content : List Char) (params : String → Params R) (u : BasePair R) (c0 : Char)
    (h : 2 ≤ (valid_bases content).length) :
    ∃ seq, Sequence.init G (Sequence.new s0) filename (some content) params u c0 =
      Except.ok seq := by
  apply Sequence.init_ok_of_keys
  have hl : (init_keys content c0).length =
      (valid_bases (content ++ [content.getLast?.getD c0])).length - 1 :=
    adjacent_pairs_length _
  rw [hl, valid_bases_append, List.length_append]
  omega

/-- The number of steps when the last character of the file is not a valid
base (a final newline, for instance): one less than the number of valid bases. -/
theorem Sequence.init_steps_of_last_not_valid (G : GlmFuncs R) (s0 : Sequence R)
    (filename : String) (content : List Char) (params : String → Params R) (u : BasePair R)
    (c0 : Char) (seq : Sequence R)
    (hlast : _is_valid (toupper (content.getLast?.getD c0)) = false)
    (h : Sequence.init G (Sequence.new s0) filename (some content) params u c0 =
      Except.ok seq) :
    seq._bps.length = (valid_bases content).length - 1 ∧
      Sequence.init_lookups G (Sequence.new s0) content params u c0 =
        adjacent_pairs (valid_bases content) := by
  obtain ⟨content1, hc, -, hb, -⟩ := Sequence.init_ok_inv G s0 filename _ params u c0 seq h
  cases hc
  rw [Sequence.init_lookups_eq, hb, place_from_length, init_built_length,
    init_keys_of_last_not_valid content c0 hlast, adjacent_pairs_length]
  exact ⟨rfl, rfl⟩

/-- The number of steps when the last character of the file is a valid base:
as many as valid bases, the last step pairing the last base with itself. -/
theorem Sequence.init_steps_of_last_valid (G : GlmFuncs R) (s0 : Sequence R)
    (filename : String) (content : List Char) (params : String → Params R) (u : BasePair R)
    (c0 : Char) (seq : Sequence R)
    (hlast : _is_valid (toupper (content.getLast?.getD c0)) = true)
    (h : Sequence.init G (Sequence.new s0) filename (some content) params u c0 =
      Except.ok seq) :
    seq._bps.length = (valid_bases content).length := by
  obtain ⟨content1, hc, -, hb, -⟩ := Sequence.init_ok_inv G s0 filename _ params u c0 seq h
  cases hc
  rw [hb, place_from_length, init_built_length, init_keys_of_last_valid content c0 hlast,
    adjacent_pairs_length, List.length_append]
  simp

end InitOutcome

end curveDNA

namespace curveDNA

section PrintMgl

variable {R : Type} [LinearOrderedField R]

/-- The lines of `print_mgl` after a run of steps: three more lines per step. -/
theorem Sequence.foldl_print_mgl_body (l : List (BasePair R)) (out : List (MglLine R)) :
    (l.foldl Sequence.print_mgl_body out).length = out.length + 3 * l.length ∧
    (∀ k, k < out.length → (l.foldl Sequence.print_mgl_body out)[k]? = out[k]?) ∧
    ∀ i bp, l[i]? = some bp →
      (l.foldl Sequence.print_mgl_body out)[out.length + 3 * i]? =
        some (Sequence._get_mgl_line bp.centre 0.15 "blue") ∧
      (l.foldl Sequence.print_mgl_body out)[out.length + 3 * i + 1]? =
        some (Sequence._get_mgl_line bp.phosphate_35 0.4 "red") ∧
      (l.foldl Sequence.print_mgl_body out)[out.length + 3 * i + 2]? =
        some (Sequence._get_mgl_line bp.phosphate_53 0.4 "red") := by
  induction l generalizing out with
  | nil => simp
  | cons b rest ih =>
    obtain ⟨h1, h2, h3⟩ := ih (Sequence.print_mgl_body out b)
    have hbody : Sequence.print_mgl_body out b =
        out ++ [Sequence._get_mgl_line b.centre 0.15 "blue",
          Sequence._get_mgl_line b.phosphate_35 0.4 "red",
          Sequence._get_mgl_line b.phosphate_53 0.4 "red"] := by
      simp [Sequence.print_mgl_body]
    have hlen : (Sequence.print_mgl_body out b).length = out.length + 3 := by
      rw [hbody, List.length_append]; rfl
    have hb0 : (Sequence.print_mgl_body out b)[out.length]? =
        some (Sequence._get_mgl_line b.centre 0.15 "blue") := by
      rw [hbody, List.getElem?_append_right (le_refl _), Nat.sub_self]; rfl
    have hb1 : (Sequence.print_mgl_body out b)[out.length + 1]? =
        some (Sequence._get_mgl_line b.phosphate_35 0.4 "red") := by
      rw [hbody, List.getElem?_append_right (by omega), Nat.add_sub_cancel_left]; rfl
    have hb2 : (Sequence.print_mgl_body out b)[out.length + 2]? =
        some (Sequence._get_mgl_line b.phosphate_53 0.4 "red") := by
      rw [hbody, List.getElem?_append_right (by omega), Nat.add_sub_cancel_left]; rfl
    have hbk : ∀ k, k < out.length → (Sequence.print_mgl_body out b)[k]? = out[k]? := by
      intro k hk
      rw [hbody, List.getElem?_append_left hk]
    rw [List.foldl_cons]
    refine ⟨by rw [h1, hlen, List.length_cons]; omega, ?_, ?_⟩
    · intro k hk
      rw [h2 k (by omega), hbk k hk]
    · intro i bp hi
      cases i with
      | zero =>
        simp only [List.getElem?_cons_zero, Option.some.injEq] at hi
        subst hi
        simp only [Nat.mul_zero, Nat.add_zero]
        exact ⟨by rw [h2 _ (by omega), hb0], by rw [h2 _ (by omega), hb1],
          by rw [h2 _ (by omega), hb2]⟩
      | succ i =>
        simp only [List.getElem?_cons_succ] at hi
        obtain ⟨g0, g1, g2⟩ := h3 i bp hi
        rw [hlen] at g0 g1 g2
        have e : out.length + 3 * (i + 1) = out.length + 3 + 3 * i := by omega
        rw [e]
        exact ⟨g0, g1, g2⟩

end PrintMgl

end curveDNA

/-! ## The weights of the windowed average -/

namespace curveDNA

section WindowWeights

variable {R : Type} [LinearOrderedField R]

theorem int_range_incl_five : int_range_incl (-5) 5 = [-5, -4, -3, -2, -1, 0, 1, 2, 3, 4, 5] := by
  decide

/-- The sum of the eleven factors of the window is ten. -/
theorem window_factor_sum :
    ((int_range_incl (-5) 5).map fun j : Int => if |j| = 5 then (0.5 : R) else 1).sum = 10 := by
  rw [int_range_incl_five]
  simp only [List.map_cons, List.map_nil, List.sum_cons, List.sum_nil]
  norm_num [abs_of_nonneg, abs_of_neg]

/-- The windowed average in full: half of both end normals plus the nine
normals between them, over ten. -/
theorem avg_normal_value_eq (bps : List (BasePair R)) (i : Nat) (h : 5 ≤ i) :
    avg_normal_value bps 5 i =
      ((((((((((((vec3.mk 0 0 0 : vec3 R).add (vec3.smul 0.5 (normal_at bps (i - 5)))).add
        (vec3.smul 1 (normal_at bps (i - 4)))).add
        (vec3.smul 1 (normal_at bps (i - 3)))).add
        (vec3.smul 1 (normal_at bps (i - 2)))).add
        (vec3.smul 1 (normal_at bps (i - 1)))).add
        (vec3.smul 1 (normal_at bps i))).add
        (vec3.smul 1 (normal_at bps (i + 1)))).add
        (vec3.smul 1 (normal_at bps (i + 2)))).add
        (vec3.smul 1 (normal_at bps (i + 3)))).add
        (vec3.smul 1 (normal_at bps (i + 4)))).add
        (vec3.smul 0.5 (normal_at bps (i + 5)))).divs 10 := by
  have e0 : ((i : Int) + -5).toNat = i - 5 := by omega
  have e1 : ((i : Int) + -4).toNat = i - 4 := by omega
  have e2 : ((i : Int) + -3).toNat = i - 3 := by omega
  have e3 : ((i : Int) + -2).toNat = i - 2 := by omega
  have e4 : ((i : Int) + -1).toNat = i - 1 := by omega
  have e5 : ((i : Int) + 0).toNat = i := by omega
  have e6 : ((i : Int) + 1).toNat = i + 1 := by omega
  have e7 : ((i : Int) + 2).toNat = i + 2 := by omega
  have e8 : ((i : Int) + 3).toNat = i + 3 := by omega
  have e9 : ((i : Int) + 4).toNat = i + 4 := by omega
  have e10 : ((i : Int) + 5).toNat = i + 5 := by omega
  rw [avg_normal_value, int_range_incl_five]
  simp only [List.foldl_cons, List.foldl_nil, e0, e1, e2, e3, e4, e5, e6, e7, e8, e9, e10]
  norm_num [abs_of_nonneg, abs_of_neg]

end WindowWeights

end curveDNA

/-! ## Claims on `print_mgl`, the order of the operations and the window weights -/

namespace curveDNA

section ReportClaims

variable {R : Type} [LinearOrderedField R]

/-- The two phosphate points of the first step placed by `Sequence::init`. -/
theorem Sequence.init_ok_first_phosphates (G : GlmFuncs R) (s0 : Sequence R)
    (filename : String) (file : Option (List Char)) (params : String → Params R)
    (u : BasePair R) (c0 : Char) (seq : Sequence R)
    (h : Sequence.init G (Sequence.new s0) filename file params u c0 = Except.ok seq) :
    ∃ bp0, seq._bps[0]? = some bp0 ∧
      bp0.phosphate_53 = ⟨-0.0975688, 0.9258795, 0.18⟩ ∧
      bp0.phosphate_35 = ⟨-0.0975688, -0.9258795, 0.18⟩ := by
  have hl := Sequence.init_ok_length G s0 filename file params u c0 seq h
  have h0 : 0 < seq._bps.length := hl
  refine ⟨seq._bps[0], List.getElem?_eq_getElem h0, ?_⟩
  obtain ⟨key, hkey⟩ := Sequence.init_ok_step G s0 filename file params u c0 seq h 0
    seq._bps[0] (List.getElem?_eq_getElem h0)
  rw [hkey]
  simp [accumulated_transform, mat4.prod, BasePair.set_sites, BasePair.phosphate_53,
    BasePair.phosphate_35, BasePair.init_trasf_matrix, BasePair.new, mat4.identity_mulVec,
    vec4.xyz]

/-- C12 (as stated, refuted): on the sample file the record that follows the
centre of the first base pair is not the record of `phosphate_53`: it is the
record of `phosphate_35`, whose y coordinate has the other sign. -/
theorem print_mgl_second_record_not_phosphate_53 :
    ∃ seq bp, Sequence.init GlmFuncs.rational (Sequence.new sample_sequence_storage) "sample"
        (some sample_content) sample_params sample_storage 'x' = Except.ok seq ∧
      seq._bps[0]? = some bp ∧
      (Sequence.print_mgl seq).2[2]? ≠
        some (Sequence._get_mgl_line bp.phosphate_53 (0.4 : ℚ) "red") := by
  obtain ⟨seq, h⟩ := sample_init_ok
  obtain ⟨bp, hbp, h53, h35⟩ := Sequence.init_ok_first_phosphates _ _ _ _ _ _ _ _ h
  refine ⟨seq, bp, h, hbp, ?_⟩
  have := ((Sequence.foldl_print_mgl_body seq._bps
    [MglLine.box (1.5 * seq._bounding_box.x) (1.5 * seq._bounding_box.y)
      (1.5 * seq._bounding_box.z)]).2.2 0 bp hbp).2.1
  simp only [List.length_singleton, Nat.mul_zero, Nat.add_zero] at this
  rw [Sequence.print_mgl, this, h53, h35]
  simp only [Sequence._get_mgl_line, ne_eq, Option.some.injEq, MglLine.point.injEq, not_and]
  intro _ hy
  norm_num at hy

/-- C12 (amended): the `.mgl` lines written by `print_mgl` are the header with
1.5 times the components of the bounding box, followed by exactly `3 n` point
records, three per base pair in step order, in the order centre (radius 0.15,
blue), phosphate_35 (radius 0.4, red), phosphate_53 (radius 0.4, red). -/
theorem print_mgl_records (seq : Sequence R) :
    (Sequence.print_mgl seq).1 = seq._filename ++ ".mgl" ∧
    (Sequence.print_mgl seq).2.length = 1 + 3 * seq._bps.length ∧
    (Sequence.print_mgl seq).2[0]? =
      some (MglLine.box (1.5 * seq._bounding_box.x) (1.5 * seq._bounding_box.y)
        (1.5 * seq._bounding_box.z)) ∧
    ∀ i bp, seq._bps[i]? = some bp →
      (Sequence.print_mgl seq).2[1 + 3 * i]? =
        some (MglLine.point bp.centre.x bp.centre.y bp.centre.z (0.15 : R) "blue") ∧
      (Sequence.print_mgl seq).2[1 + 3 * i + 1]? =
        some (MglLine.point bp.phosphate_35.x bp.phosphate_35.y bp.phosphate_35.z (0.4 : R) "red") ∧
      (Sequence.print_mgl seq).2[1 + 3 * i + 2]? =
        some (MglLine.point bp.phosphate_53.x bp.phosphate_53.y bp.phosphate_53.z (0.4 : R) "red") := by
  obtain ⟨h1, h2, h3⟩ := Sequence.foldl_print_mgl_body seq._bps
    [MglLine.box (1.5 * seq._bounding_box.x) (1.5 * seq._bounding_box.y)
      (1.5 * seq._bounding_box.z)]
  simp only [List.length_singleton] at h1 h2 h3
  refine ⟨rfl, h1, ?_, fun i bp hi => h3 i bp hi⟩
  have := h2 0 (by omega)
  simpa [Sequence.print_mgl] using this

theorem print_mgl_records_witness :
    ∃ seq bp, Sequence.init GlmFuncs.rational (Sequence.new sample_sequence_storage) "sample"
        (some sample_content) sample_params sample_storage 'x' = Except.ok seq ∧
      seq._bps[0]? = some bp ∧
      (Sequence.print_mgl seq).2[1 + 3 * 0 + 1]? =
        some (MglLine.point bp.phosphate_35.x bp.phosphate_35.y bp.phosphate_35.z (0.4 : ℚ) "red") := by
  obtain ⟨seq, h⟩ := sample_init_ok
  obtain ⟨bp, hbp, -⟩ := Sequence.init_ok_first_phosphates _ _ _ _ _ _ _ _ h
  exact ⟨seq, bp, h, hbp, ((print_mgl_records seq).2.2.2 0 bp hbp).2.1⟩

end ReportClaims

end curveDNA

namespace curveDNA

section OrderClaims

/-- C16 (as stated, refuted): for the sample wedge parameters the step
transform is not the product `Op7 * Op6 * ... * Op1` that pre-multiplication
would give: the two matrices differ in the third entry of their first column. -/
theorem step_transform_not_reverse_product :
    ((BasePair.new sample_storage).init_trasf_matrix GlmFuncs.rational
        sample_wedge_params)._trasf_matrix ≠
      mat4.prod (spec_step_operations GlmFuncs.rational sample_wedge_params).reverse := by
  rw [init_trasf_matrix_product GlmFuncs.rational GlmFuncs.rational_lawful.inversesqrt_one]
  have hT : spec_translate_z ((0 : ℚ) / 2) = mat4.identity := by
    simp [spec_translate_z, mat4.identity]
  have hA : spec_rotate_z GlmFuncs.rational ((0 : ℚ) / 2) = mat4.identity := by
    simp [spec_rotate_z, mat4.identity, GlmFuncs.rational]
  have hB : spec_rotate_z GlmFuncs.rational ((2 : ℚ) - 1) =
      ⟨⟨0, 1, 0, 0⟩, ⟨-1, 0, 0, 0⟩, ⟨0, 0, 1, 0⟩, ⟨0, 0, 0, 1⟩⟩ := by
    simp only [spec_rotate_z, GlmFuncs.rational]
    norm_num
  have hC : spec_rotate_z GlmFuncs.rational ((1 : ℚ) - 2) =
      ⟨⟨0, -1, 0, 0⟩, ⟨1, 0, 0, 0⟩, ⟨0, 0, 1, 0⟩, ⟨0, 0, 0, 1⟩⟩ := by
    simp only [spec_rotate_z, GlmFuncs.rational]
    norm_num
  have hX : spec_rotate_x GlmFuncs.rational (-(-1 : ℚ)) =
      ⟨⟨1, 0, 0, 0⟩, ⟨0, 0, 1, 0⟩, ⟨0, -1, 0, 0⟩, ⟨0, 0, 0, 1⟩⟩ := by
    simp only [spec_rotate_x, GlmFuncs.rational]
    norm_num
  have hp : GlmFuncs.rational.half_pi = 1 := rfl
  intro h
  simp only [mat4.prod, spec_step_operations, List.reverse_cons, List.reverse_nil,
    List.nil_append, List.cons_append, List.foldl_cons, List.foldl_nil, sample_wedge_params,
    hp, hT, hA, hB, hC, hX, mat4.identity_mul, mat4.mul_identity] at h
  have hz := congrArg (fun m : mat4 ℚ => m.c0.z) h
  simp only [mat4.mul, vec4.add, vec4.muls] at hz
  norm_num at hz

/-- C16 (amended): the step transform is built under a right-multiplication
convention: each `glm::translate` and `glm::rotate` of the seven operations
post-multiplies the accumulated matrix (`M` becomes `M * Op`), so that, starting
from the identity, the result is `Op1 * Op2 * Op3 * Op4 * Op5 * Op6 * Op7` for
the operations as listed. -/
theorem step_transform_post_multiplies {R : Type} [Field R] (G : GlmFuncs R)
    (hn : G.inversesqrt 1 = 1) :
    (∀ (m : mat4 R) (d : R), glm_translate m ⟨0, 0, d⟩ = m.mul (spec_translate_z d)) ∧
    (∀ (m : mat4 R) (a : R), glm_rotate G m a ⟨0, 0, 1⟩ = m.mul (spec_rotate_z G a)) ∧
    (∀ (m : mat4 R) (a : R), glm_rotate G m a ⟨1, 0, 0⟩ = m.mul (spec_rotate_x G a)) ∧
    ∀ (p : Params R) (u : BasePair R),
      ((BasePair.new u).init_trasf_matrix G p)._trasf_matrix =
        ((((((spec_translate_z (p.rise_per_residue / 2)).mul
          (spec_rotate_z G (p.twist / 2))).mul
          (spec_rotate_z G (p.direction - G.half_pi))).mul
          (spec_rotate_x G (-p.wedge))).mul
          (spec_rotate_z G (G.half_pi - p.direction))).mul
          (spec_rotate_z G (p.twist / 2))).mul
          (spec_translate_z (p.rise_per_residue / 2)) := by
  refine ⟨glm_translate_z_eq, glm_rotate_z_eq G hn, glm_rotate_x_eq G hn, fun p u => ?_⟩
  rw [init_trasf_matrix_product G hn]
  simp only [mat4.prod, spec_step_operations, List.foldl_cons, List.foldl_nil,
    mat4.identity_mul]

theorem step_transform_post_multiplies_witness :
    GlmFuncs.rational.inversesqrt 1 = 1 ∧
    glm_rotate GlmFuncs.rational (spec_translate_z 1) 1 ⟨1, 0, 0⟩ =
      (spec_translate_z 1).mul (spec_rotate_x GlmFuncs.rational 1) :=
  ⟨GlmFuncs.rational_lawful.inversesqrt_one,
    (step_transform_post_multiplies GlmFuncs.rational
      GlmFuncs.rational_lawful.inversesqrt_one).2.2.1 (spec_translate_z 1) 1⟩

/-- C17 (as stated, refuted): the sum of the eleven weights of the window is
not `2 * normal_bracket - 1 = 9`. -/
theorem window_weights_sum_not_nine :
    ((int_range_incl (-5) 5).map fun j : Int => if |j| = 5 then (0.5 : ℚ) else 1).sum ≠
      2 * 5 - 1 := by
  rw [window_factor_sum]
  norm_num

/-- C17 (amended): in the windowed average of `compute_curvature` (offsets
from -5 to 5, weight 0.5 at both ends and 1 elsewhere) the sum of the weights
is `2 * normal_bracket = 10`, which is the fixed divisor: the first loop body
stores a weighted mean, and on a window of equal normals it stores that normal. -/
theorem window_weights_sum_is_divisor {R : Type} [LinearOrderedField R] :
    ((int_range_incl (-5) 5).map fun j : Int => if |j| = 5 then (0.5 : R) else 1).sum =
      (((2 * 5 : Int)) : R) ∧
    ∀ (cur : List (BasePair R)) (i : Nat) (v : vec3 R), 5 ≤ i → i + 5 < cur.length →
      cur.length < 2 ^ 64 → (∀ k, i - 5 ≤ k → k ≤ i + 5 → normal_at cur k = v) →
      Sequence.compute_curvature_body1 5 (i : Int) cur =
        some (cur.modify (fun b => b.set_avg_normal v) i) := by
  refine ⟨by rw [window_factor_sum]; norm_num, ?_⟩
  intro cur i v h5 hi h64 hv
  rw [Sequence.compute_curvature_body1_eq cur i h5 hi h64]
  have hval : avg_normal_value cur 5 i = v := by
    rw [avg_normal_value_eq cur i h5, hv (i - 5) (by omega) (by omega),
      hv (i - 4) (by omega) (by omega), hv (i - 3) (by omega) (by omega),
      hv (i - 2) (by omega) (by omega), hv (i - 1) (by omega) (by omega),
      hv i (by omega) (by omega), hv (i + 1) (by omega) (by omega),
      hv (i + 2) (by omega) (by omega), hv (i + 3) (by omega) (by omega),
      hv (i + 4) (by omega) (by omega), hv (i + 5) (by omega) (by omega)]
    rcases v with ⟨x, y, z⟩
    simp only [vec3.add, vec3.smul, vec3.divs, vec3.mk.injEq]
    refine ⟨?_, ?_, ?_⟩ <;> ring
  have hf : avg_normal_update cur i = fun b => b.set_avg_normal v := by
    funext b
    rw [avg_normal_update, hval]
  rw [hf]

theorem window_weights_sum_is_divisor_witness :
    (5 : Nat) ≤ 5 ∧ 5 + 5 < (List.replicate 11 sample_storage).length ∧
    (∀ k, 5 - 5 ≤ k → k ≤ 5 + 5 →
      normal_at (List.replicate 11 sample_storage) k = ⟨0, 0, 1⟩) ∧
    Sequence.compute_curvature_body1 5 ((5 : Nat) : Int) (List.replicate 11 sample_storage) =
      some ((List.replicate 11 sample_storage).modify
        (fun b => b.set_avg_normal ⟨0, 0, 1⟩) 5) := by
  have hv : ∀ k, 5 - 5 ≤ k → k ≤ 5 + 5 →
      normal_at (List.replicate 11 sample_storage) k = ⟨0, 0, 1⟩ := by
    intro k _ hk
    have hk2 : k < 11 := by omega
    rw [normal_at, List.getElem?_replicate, if_pos hk2]
    rfl
  exact ⟨le_refl _, by simp, hv,
    (window_weights_sum_is_divisor (R := ℚ)).2 (List.replicate 11 sample_storage) 5 ⟨0, 0, 1⟩
      (le_refl _) (by simp) (by simp) hv⟩

end OrderClaims

end curveDNA

/-! ## The two passes of `compute_curvature`, index by index -/

namespace curveDNA

section CurvatureIndex

variable {R : Type} [LinearOrderedField R]

/-- After the first pass the average normal of an index in `[5, n - 5)` is the
windowed average of the normals. -/
theorem avg_normal_at_pass1 (bps : List (BasePair R)) (k : Nat) (h5 : 5 ≤ k)
    (hk : k + 5 < bps.length) :
    avg_normal_at (pass_result (avg_normal_update bps) 5 (bps.length - 5) bps) k =
      avg_normal_value bps 5 k := by
  have hlt : k < bps.length := by omega
  have hr : 5 ≤ k ∧ k < bps.length - 5 := by omega
  rw [avg_normal_at, pass_result_getElem?, List.getElem?_eq_getElem hlt, Option.map_some',
    if_pos hr]
  rfl

/-- After the first pass the average normal of an index outside `[5, n - 5)` is
as it was. -/
theorem avg_normal_at_pass1_outside (bps : List (BasePair R)) (k : Nat)
    (hk : ¬ (5 ≤ k ∧ k < bps.length - 5)) :
    avg_normal_at (pass_result (avg_normal_update bps) 5 (bps.length - 5) bps) k =
      avg_normal_at bps k := by
  rw [avg_normal_at, avg_normal_at, pass_result_getElem?]
  cases bps[k]? with
  | none => rfl
  | some x => simp only [Option.map_some', if_neg hk]

/-- The steps after `compute_curvature`, index by index, on a vector of at
least `bracket + 5` steps. -/
theorem Sequence.compute_curvature_getElem? (G : GlmFuncs R) (seq : Sequence R) (b : Nat)
    (hb : b < 2 ^ 31) (hn : seq._bps.length < 2 ^ 64) (hg : 2 * b ≤ seq._bps.length)
    (hlen : b + 5 ≤ seq._bps.length) :
    ∃ bps2, Sequence.compute_curvature G seq (b : Int) = some { seq with _bps := bps2 } ∧
      bps2.length = seq._bps.length ∧
      ∀ k : Nat, bps2[k]? = (seq._bps[k]?).map fun (x : BasePair R) =>
        { x with
          _avg_normal :=
            if 5 ≤ k ∧ k < seq._bps.length - 5 then avg_normal_value seq._bps 5 k
            else x._avg_normal
          _curvature :=
            if b + 5 ≤ k ∧ k < seq._bps.length - (b + 5) then
              some (G.acos (glm_dot (avg_normal_value seq._bps 5 (k - b))
                (avg_normal_value seq._bps 5 (k + b))))
            else x._curvature } := by
  refine ⟨_, Sequence.compute_curvature_eq G seq b hb hn hg hlen, ?_, ?_⟩
  · rw [pass_result_length, pass_result_length]
  · intro k
    rw [pass_result_getElem?, pass_result_getElem?]
    cases hx : seq._bps[k]? with
    | none => rfl
    | some x =>
      simp only [Option.map_some', Option.some.injEq]
      by_cases h2 : b + 5 ≤ k ∧ k < seq._bps.length - (b + 5)
      · have h1 : 5 ≤ k ∧ k < seq._bps.length - 5 := by omega
        rw [if_pos h2, if_pos h1, if_pos h2, if_pos h1]
        simp only [curvature_update, curvature_value, avg_normal_update,
          BasePair.set_curvature, BasePair.set_avg_normal]
        rw [avg_normal_at_pass1 seq._bps (k - b) (by omega) (by omega),
          avg_normal_at_pass1 seq._bps (k + b) (by omega) (by omega)]
      · rw [if_neg h2, if_neg h2]
        by_cases h1 : 5 ≤ k ∧ k < seq._bps.length - 5
        · rw [if_pos h1, if_pos h1]
          rfl
        · rw [if_neg h1, if_neg h1]

end CurvatureIndex

section CurvatureDefectClaims

variable {R : Type} [LinearOrderedField R]

/-- C11: evaluation of `compute_curvature(2)` on any four steps. The length
guard passes (`4 >= 2 * 2`), the bound `4 - 5` of the first loop wraps around in
`size_t`, the loop body runs for `bp = 5` and reads `_bps[5 + -1]`, which is
not there: the call has no defined result instead of leaving every average
normal as it was. -/
theorem compute_curvature_four_steps (G : GlmFuncs R) (s : Sequence R)
    (w x y z : BasePair R) :
    ¬ (([w, x, y, z] : List (BasePair R)).length < size_t_of_int (2 * 2)) ∧
    size_t_of_int ((([w, x, y, z] : List (BasePair R)).length : Int) - 5) = 2 ^ 64 - 1 ∧
    vec_at [w, x, y, z] (5 + -1) = none ∧
    Sequence.compute_curvature G { s with _bps := [w, x, y, z] } 2 = none := by
  have h4 : ([w, x, y, z] : List (BasePair R)).length = 4 := rfl
  refine ⟨?_, ?_, rfl, ?_⟩
  · rw [h4]; decide
  · rw [h4]; decide
  · exact Sequence.compute_curvature_none G { s with _bps := [w, x, y, z] } 2
      (by show 2 * 2 ≤ 4; decide) (by show 4 < 2 + 5; decide)

/-- C15: evaluation of `compute_curvature(3)` on any seven steps. The length
guard passes (`7 >= 2 * 3`), the first loop does not run, the bound
`7 - (3 + 5)` of the second loop wraps around in `size_t`, the loop body runs
for `bp = 8` and reads `_bps[8 + 3]`, an index outside `[0, 7)`: the call has
no defined result. -/
theorem compute_curvature_seven_steps (G : GlmFuncs R) (s : Sequence R)
    (a0 a1 a2 a3 a4 a5 a6 : BasePair R) :
    ¬ (([a0, a1, a2, a3, a4, a5, a6] : List (BasePair R)).length < size_t_of_int (2 * 3)) ∧
    size_t_of_int ((([a0, a1, a2, a3, a4, a5, a6] : List (BasePair R)).length : Int) -
      (3 + 5)) = 2 ^ 64 - 1 ∧
    vec_at [a0, a1, a2, a3, a4, a5, a6] (8 + 3) = none ∧
    Sequence.compute_curvature G { s with _bps := [a0, a1, a2, a3, a4, a5, a6] } 3 = none := by
  have h7 : ([a0, a1, a2, a3, a4, a5, a6] : List (BasePair R)).length = 7 := rfl
  refine ⟨?_, ?_, rfl, ?_⟩
  · rw [h7]; decide
  · rw [h7]; decide
  · exact Sequence.compute_curvature_none G
      { s with _bps := [a0, a1, a2, a3, a4, a5, a6] } 3
      (by show 2 * 3 ≤ 7; decide) (by show 7 < 3 + 5; decide)

end CurvatureDefectClaims

end curveDNA

/-! ## Fresh average normals and idempotence of the passes -/

namespace curveDNA

section FreshAndIdempotent

variable {R : Type} [LinearOrderedField R]

/-- C20: for a bracket `>= 0` and `n >= 2 * (bracket + 5)` steps,
`compute_curvature` has a result, and for every `i` in
`[bracket + 5, n - (bracket + 5))` both `i - bracket` and `i + bracket` lie in
`[5, n - 5)`, the average normals of these two steps are the windowed averages
that the first pass of this call computes from the local normals, and the
curvature of step `i` is computed from them: no curvature comes from an average
normal that the call did not write. -/
theorem curvature_reads_fresh_avg_normals (G : GlmFuncs R) (seq : Sequence R) (bracket : Int)
    (hb0 : 0 ≤ bracket) (hb : bracket < 2 ^ 31) (hn : seq._bps.length < 2 ^ 64)
    (hlen : 2 * (bracket + 5) ≤ (seq._bps.length : Int)) :
    ∃ bps2, Sequence.compute_curvature G seq bracket = some { seq with _bps := bps2 } ∧
      bps2.length = seq._bps.length ∧
      ∀ i : Nat, bracket + 5 ≤ (i : Int) → (i : Int) < (seq._bps.length : Int) - (bracket + 5) →
        (5 ≤ (i : Int) - bracket ∧ (i : Int) - bracket < (seq._bps.length : Int) - 5 ∧
          5 ≤ (i : Int) + bracket ∧ (i : Int) + bracket < (seq._bps.length : Int) - 5) ∧
        ∃ before after cur, bps2[i - bracket.toNat]? = some before ∧
          bps2[i + bracket.toNat]? = some after ∧ bps2[i]? = some cur ∧
          before.avg_normal = avg_normal_value seq._bps 5 (i - bracket.toNat) ∧
          after.avg_normal = avg_normal_value seq._bps 5 (i + bracket.toNat) ∧
          cur._curvature = some (G.acos (glm_dot before.avg_normal after.avg_normal)) := by
  obtain ⟨b, rfl⟩ := Int.eq_ofNat_of_zero_le hb0
  have hb31 : b < 2 ^ 31 := by exact_mod_cast hb
  obtain ⟨bps2, h1, h2, h3⟩ := Sequence.compute_curvature_getElem? G seq b hb31 hn
    (by omega) (by omega)
  refine ⟨bps2, h1, h2, ?_⟩
  intro i hlo hhi
  refine ⟨by omega, ?_⟩
  have e : ((b : Int)).toNat = b := by omega
  have g1 : i - b < seq._bps.length := by omega
  have g2 : i + b < seq._bps.length := by omega
  have g3 : i < seq._bps.length := by omega
  have r1 : 5 ≤ i - b ∧ i - b < seq._bps.length - 5 := by omega
  have r2 : 5 ≤ i + b ∧ i + b < seq._bps.length - 5 := by omega
  have r3 : b + 5 ≤ i ∧ i < seq._bps.length - (b + 5) := by omega
  rw [e]
  have q1 := h3 (i - b)
  have q2 := h3 (i + b)
  have q3 := h3 i
  rw [List.getElem?_eq_getElem g1, Option.map_some'] at q1
  rw [List.getElem?_eq_getElem g2, Option.map_some'] at q2
  rw [List.getElem?_eq_getElem g3, Option.map_some'] at q3
  refine ⟨_, _, _, q1, q2, q3, ?_, ?_, ?_⟩
  · simp only [BasePair.avg_normal, if_pos r1]
  · simp only [BasePair.avg_normal, if_pos r2]
  · simp only [BasePair.avg_normal, if_pos r1, if_pos r2, if_pos r3]

theorem curvature_reads_fresh_avg_normals_witness :
    (0 : Int) ≤ 1 ∧ (1 : Int) < 2 ^ 31 ∧ sample_unit_steps._bps.length < 2 ^ 64 ∧
    2 * ((1 : Int) + 5) ≤ (sample_unit_steps._bps.length : Int) ∧
    ∃ bps2, Sequence.compute_curvature GlmFuncs.rational sample_unit_steps 1 =
        some { sample_unit_steps with _bps := bps2 } ∧
      bps2.length = sample_unit_steps._bps.length := by
  have hl : sample_unit_steps._bps.length = 13 := by simp [sample_unit_steps]
  have h1 : sample_unit_steps._bps.length < 2 ^ 64 := by rw [hl]; decide
  have h2 : 2 * ((1 : Int) + 5) ≤ (sample_unit_steps._bps.length : Int) := by rw [hl]; decide
  obtain ⟨bps2, g1, g2, -⟩ := curvature_reads_fresh_avg_normals GlmFuncs.rational
    sample_unit_steps 1 (by decide) (by decide) h1 h2
  exact ⟨by decide, by decide, h1, h2, bps2, g1, g2⟩

end FreshAndIdempotent

end curveDNA

/-! ## Running a pass again -/

namespace curveDNA

section RunAgain

variable {R : Type} [LinearOrderedField R]

/-- The steps after `compute_bending`, index by index, when the length guard
passes. -/
theorem Sequence.compute_bending_getElem? (G : GlmFuncs R) (seq : Sequence R) (b : Nat)
    (hb : b < 2 ^ 31) (hn : seq._bps.length < 2 ^ 64) (hg : 2 * b ≤ seq._bps.length) :
    ∃ bps2, Sequence.compute_bending G seq (b : Int) = some { seq with _bps := bps2 } ∧
      bps2.length = seq._bps.length ∧
      ∀ k : Nat, bps2[k]? = (seq._bps[k]?).map fun (x : BasePair R) =>
        { x with
          _bending :=
            if b ≤ k ∧ k < seq._bps.length - b then some (bending_value G seq._bps b k)
            else x._bending } := by
  refine ⟨_, Sequence.compute_bending_eq G seq b hb hn hg, pass_result_length _ _ _ _, ?_⟩
  intro k
  rw [pass_result_getElem?]
  cases seq._bps[k]? with
  | none => rfl
  | some x =>
    simp only [Option.map_some', Option.some.injEq]
    by_cases h : b ≤ k ∧ k < seq._bps.length - b
    · rw [if_pos h, if_pos h]; rfl
    · rw [if_neg h, if_neg h]

/-- Two lists with the same normals index by index have the same `normal_at`. -/
theorem normal_at_of_map (l1 l2 : List (BasePair R)) (f : Nat → BasePair R → BasePair R)
    (h : ∀ k : Nat, l2[k]? = (l1[k]?).map (f k)) (hf : ∀ k x, (f k x)._normal = x._normal)
    (k : Nat) : normal_at l2 k = normal_at l1 k := by
  rw [normal_at, normal_at, h k]
  cases l1[k]? with
  | none => rfl
  | some x => simp only [Option.map_some', Option.getD_some, BasePair.normal, hf]

theorem bending_value_congr (G : GlmFuncs R) (a c : List (BasePair R)) (b i : Nat)
    (h : ∀ k, normal_at a k = normal_at c k) :
    bending_value G a b i = bending_value G c b i := by
  simp only [bending_value, h]

/-- Running `compute_bending` again with the same bracket changes nothing. -/
theorem Sequence.compute_bending_twice (G : GlmFuncs R) (seq : Sequence R) (b : Nat)
    (hb : b < 2 ^ 31) (hn : seq._bps.length < 2 ^ 64) :
    ∃ s1, Sequence.compute_bending G seq (b : Int) = some s1 ∧
      Sequence.compute_bending G s1 (b : Int) = some s1 := by
  by_cases hg : 2 * b ≤ seq._bps.length
  · obtain ⟨bps2, h1, h2, h3⟩ := Sequence.compute_bending_getElem? G seq b hb hn hg
    refine ⟨_, h1, ?_⟩
    obtain ⟨bps3, g1, g2, g3⟩ := Sequence.compute_bending_getElem? G
      { seq with _bps := bps2 } b hb (by rw [h2]; exact hn) (by rw [h2]; exact hg)
    rw [g1]
    have heq : bps3 = bps2 := by
      apply List.ext_getElem?
      intro k
      rw [g3 k]
      simp only []
      rw [h3 k]
      cases seq._bps[k]? with
      | none => rfl
      | some x =>
        simp only [Option.map_some', Option.some.injEq, h2]
        by_cases h : b ≤ k ∧ k < seq._bps.length - b
        · rw [if_pos h, if_pos h]
          rw [bending_value_congr G bps2 seq._bps b k
            (normal_at_of_map seq._bps bps2 _ h3 (fun _ _ => rfl))]
        · rw [if_neg h, if_neg h]
    rw [heq]
  · have hs := Sequence.compute_bending_short G seq b hb (by omega)
    exact ⟨seq, hs, hs⟩

/-- Running `compute_curvature` again with the same bracket changes nothing,
on a vector of at least `bracket + 5` steps. -/
theorem Sequence.compute_curvature_twice (G : GlmFuncs R) (seq : Sequence R) (b : Nat)
    (hb : b < 2 ^ 31) (hn : seq._bps.length < 2 ^ 64) (hg : 2 * b ≤ seq._bps.length)
    (hlen : b + 5 ≤ seq._bps.length) :
    ∃ s1, Sequence.compute_curvature G seq (b : Int) = some s1 ∧
      Sequence.compute_curvature G s1 (b : Int) = some s1 := by
  obtain ⟨bps2, h1, h2, h3⟩ := Sequence.compute_curvature_getElem? G seq b hb hn hg hlen
  refine ⟨_, h1, ?_⟩
  obtain ⟨bps3, g1, g2, g3⟩ := Sequence.compute_curvature_getElem? G
    { seq with _bps := bps2 } b hb (by rw [h2]; exact hn) (by rw [h2]; exact hg)
    (by rw [h2]; exact hlen)
  rw [g1]
  have hnorm : ∀ k, normal_at bps2 k = normal_at seq._bps k :=
    normal_at_of_map seq._bps bps2 _ h3 (fun _ _ => rfl)
  have hval : ∀ i, avg_normal_value bps2 5 i = avg_normal_value seq._bps 5 i :=
    fun i => avg_normal_value_congr bps2 seq._bps 5 i hnorm
  have heq : bps3 = bps2 := by
    apply List.ext_getElem?
    intro k
    rw [g3 k]
    simp only []
    rw [h3 k]
    cases seq._bps[k]? with
    | none => rfl
    | some x =>
      simp only [Option.map_some', Option.some.injEq, h2, hval]
      by_cases q2 : b + 5 ≤ k ∧ k < seq._bps.length - (b + 5)
      · have q1 : 5 ≤ k ∧ k < seq._bps.length - 5 := by omega
        simp only [if_pos q1, if_pos q2]
      · by_cases q1 : 5 ≤ k ∧ k < seq._bps.length - 5
        · simp only [if_pos q1, if_neg q2]
        · simp only [if_neg q1, if_neg q2]
  rw [heq]

/-- Running `compute_bending(bracket)` twice in a row leaves the state that one
run leaves, and so does `compute_curvature(bracket)` where it has a result: the
second run is the first run again (both have the same result, or both have
none when `2 * bracket <= n < bracket + 5`), and whenever `n < 2 * bracket` or
`n >= bracket + 5` the first run has a result that the second run returns
unchanged. -/
theorem passes_twice_where_defined (G : GlmFuncs R) (seq : Sequence R) (bracket : Int)
    (hb0 : 0 ≤ bracket) (hb : bracket < 2 ^ 31) (hn : seq._bps.length < 2 ^ 64) :
    (∃ s1, Sequence.compute_bending G seq bracket = some s1 ∧
      Sequence.compute_bending G s1 bracket = some s1) ∧
    ((Sequence.compute_curvature G seq bracket).bind
        (fun s1 => Sequence.compute_curvature G s1 bracket) =
      Sequence.compute_curvature G seq bracket) ∧
    (((seq._bps.length : Int) < 2 * bracket ∨ bracket + 5 ≤ (seq._bps.length : Int)) →
      ∃ s1, Sequence.compute_curvature G seq bracket = some s1 ∧
        Sequence.compute_curvature G s1 bracket = some s1) := by
  obtain ⟨b, rfl⟩ := Int.eq_ofNat_of_zero_le hb0
  have hb31 : b < 2 ^ 31 := by exact_mod_cast hb
  have hdef : ((seq._bps.length : Int) < 2 * (b : Int) ∨
      (b : Int) + 5 ≤ (seq._bps.length : Int)) →
      ∃ s1, Sequence.compute_curvature G seq (b : Int) = some s1 ∧
        Sequence.compute_curvature G s1 (b : Int) = some s1 := by
    intro h
    by_cases hg : 2 * b ≤ seq._bps.length
    · exact Sequence.compute_curvature_twice G seq b hb31 hn hg (by omega)
    · have hs := Sequence.compute_curvature_short G seq b hb31 (by omega)
      exact ⟨seq, hs, hs⟩
  refine ⟨Sequence.compute_bending_twice G seq b hb31 hn, ?_, hdef⟩
  by_cases hd : (seq._bps.length : Int) < 2 * (b : Int) ∨
      (b : Int) + 5 ≤ (seq._bps.length : Int)
  · obtain ⟨s1, h1, h2⟩ := hdef hd
    rw [h1, Option.some_bind, h2]
  · rw [Sequence.compute_curvature_none G seq b (by omega) (by omega)]
    rfl

theorem passes_twice_where_defined_witness :
    (0 : Int) ≤ 1 ∧ (1 : Int) < 2 ^ 31 ∧ sample_unit_steps._bps.length < 2 ^ 64 ∧
    ((1 : Int) + 5 ≤ (sample_unit_steps._bps.length : Int)) ∧
    ∃ s1, Sequence.compute_curvature GlmFuncs.rational sample_unit_steps 1 = some s1 ∧
      Sequence.compute_curvature GlmFuncs.rational s1 1 = some s1 := by
  have hl : sample_unit_steps._bps.length = 13 := by simp [sample_unit_steps]
  have h1 : sample_unit_steps._bps.length < 2 ^ 64 := by rw [hl]; decide
  have h2 : (1 : Int) + 5 ≤ (sample_unit_steps._bps.length : Int) := by rw [hl]; decide
  exact ⟨by decide, by decide, h1, h2,
    (passes_twice_where_defined GlmFuncs.rational sample_unit_steps 1 (by decide) (by decide)
      h1).2.2 (Or.inr h2)⟩

end RunAgain

end curveDNA

/-! ## Running a pass again with another bracket -/

namespace curveDNA

section OtherBracket

variable {R : Type} [LinearOrderedField R]

/-- `compute_bending(b1)` followed by `compute_bending(b2)`, index by index. -/
theorem Sequence.compute_bending_then (G : GlmFuncs R) (seq : Sequence R) (b1 b2 : Nat)
    (hb : b2 < 2 ^ 31) (h12 : b1 < b2) (hn : seq._bps.length < 2 ^ 64)
    (hg : 2 * b2 ≤ seq._bps.length) :
    ∃ bps1 bps2, Sequence.compute_bending G seq (b1 : Int) = some { seq with _bps := bps1 } ∧
      Sequence.compute_bending G { seq with _bps := bps1 } (b2 : Int) =
        some { seq with _bps := bps2 } ∧
      bps2.length = seq._bps.length ∧
      ∀ k : Nat, bps2[k]? = (seq._bps[k]?).map fun (x : BasePair R) =>
        { x with
          _bending :=
            if b2 ≤ k ∧ k < seq._bps.length - b2 then some (bending_value G seq._bps b2 k)
            else if b1 ≤ k ∧ k < seq._bps.length - b1 then
              some (bending_value G seq._bps b1 k)
            else x._bending } := by
  obtain ⟨bps1, h1, h2, h3⟩ := Sequence.compute_bending_getElem? G seq b1 (by omega) hn
    (by omega)
  obtain ⟨bps2, g1, g2, g3⟩ := Sequence.compute_bending_getElem? G
    { seq with _bps := bps1 } b2 hb (by rw [h2]; exact hn) (by rw [h2]; exact hg)
  refine ⟨bps1, bps2, h1, g1, by rw [g2]; exact h2, ?_⟩
  intro k
  rw [g3 k]
  simp only []
  rw [h3 k]
  cases seq._bps[k]? with
  | none => rfl
  | some x =>
    simp only [Option.map_some', Option.some.injEq, h2]
    rw [bending_value_congr G bps1 seq._bps b2 k
      (normal_at_of_map seq._bps bps1 _ h3 (fun _ _ => rfl))]

/-- `compute_curvature(b1)` followed by `compute_curvature(b2)`, index by
index, on a vector of at least `b2 + 5` steps. -/
theorem Sequence.compute_curvature_then (G : GlmFuncs R) (seq : Sequence R) (b1 b2 : Nat)
    (hb : b2 < 2 ^ 31) (h12 : b1 < b2) (hn : seq._bps.length < 2 ^ 64)
    (hg : 2 * b2 ≤ seq._bps.length) (hlen : b2 + 5 ≤ seq._bps.length) :
    ∃ bps1 bps2, Sequence.compute_curvature G seq (b1 : Int) = some { seq with _bps := bps1 } ∧
      Sequence.compute_curvature G { seq with _bps := bps1 } (b2 : Int) =
        some { seq with _bps := bps2 } ∧
      bps2.length = seq._bps.length ∧
      ∀ k : Nat, bps2[k]? = (seq._bps[k]?).map fun (x : BasePair R) =>
        { x with
          _avg_normal :=
            if 5 ≤ k ∧ k < seq._bps.length - 5 then avg_normal_value seq._bps 5 k
            else x._avg_normal
          _curvature :=
            if b2 + 5 ≤ k ∧ k < seq._bps.length - (b2 + 5) then
              some (G.acos (glm_dot (avg_normal_value seq._bps 5 (k - b2))
                (avg_normal_value seq._bps 5 (k + b2))))
            else if b1 + 5 ≤ k ∧ k < seq._bps.length - (b1 + 5) then
              some (G.acos (glm_dot (avg_normal_value seq._bps 5 (k - b1))
                (avg_normal_value seq._bps 5 (k + b1))))
            else x._curvature } := by
  obtain ⟨bps1, h1, h2, h3⟩ := Sequence.compute_curvature_getElem? G seq b1 (by omega) hn
    (by omega) (by omega)
  obtain ⟨bps2, g1, g2, g3⟩ := Sequence.compute_curvature_getElem? G
    { seq with _bps := bps1 } b2 hb (by rw [h2]; exact hn) (by rw [h2]; exact hg)
    (by rw [h2]; exact hlen)
  refine ⟨bps1, bps2, h1, g1, by rw [g2]; exact h2, ?_⟩
  have hnorm : ∀ k, normal_at bps1 k = normal_at seq._bps k :=
    normal_at_of_map seq._bps bps1 _ h3 (fun _ _ => rfl)
  have hval : ∀ i, avg_normal_value bps1 5 i = avg_normal_value seq._bps 5 i :=
    fun i => avg_normal_value_congr bps1 seq._bps 5 i hnorm
  intro k
  rw [g3 k]
  simp only []
  rw [h3 k]
  cases seq._bps[k]? with
  | none => rfl
  | some x =>
    simp only [Option.map_some', Option.some.injEq, h2, hval]
    by_cases q1 : 5 ≤ k ∧ k < seq._bps.length - 5
    · simp only [if_pos q1]
    · simp only [if_neg q1]

end OtherBracket

end curveDNA

namespace curveDNA

section OtherBracketClaim

variable {R : Type} [LinearOrderedField R]

/-- C19 (as stated, refuted): ten steps and the brackets 0 and 1 satisfy
`n >= 2 * b2`, and after `compute_curvature(0)` followed by
`compute_curvature(1)` the curvature of step 5, an index of `[b1 + 5, b2 + 5)`,
is not set: with ten steps the range `[5, 10 - 5)` of the first call is empty. -/
theorem curvature_unset_at_five_of_ten_steps :
    2 * 1 ≤ sample_ten_steps._bps.length ∧
    ∃ s1 s2 x2, Sequence.compute_curvature GlmFuncs.rational sample_ten_steps 0 = some s1 ∧
      Sequence.compute_curvature GlmFuncs.rational s1 1 = some s2 ∧
      s2._bps[5]? = some x2 ∧ x2._curvature = none := by
  have hl : sample_ten_steps._bps.length = 10 := by simp [sample_ten_steps]
  obtain ⟨bps1, bps2, h1, h2, -, h4⟩ := Sequence.compute_curvature_then GlmFuncs.rational
    sample_ten_steps 0 1 (by decide) (by decide) (by rw [hl]; decide) (by rw [hl]; decide)
    (by rw [hl]; decide)
  have h5 : sample_ten_steps._bps[5]? = some (BasePair.new sample_storage) := by
    simp [sample_ten_steps, List.getElem?_replicate]
  have q := h4 5
  rw [h5, Option.map_some', hl] at q
  refine ⟨by rw [hl]; decide, _, _, _, h1, h2, q, ?_⟩
  simp [BasePair.new]

/-- C19 (amended): re-running a pass with a larger bracket does not clear
earlier results. For brackets `b1 < b2` and `n >= 2 * b2` steps, after
`compute_bending(b1)` followed by `compute_bending(b2)` the bending fields at
the indices in `[b1, b2)` and `[n - b2, n - b1)` hold the values computed with
`b1`, those in `[b2, n - b2)` hold the values computed with `b2`, and on a list
with unset bending fields the set of indices with bending defined is
`[b1, n - b1)`, which is not `[b2, n - b2)`. The same holds for
`compute_curvature` with the ranges shifted by 5 when `n >= b1 + b2 + 10`. -/
theorem earlier_results_survive_larger_bracket (G : GlmFuncs R) (seq : Sequence R)
    (b1 b2 : Nat) (hb : b2 < 2 ^ 31) (h12 : b1 < b2) (hn : seq._bps.length < 2 ^ 64)
    (hg : 2 * b2 ≤ seq._bps.length) :
    (∃ bps1 bps2,
      Sequence.compute_bending G seq (b1 : Int) = some { seq with _bps := bps1 } ∧
      Sequence.compute_bending G { seq with _bps := bps1 } (b2 : Int) =
        some { seq with _bps := bps2 } ∧
      (∀ (k : Nat) (x : BasePair R), seq._bps[k]? = some x →
        ∃ x2, bps2[k]? = some x2 ∧
          (((b1 ≤ k ∧ k < b2) ∨ (seq._bps.length - b2 ≤ k ∧ k < seq._bps.length - b1)) →
            x2._bending = some (bending_value G seq._bps b1 k)) ∧
          ((b2 ≤ k ∧ k < seq._bps.length - b2) →
            x2._bending = some (bending_value G seq._bps b2 k)) ∧
          (x._bending = none →
            (x2._bending.isSome ↔ (b1 ≤ k ∧ k < seq._bps.length - b1)))) ∧
      ((b1 ≤ b1 ∧ b1 < seq._bps.length - b1) ∧
        ¬ (b2 ≤ b1 ∧ b1 < seq._bps.length - b2))) ∧
    (b1 + b2 + 10 ≤ seq._bps.length →
      ∃ bps1 bps2,
        Sequence.compute_curvature G seq (b1 : Int) = some { seq with _bps := bps1 } ∧
        Sequence.compute_curvature G { seq with _bps := bps1 } (b2 : Int) =
          some { seq with _bps := bps2 } ∧
        (∀ (k : Nat) (x : BasePair R), seq._bps[k]? = some x →
          ∃ x2, bps2[k]? = some x2 ∧
            (((b1 + 5 ≤ k ∧ k < b2 + 5) ∨
                (seq._bps.length - (b2 + 5) ≤ k ∧ k < seq._bps.length - (b1 + 5))) →
              x2._curvature =
                some (G.acos (glm_dot (avg_normal_value seq._bps 5 (k - b1))
                  (avg_normal_value seq._bps 5 (k + b1))))) ∧
            ((b2 + 5 ≤ k ∧ k < seq._bps.length - (b2 + 5)) →
              x2._curvature =
                some (G.acos (glm_dot (avg_normal_value seq._bps 5 (k - b2))
                  (avg_normal_value seq._bps 5 (k + b2))))) ∧
            (x._curvature = none →
              (x2._curvature.isSome ↔ (b1 + 5 ≤ k ∧ k < seq._bps.length - (b1 + 5))))) ∧
        ((b1 + 5 ≤ b1 + 5 ∧ b1 + 5 < seq._bps.length - (b1 + 5)) ∧
          ¬ (b2 + 5 ≤ b1 + 5 ∧ b1 + 5 < seq._bps.length - (b2 + 5)))) := by
  constructor
  · obtain ⟨bps1, bps2, h1, h2, -, h4⟩ :=
      Sequence.compute_bending_then G seq b1 b2 hb h12 hn hg
    refine ⟨bps1, bps2, h1, h2, ?_, by omega⟩
    intro k x hx
    have q := h4 k
    rw [hx, Option.map_some'] at q
    refine ⟨_, q, ?_, ?_, ?_⟩
    · intro hr
      have c2 : ¬ (b2 ≤ k ∧ k < seq._bps.length - b2) := by omega
      have c1 : b1 ≤ k ∧ k < seq._bps.length - b1 := by omega
      simp only [if_neg c2, if_pos c1]
    · intro c2
      simp only [if_pos c2]
    · intro hu
      by_cases c2 : b2 ≤ k ∧ k < seq._bps.length - b2
      · have c1 : b1 ≤ k ∧ k < seq._bps.length - b1 := by omega
        simp only [if_pos c2, Option.isSome_some, true_iff]
        exact c1
      · by_cases c1 : b1 ≤ k ∧ k < seq._bps.length - b1
        · simp only [if_neg c2, if_pos c1, Option.isSome_some, true_iff]
          exact c1
        · simp only [if_neg c2, if_neg c1, hu, Option.isSome_none, Bool.false_eq_true,
            false_iff]
          exact c1
  · intro hlen
    obtain ⟨bps1, bps2, h1, h2, -, h4⟩ :=
      Sequence.compute_curvature_then G seq b1 b2 hb h12 hn hg (by omega)
    refine ⟨bps1, bps2, h1, h2, ?_, by omega⟩
    intro k x hx
    have q := h4 k
    rw [hx, Option.map_some'] at q
    refine ⟨_, q, ?_, ?_, ?_⟩
    · intro hr
      have c2 : ¬ (b2 + 5 ≤ k ∧ k < seq._bps.length - (b2 + 5)) := by omega
      have c1 : b1 + 5 ≤ k ∧ k < seq._bps.length - (b1 + 5) := by omega
      simp only [if_neg c2, if_pos c1]
    · intro c2
      simp only [if_pos c2]
    · intro hu
      by_cases c2 : b2 + 5 ≤ k ∧ k < seq._bps.length - (b2 + 5)
      · have c1 : b1 + 5 ≤ k ∧ k < seq._bps.length - (b1 + 5) := by omega
        simp only [if_pos c2, Option.isSome_some, true_iff]
        exact c1
      · by_cases c1 : b1 + 5 ≤ k ∧ k < seq._bps.length - (b1 + 5)
        · simp only [if_neg c2, if_pos c1, Option.isSome_some, true_iff]
          exact c1
        · simp only [if_neg c2, if_neg c1, hu, Option.isSome_none, Bool.false_eq_true,
            false_iff]
          exact c1

theorem earlier_results_survive_larger_bracket_witness :
    (1 : Nat) < 2 ^ 31 ∧ (0 : Nat) < 1 ∧ sample_unit_steps._bps.length < 2 ^ 64 ∧
    2 * 1 ≤ sample_unit_steps._bps.length ∧ 0 + 1 + 10 ≤ sample_unit_steps._bps.length ∧
    ∃ bps1 bps2,
      Sequence.compute_curvature GlmFuncs.rational sample_unit_steps ((0 : Nat) : Int) =
        some { sample_unit_steps with _bps := bps1 } ∧
      Sequence.compute_curvature GlmFuncs.rational { sample_unit_steps with _bps := bps1 }
        ((1 : Nat) : Int) = some { sample_unit_steps with _bps := bps2 } := by
  have hl : sample_unit_steps._bps.length = 13 := by simp [sample_unit_steps]
  have h1 : sample_unit_steps._bps.length < 2 ^ 64 := by rw [hl]; decide
  have h2 : 2 * 1 ≤ sample_unit_steps._bps.length := by rw [hl]; decide
  have h3 : 0 + 1 + 10 ≤ sample_unit_steps._bps.length := by rw [hl]; decide
  obtain ⟨bps1, bps2, g1, g2, -⟩ :=
    (earlier_results_survive_larger_bracket GlmFuncs.rational sample_unit_steps 0 1
      (by decide) (by decide) h1 h2).2 h3
  exact ⟨by decide, by decide, h1, h2, h3, bps1, bps2, g1, g2⟩

end OtherBracketClaim

end curveDNA

/-! ## The range of the stored angles -/

namespace curveDNA

section AngleRange

variable {R : Type} [LinearOrderedField R]

theorem glm_dot_comm (a b : vec3 R) : glm_dot a b = glm_dot b a := by
  simp only [glm_dot]; ring

/-- The dot product of two unit vectors lies in `[-1, 1]`. -/
theorem glm_dot_unit_bounds (a b : vec3 R) (ha : glm_dot a a = 1) (hb : glm_dot b b = 1) :
    -1 ≤ glm_dot a b ∧ glm_dot a b ≤ 1 := by
  simp only [glm_dot] at ha hb ⊢
  constructor
  · nlinarith [sq_nonneg (a.x + b.x), sq_nonneg (a.y + b.y), sq_nonneg (a.z + b.z)]
  · nlinarith [sq_nonneg (a.x - b.x), sq_nonneg (a.y - b.y), sq_nonneg (a.z - b.z)]

/-- The windowed average is a weighted mean: its dot product with a vector is
bounded like the dot products of the normals of the window with that vector. -/
theorem glm_dot_avg_normal_value_bounds (bps : List (BasePair R)) (i : Nat) (v : vec3 R)
    (B : R) (h5 : 5 ≤ i)
    (hb : ∀ k, i - 5 ≤ k → k ≤ i + 5 →
      -B ≤ glm_dot (normal_at bps k) v ∧ glm_dot (normal_at bps k) v ≤ B) :
    -B ≤ glm_dot (avg_normal_value bps 5 i) v ∧ glm_dot (avg_normal_value bps 5 i) v ≤ B := by
  have b0 := hb (i - 5) (by omega) (by omega)
  have b1 := hb (i - 4) (by omega) (by omega)
  have b2 := hb (i - 3) (by omega) (by omega)
  have b3 := hb (i - 2) (by omega) (by omega)
  have b4 := hb (i - 1) (by omega) (by omega)
  have b5 := hb i (by omega) (by omega)
  have b6 := hb (i + 1) (by omega) (by omega)
  have b7 := hb (i + 2) (by omega) (by omega)
  have b8 := hb (i + 3) (by omega) (by omega)
  have b9 := hb (i + 4) (by omega) (by omega)
  have b10 := hb (i + 5) (by omega) (by omega)
  have key : glm_dot (avg_normal_value bps 5 i) v =
      (0.5 * glm_dot (normal_at bps (i - 5)) v + glm_dot (normal_at bps (i - 4)) v +
        glm_dot (normal_at bps (i - 3)) v + glm_dot (normal_at bps (i - 2)) v +
        glm_dot (normal_at bps (i - 1)) v + glm_dot (normal_at bps i) v +
        glm_dot (normal_at bps (i + 1)) v + glm_dot (normal_at bps (i + 2)) v +
        glm_dot (normal_at bps (i + 3)) v + glm_dot (normal_at bps (i + 4)) v +
        0.5 * glm_dot (normal_at bps (i + 5)) v) / 10 := by
    rw [avg_normal_value_eq bps i h5]
    simp only [glm_dot, vec3.add, vec3.smul, vec3.divs]
    ring
  rw [key]
  constructor
  · rw [le_div_iff₀ (by norm_num)]
    norm_num at *
    linarith [b0.1, b1.1, b2.1, b3.1, b4.1, b5.1, b6.1, b7.1, b8.1, b9.1, b10.1]
  · rw [div_le_iff₀ (by norm_num)]
    norm_num at *
    linarith [b0.2, b1.2, b2.2, b3.2, b4.2, b5.2, b6.2, b7.2, b8.2, b9.2, b10.2]

/-- In a list of unit normals, `normal_at` is a unit vector inside the list. -/
theorem normal_at_unit (bps : List (BasePair R))
    (hunit : ∀ bp ∈ bps, glm_dot bp.normal bp.normal = 1) (k : Nat) (hk : k < bps.length) :
    glm_dot (normal_at bps k) (normal_at bps k) = 1 := by
  have g : bps[k]? = some bps[k] := List.getElem?_eq_getElem hk
  rw [normal_at_of_getElem? bps k _ g]
  exact hunit _ (List.getElem?_mem g)

/-- The dot product of two windowed averages of unit normals lies in
`[-1, 1]`. -/
theorem glm_dot_avg_normal_values_bounds (bps : List (BasePair R))
    (hunit : ∀ bp ∈ bps, glm_dot bp.normal bp.normal = 1) (i j : Nat)
    (hi5 : 5 ≤ i) (hi : i + 5 < bps.length) (hj5 : 5 ≤ j) (hj : j + 5 < bps.length) :
    -1 ≤ glm_dot (avg_normal_value bps 5 i) (avg_normal_value bps 5 j) ∧
      glm_dot (avg_normal_value bps 5 i) (avg_normal_value bps 5 j) ≤ 1 := by
  apply glm_dot_avg_normal_value_bounds bps i _ 1 hi5
  intro k hk1 hk2
  rw [glm_dot_comm]
  apply glm_dot_avg_normal_value_bounds bps j _ 1 hj5
  intro m hm1 hm2
  exact glm_dot_unit_bounds _ _ (normal_at_unit bps hunit m (by omega))
    (normal_at_unit bps hunit k (by omega))

end AngleRange

end curveDNA

namespace curveDNA

section AngleRangeClaim

variable {R : Type} [LinearOrderedField R]

/-- In exact arithmetic: when every local normal is a unit vector and `arccos`
maps `[-1, 1]` into `[0, pi]`, every value that `compute_bending` or
`compute_curvature` stores is `arccos d` for a dot product `d` in `[-1, 1]` and
so lies in `[0, pi]`: for bending `d` is the dot product of two unit normals,
for curvature it is the dot product of two windowed averages, each of which is
a weighted mean of unit vectors and has squared norm at most one. The rounding
of `float` is not part of this statement, see `glm_dot_f32`. -/
theorem stored_angles_in_range_exact (G : GlmFuncs R) (seq : Sequence R) (bracket : Int)
    (hb0 : 0 ≤ bracket) (hb : bracket < 2 ^ 31) (hn : seq._bps.length < 2 ^ 64)
    (hunit : ∀ bp ∈ seq._bps, glm_dot bp.normal bp.normal = 1)
    (hacos : ∀ d : R, -1 ≤ d → d ≤ 1 → 0 ≤ G.acos d ∧ G.acos d ≤ 2 * G.half_pi) :
    (2 * bracket ≤ (seq._bps.length : Int) →
      ∃ bps2, Sequence.compute_bending G seq bracket = some { seq with _bps := bps2 } ∧
        ∀ k : Nat, bracket ≤ (k : Int) → (k : Int) < (seq._bps.length : Int) - bracket →
          ∃ x2 d, bps2[k]? = some x2 ∧ x2._bending = some (G.acos d) ∧
            d = glm_dot (normal_at seq._bps (k - bracket.toNat))
              (normal_at seq._bps (k + bracket.toNat)) ∧
            -1 ≤ d ∧ d ≤ 1 ∧ 0 ≤ G.acos d ∧ G.acos d ≤ 2 * G.half_pi) ∧
    (2 * bracket ≤ (seq._bps.length : Int) → bracket + 5 ≤ (seq._bps.length : Int) →
      ∃ bps2, Sequence.compute_curvature G seq bracket = some { seq with _bps := bps2 } ∧
        ∀ k : Nat, bracket + 5 ≤ (k : Int) →
          (k : Int) < (seq._bps.length : Int) - (bracket + 5) →
          ∃ x2 d, bps2[k]? = some x2 ∧ x2._curvature = some (G.acos d) ∧
            d = glm_dot (avg_normal_value seq._bps 5 (k - bracket.toNat))
              (avg_normal_value seq._bps 5 (k + bracket.toNat)) ∧
            -1 ≤ d ∧ d ≤ 1 ∧ 0 ≤ G.acos d ∧ G.acos d ≤ 2 * G.half_pi) ∧
    (∀ k : Nat, 5 ≤ k → k + 5 < seq._bps.length →
      glm_dot (avg_normal_value seq._bps 5 k) (avg_normal_value seq._bps 5 k) ≤ 1) := by
  obtain ⟨b, rfl⟩ := Int.eq_ofNat_of_zero_le hb0
  have hb31 : b < 2 ^ 31 := by exact_mod_cast hb
  have e : ((b : Int)).toNat = b := by omega
  rw [e]
  refine ⟨?_, ?_, ?_⟩
  · intro hg
    obtain ⟨bps2, h1, -, h3⟩ := Sequence.compute_bending_getElem? G seq b hb31 hn (by omega)
    refine ⟨bps2, h1, ?_⟩
    intro k hlo hhi
    have hk : k < seq._bps.length := by omega
    have hr : b ≤ k ∧ k < seq._bps.length - b := by omega
    have q := h3 k
    rw [List.getElem?_eq_getElem hk, Option.map_some', if_pos hr] at q
    have hd := glm_dot_unit_bounds _ _
      (normal_at_unit seq._bps hunit (k - b) (by omega))
      (normal_at_unit seq._bps hunit (k + b) (by omega))
    exact ⟨_, _, q, rfl, rfl, hd.1, hd.2, hacos _ hd.1 hd.2⟩
  · intro hg hlen
    obtain ⟨bps2, h1, -, h3⟩ := Sequence.compute_curvature_getElem? G seq b hb31 hn
      (by omega) (by omega)
    refine ⟨bps2, h1, ?_⟩
    intro k hlo hhi
    have hk : k < seq._bps.length := by omega
    have hr : b + 5 ≤ k ∧ k < seq._bps.length - (b + 5) := by omega
    have q := h3 k
    rw [List.getElem?_eq_getElem hk, Option.map_some', if_pos hr] at q
    have hd := glm_dot_avg_normal_values_bounds seq._bps hunit (k - b) (k + b)
      (by omega) (by omega) (by omega) (by omega)
    exact ⟨_, _, q, rfl, rfl, hd.1, hd.2, hacos _ hd.1 hd.2⟩
  · intro k h5 hk
    exact (glm_dot_avg_normal_values_bounds seq._bps hunit k k h5 hk h5 hk).2

theorem sample_unit_steps_unit :
    ∀ bp ∈ sample_unit_steps._bps, glm_dot bp.normal bp.normal = 1 := by
  intro bp hbp
  simp only [sample_unit_steps, List.mem_map] at hbp
  obtain ⟨k, -, rfl⟩ := hbp
  by_cases hk : k % 2 = 0
  · simp [BasePair.normal, glm_dot, hk]
  · simp only [BasePair.normal, glm_dot, hk, if_false]
    norm_num

theorem stored_angles_in_range_exact_witness :
    (0 : Int) ≤ 1 ∧ (1 : Int) < 2 ^ 31 ∧ sample_unit_steps._bps.length < 2 ^ 64 ∧
    (∀ bp ∈ sample_unit_steps._bps, glm_dot bp.normal bp.normal = 1) ∧
    (∀ d : ℚ, -1 ≤ d → d ≤ 1 →
      0 ≤ GlmFuncs.rational.acos d ∧ GlmFuncs.rational.acos d ≤ 2 * GlmFuncs.rational.half_pi) ∧
    glm_dot (avg_normal_value sample_unit_steps._bps 5 6)
      (avg_normal_value sample_unit_steps._bps 5 6) ≤ 1 := by
  have hl : sample_unit_steps._bps.length = 13 := by simp [sample_unit_steps]
  have h1 : sample_unit_steps._bps.length < 2 ^ 64 := by rw [hl]; decide
  have hacos : ∀ d : ℚ, -1 ≤ d → d ≤ 1 →
      0 ≤ GlmFuncs.rational.acos d ∧ GlmFuncs.rational.acos d ≤ 2 * GlmFuncs.rational.half_pi := by
    intro d hd1 hd2
    simp only [GlmFuncs.rational]
    constructor <;> linarith
  exact ⟨by decide, by decide, h1, sample_unit_steps_unit, hacos,
    (stored_angles_in_range_exact GlmFuncs.rational sample_unit_steps 1 (by decide)
      (by decide) h1 sample_unit_steps_unit hacos).2.2 6 (by decide) (by rw [hl]; decide)⟩

end AngleRangeClaim

end curveDNA

/-! ## Steps without wedge -/

namespace curveDNA

section Screws

variable {R : Type} [LinearOrderedField R]

end Screws

end curveDNA

namespace curveDNA

section Straight

variable {R : Type} [LinearOrderedField R]

end Straight

end curveDNA

/-! ## Sequences without wedge -/

namespace curveDNA

section StraightSequence

variable {R : Type} [LinearOrderedField R]

end StraightSequence

end curveDNA

namespace curveDNA

end curveDNA
namespace curveDNA

section StraightClaim

variable {R : Type} [LinearOrderedField R]

end StraightClaim

end curveDNA

/-! ## The passes in `float` arithmetic and on short sequences -/

namespace curveDNA

/-- C13: on the sequence read from the sample file, which has three steps, the
length guard of `compute_curvature(1)` passes (`3 >= 2 * 1`), the bound `3 - 5`
of the first loop wraps around in `size_t`, the loop body runs for `bp = 5` and
reads `_bps[5 + -2]`, which is not there: already one run has no defined
result, so there is no state after one run that a second run could leave
unchanged. -/
theorem compute_curvature_again_on_sample :
    ∃ seq, Sequence.init GlmFuncs.rational (Sequence.new sample_sequence_storage) "sample"
        (some sample_content) sample_params sample_storage 'x' = Except.ok seq ∧
      seq._bps.length = 3 ∧
      ¬ (seq._bps.length < size_t_of_int (2 * 1)) ∧
      size_t_of_int ((seq._bps.length : Int) - 5) = 2 ^ 64 - 2 ∧
      vec_at seq._bps (5 + -2) = none ∧
      Sequence.compute_curvature GlmFuncs.rational seq 1 = none ∧
      ((Sequence.compute_curvature GlmFuncs.rational seq 1).bind fun s1 =>
        Sequence.compute_curvature GlmFuncs.rational s1 1) = none := by
  obtain ⟨seq, h⟩ := sample_init_ok
  obtain ⟨content1, hc, -, hb, -, -⟩ :=
    Sequence.init_ok_inv GlmFuncs.rational sample_sequence_storage "sample" _ sample_params
      sample_storage 'x' seq h
  cases hc
  have hk : (init_keys sample_content 'x').length = 3 := by decide
  have hlen : seq._bps.length = 3 := by
    rw [hb, place_from_length, init_built_length, hk]
  have hnone : Sequence.compute_curvature GlmFuncs.rational seq 1 = none :=
    Sequence.compute_curvature_none GlmFuncs.rational seq 1 (by rw [hlen]; decide) (by rw [hlen]; decide)
  refine ⟨seq, h, hlen, ?_, ?_, ?_, hnone, ?_⟩
  · rw [hlen]; decide
  · rw [hlen]; decide
  · rw [vec_at, List.getElem?_eq_none_iff, hlen]; decide
  · rw [hnone]; rfl

/-- C14: a stored normal that is a unit vector as far as `float` can tell, and
a dot product above 1. The `float` vector `(0.242535636, 0, 0.970142543)` is
`glm::normalize(glm::vec3(1, 0, 4))`: the dot product of `(1, 0, 4)` with itself
is 17, `8646779 / 2 ^ 21` is the `float` nearest to the square root of 17 (the
neighbouring `float` are `2 ^ -21` apart), and the vector is `(1, 0, 4)` times
the rounded quotient of 1 by it. Its exact squared norm differs from 1 by less
than `2 ^ -23`. On one step with this normal the guard and the loop condition
of `compute_bending(0)` hold for `i = 0`, and the dot product passed to
`glm::acos` is `1 + 2 ^ -23`, which is not in `[-1, 1]`. -/
theorem bending_dot_exceeds_one_in_float :
    glm_dot_f32 ⟨1, 0, 4⟩ ⟨1, 0, 4⟩ = 17 ∧
    (f32_round sample_float_sqrt17 = sample_float_sqrt17 ∧
      (sample_float_sqrt17 - 1 / 2 ^ 22) ^ 2 < 17 ∧
      17 < (sample_float_sqrt17 + 1 / 2 ^ 22) ^ 2) ∧
    vec3.muls_f32 ⟨1, 0, 4⟩ (f32_div 1 sample_float_sqrt17) = sample_float_normal ∧
    |glm_dot sample_float_normal sample_float_normal - 1| < 1 / 2 ^ 23 ∧
    ¬ (sample_float_step._bps.length < size_t_of_int (2 * 0)) ∧
    (0 : Nat) < size_t_of_int ((sample_float_step._bps.length : Int) - 0) ∧
    Sequence.compute_bending_dot_f32 0 0 sample_float_step._bps = some (1 + 1 / 2 ^ 23) ∧
    ¬ ((1 : ℚ) + 1 / 2 ^ 23 ≤ 1) := by
  refine ⟨by decide!, ⟨by decide!, by norm_num [sample_float_sqrt17],
    by norm_num [sample_float_sqrt17]⟩, by decide!, ?_, by decide, by decide, by decide!,
    by norm_num⟩
  rw [abs_lt]
  constructor <;> norm_num [glm_dot, sample_float_normal]

end curveDNA
